import Mathlib

/-!
# ImNodeFlow: the pin / link dataflow model

A shallow embedding of `include/ImNodeFlow.h`.  Objects that the C++ code
reaches through pointers live in arenas keyed by their address (a natural
number): input pins, output pins and links.  A `std::shared_ptr<Link>` or
`std::weak_ptr<Link>` is the address of the link; a weak pointer is expired
exactly when the link arena has no object at that address.

Member functions whose bodies are in the header are transcribed from it.
Member functions that the header only declares (their bodies are in
`src/ImNodeFlow.inl`, which is not part of the sources at hand) are modelled
from the specification and say so in their doc comment.
-/

namespace ImFlow

/-! ## Arenas: finite maps from addresses to objects -/

namespace Arena

/-- Object stored at address `a`, if any (the first binding wins). -/
def find {α : Type} : List (Nat × α) → Nat → Option α
  | [], _ => none
  | (k, v) :: m, a => if k = a then some v else find m a

/-- Apply `f` to the object stored at address `a`. -/
def modify {α : Type} (m : List (Nat × α)) (a : Nat) (f : α → α) : List (Nat × α) :=
  m.map (fun e => (e.1, if e.1 = a then f e.2 else e.2))

/-- Free the object stored at address `a`. -/
def remove {α : Type} (m : List (Nat × α)) (a : Nat) : List (Nat × α) :=
  m.filter (fun e => decide (e.1 ≠ a))

/-- Addresses in use. -/
def keys {α : Type} (m : List (Nat × α)) : List Nat :=
  m.map Prod.fst

end Arena

/-! ## Data model -/

/-- The value of `typeid(T)` for the template argument of a pin. -/
inductive TypeTag where
  | int
  | float
  | double
  | other (n : Nat)
  deriving DecidableEq, Repr

/-- Enumeration `PinType`. -/
inductive PinType where
  | PinType_Input
  | PinType_Output
  deriving DecidableEq, Repr

/-- Class `Pin`: the members every pin has, as seen through a `Pin*`; style,
position, size and renderer, which only drawing uses, are left out.
`dataType` is what the virtual `getDataType()` returns. -/
structure Pin where
  m_uid : Nat
  m_name : String
  m_type : PinType
  m_parent : Nat
  m_inf : Nat
  dataType : TypeTag

/-- Class `Link`. -/
structure Link where
  m_left : Nat
  m_right : Nat
  m_inf : Nat
  m_hovered : Bool
  m_selected : Bool
  deriving DecidableEq, Repr

/-- Constructor `Link::Link(left, right, inf)`. -/
def Link.new (left right inf : Nat) : Link :=
  { m_left := left, m_right := right, m_inf := inf, m_hovered := false, m_selected := false }

/-- Accessor `Link::left()`. -/
def Link.left (l : Link) : Nat := l.m_left

/-- Accessor `Link::right()`. -/
def Link.right (l : Link) : Nat := l.m_right

/-- Accessor `Link::isHovered()`. -/
def Link.isHovered (l : Link) : Bool := l.m_hovered

/-- Accessor `Link::isSelected()`. -/
def Link.isSelected (l : Link) : Bool := l.m_selected

/-- Class `InPin<T>`; `V` is the carrier of the pin values. -/
structure InPin (V : Type) extends Pin where
  m_link : Option Nat
  m_emptyVal : V
  m_filter : Pin → Pin → Bool
  m_allowSelfConnection : Bool

/-- The `std::function<T()>` of an output pin: the input pins it reads with
`val()`, in order, and the function it applies to what it read. -/
structure Behaviour (V : Type) where
  reads : List Nat
  compute : List V → V

/-- Class `OutPin<T>`. -/
structure OutPin (V : Type) extends Pin where
  m_links : List Nat
  m_behaviour : Option (Behaviour V)
  m_val : V

/-- Class `ConnectionFilter`. -/
def ConnectionFilter.None : Pin → Pin → Bool :=
  fun _ _ => true

/-- Filter `ConnectionFilter::SameType()`. -/
def ConnectionFilter.SameType : Pin → Pin → Bool :=
  fun out inp => decide (out.dataType = inp.dataType)

/-- Filter `ConnectionFilter::Numbers()`. -/
def ConnectionFilter.Numbers : Pin → Pin → Bool :=
  fun out _ =>
    decide (out.dataType = TypeTag.double) || decide (out.dataType = TypeTag.float)
      || decide (out.dataType = TypeTag.int)

/-- Constructor `InPin<T>::InPin(uid, name, defReturn, filter, style, parent, inf)`;
`m_link` starts empty and `m_allowSelfConnection` is initialised to `false`. -/
def InPin.new {V : Type} (tag : TypeTag) (uid : Nat) (name : String) (defReturn : V)
    (filter : Pin → Pin → Bool) (parent inf : Nat) : InPin V :=
  { m_uid := uid, m_name := name, m_type := PinType.PinType_Input, m_parent := parent,
    m_inf := inf, dataType := tag, m_link := none, m_emptyVal := defReturn,
    m_filter := filter, m_allowSelfConnection := false }

/-- Constructor `OutPin<T>::OutPin(uid, name, style, parent, inf)`; no link, no
behaviour, and `m_val` default-initialised. -/
def OutPin.new {V : Type} [Inhabited V] (tag : TypeTag) (uid : Nat) (name : String)
    (parent inf : Nat) : OutPin V :=
  { m_uid := uid, m_name := name, m_type := PinType.PinType_Output, m_parent := parent,
    m_inf := inf, dataType := tag, m_links := [], m_behaviour := none, m_val := default }

/-- Setter `OutPin<T>::behaviour(func)`. -/
def OutPin.behaviour {V : Type} (p : OutPin V) (func : Behaviour V) : OutPin V :=
  { p with m_behaviour := some func }

/-- Method `InPin<T>::allowSameNodeConnections(state)`. -/
def InPin.allowSameNodeConnections {V : Type} (p : InPin V) (state : Bool) : InPin V :=
  { p with m_allowSelfConnection := state }

/-- Method `InPin<T>::isConnected()`: `m_link != nullptr`. -/
def InPin.isConnected {V : Type} (p : InPin V) : Bool :=
  p.m_link.isSome

/-- Method `InPin<T>::getLink()`. -/
def InPin.getLink {V : Type} (p : InPin V) : Option Nat :=
  p.m_link

/-- Method `InPin<T>::getFilter()`. -/
def InPin.getFilter {V : Type} (p : InPin V) : Pin → Pin → Bool :=
  p.m_filter

/-- Method `OutPin<T>::isConnected()`: `!m_links.empty()`. -/
def OutPin.isConnected {V : Type} (p : OutPin V) : Bool :=
  !p.m_links.isEmpty

/-- Method `Pin::getLink()` as inherited by `OutPin<T>`: an empty weak pointer. -/
def OutPin.getLink {V : Type} (_p : OutPin V) : Option Nat :=
  none

/-- The heap the pin / link model works on: the pins and links that exist,
the editor link list `ImNodeFlow::m_links` (weak pointers), and the
address the next `std::make_shared<Link>` returns. -/
structure Flow (V : Type) where
  ins : List (Nat × InPin V)
  outs : List (Nat × OutPin V)
  links : List (Nat × Link)
  m_links : List Nat
  nextLink : Nat

variable {V : Type}

/-! ## Link teardown -/

/-- Modelled from the spec: the body of `OutPin<T>::deleteLink()` is not in the
header; its declaration there reads "Delete any expired weak pointers to a
(now deleted) link".  The fan-out list of output pin `o` keeps the weak
pointers that have not expired. -/
def OutPin.deleteLink (s : Flow V) (o : Nat) : Flow V :=
  { s with outs := Arena.modify s.outs o (fun p =>
      { p with m_links := p.m_links.filter (fun l => (Arena.find s.links l).isSome) }) }

/-- Modelled from the spec: the body of `Link::~Link()` is not in the header
("Deletes references of this links form connected pins"); the spec says "its
destructor removes its own references from both endpoints".  The destructor
runs when the owning pointer, the `m_link` of the right endpoint, has been
dropped, so the reference left to remove is the weak pointer in the fan-out
list of the left endpoint: `m_left->deleteLink()`. -/
def Link.dtor (s : Flow V) (lk : Link) : Flow V :=
  OutPin.deleteLink s lk.m_left

/-- Method `InPin<T>::deleteLink()`: `m_link.reset()`.  The input pin is the
only lasting owner of its link ("the input pin owns it outright"), so
dropping the pointer frees the link and runs its destructor. -/
def InPin.deleteLink (s : Flow V) (i : Nat) : Flow V :=
  match Arena.find s.ins i with
  | none => s
  | some p =>
    match p.m_link with
    | none => s
    | some l =>
      let s1 : Flow V :=
        { s with ins := Arena.modify s.ins i (fun q => { q with m_link := none }),
                 links := Arena.remove s.links l }
      match Arena.find s.links l with
      | none => s1
      | some lk => Link.dtor s1 lk

/-- One turn of the loop in `OutPin<T>::~OutPin()`:
`if (!l.expired()) l.lock()->right()->deleteLink();` where the right end of
a link is an input pin. -/
def OutPin.dtorStep (st : Flow V) (l : Nat) : Flow V :=
  match Arena.find st.links l with
  | none => st
  | some lk => InPin.deleteLink st lk.right

/-- Destructor `OutPin<T>::~OutPin()`: the fan-out list is moved out of the pin,
and for every weak pointer in it that has not expired the input pin at the
right end of the link deletes its link; then the pin is gone. -/
def OutPin.dtor (s : Flow V) (o : Nat) : Flow V :=
  match Arena.find s.outs o with
  | none => s
  | some po =>
    let s0 : Flow V := { s with outs := Arena.modify s.outs o (fun q => { q with m_links := [] }) }
    let s1 : Flow V := po.m_links.foldl OutPin.dtorStep s0
    { s1 with outs := Arena.remove s1.outs o }

/-! ## Link creation -/

/-- Modelled from the spec: the body of `OutPin<T>::setLink(link)` is not in the
header ("Add a connected link to the internal list"); the spec says the new
link is registered "as a fan-out member" of the output pin. -/
def OutPin.setLink (s : Flow V) (o : Nat) (l : Nat) : Flow V :=
  { s with outs := Arena.modify s.outs o (fun p => { p with m_links := p.m_links ++ [l] }) }

/-- Modelled from the spec: the body of `ImNodeFlow::addLink(link)` is not in
the header ("Add link to the handler internal list"); the editor keeps weak
references to links for enumeration. -/
def ImNodeFlow.addLink (s : Flow V) (l : Nat) : Flow V :=
  { s with m_links := s.m_links ++ [l] }

/-- Why a `createLink` call did not produce a link: the three
`ConnectionRejected` conditions of the spec, and `InvalidHandle`. -/
inductive LinkError where
  | typeMismatch
  | filterRejection
  | selfConnection
  | invalidHandle
  deriving DecidableEq, Repr

/-- Modelled from the spec: the bodies of `OutPin<T>::createLink` and
`InPin<T>::createLink` are not in the header.  Spec: "`createLink(outputPin,
inputPin)`: validates I2 and I3; on success replaces any existing link on
`inputPin` (enforcing I1) and registers the new link as a fan-out member of
`outputPin`; returns the new link or fails with a ConnectionRejected
condition (type mismatch, filter rejection, or disallowed self-connection)";
I1: "assigning a second link first releases the first"; a rejected call
leaves the graph unchanged.  The result is the outcome reported to the caller
together with the heap after the call. -/
def createLink (s : Flow V) (o i : Nat) : Except LinkError Nat × Flow V :=
  match Arena.find s.outs o, Arena.find s.ins i with
  | some po, some pi =>
    if po.dataType ≠ pi.dataType then (Except.error LinkError.typeMismatch, s)
    else if pi.m_filter po.toPin pi.toPin = false then (Except.error LinkError.filterRejection, s)
    else if po.m_parent = pi.m_parent ∧ pi.m_allowSelfConnection = false then
      (Except.error LinkError.selfConnection, s)
    else
      let s1 := InPin.deleteLink s i
      let l := s1.nextLink
      let s2 : Flow V :=
        { s1 with links := (l, Link.new o i pi.m_inf) :: s1.links,
                  nextLink := l + 1,
                  ins := Arena.modify s1.ins i (fun q => { q with m_link := some l }) }
      (Except.ok l, ImNodeFlow.addLink (OutPin.setLink s2 o l) l)
  | _, _ => (Except.error LinkError.invalidHandle, s)

/-! ## Pull evaluation -/

/-- How an evaluation can end without a value. -/
inductive EvalError where
  | outOfFuel
  | invalidHandle
  deriving DecidableEq, Repr

/-- Read the listed input pins in order with `f`; the first failure ends the read. -/
def readAll (f : Nat → Except EvalError V) : List Nat → Except EvalError (List V)
  | [] => Except.ok []
  | i :: is =>
    match f i with
    | Except.error e => Except.error e
    | Except.ok v =>
      match readAll f is with
      | Except.error e => Except.error e
      | Except.ok vs => Except.ok (v :: vs)

/-- Modelled from the spec: the body of `OutPin<T>::val()` is not in the header.
Spec: the upstream output pin's producer function is recomputed on every
call, and "an output with no producer set resolves to a type-default
value".  `f` is how the producer reads an input pin.  No operation of the
spec reads the cached `m_val`, so a run returns its value and leaves the
heap as it is. -/
def runBehaviour [Inhabited V] (f : Nat → Except EvalError V) :
    Option (Behaviour V) → Except EvalError V
  | none => Except.ok default
  | some b =>
    match readAll f b.reads with
    | Except.error e => Except.error e
    | Except.ok vs => Except.ok (b.compute vs)

/-- Modelled from the spec: the body of `InPin<T>::val()` is not in the header.
Spec: "`value(inputPin) -> T`: the pull-evaluation entry point. If
unconnected, returns the pin's default value. If connected, recomputes the
upstream output pin's producer function on every call"; "evaluation
maintains a call-local set of pins currently being resolved (an evaluation
stack keyed by pin identity). If `value()` is invoked for a pin already on
that stack, the call breaks the cycle by returning the pin's default value
immediately instead of recursing".  `stack` is the evaluation stack and the
first argument bounds the depth of nested requests. -/
def valueAux [Inhabited V] : Nat → Flow V → List Nat → Nat → Except EvalError V
  | 0, _, _, _ => Except.error EvalError.outOfFuel
  | fuel + 1, s, stack, i =>
    match Arena.find s.ins i with
    | none => Except.error EvalError.invalidHandle
    | some p =>
      if i ∈ stack then Except.ok p.m_emptyVal
      else
        match p.m_link with
        | none => Except.ok p.m_emptyVal
        | some l =>
          match Arena.find s.links l with
          | none => Except.error EvalError.invalidHandle
          | some lk =>
            match Arena.find s.outs lk.left with
            | none => Except.error EvalError.invalidHandle
            | some po => runBehaviour (fun j => valueAux fuel s (i :: stack) j) po.m_behaviour

/-- Modelled from the spec: `value(inputPin)`, that is `InPin<T>::val()`, started
with an empty evaluation stack.  Every nested request that recurses puts one
more input pin on the stack, so one more than the number of input pins is
depth enough. -/
def InPin.val [Inhabited V] (s : Flow V) (i : Nat) : Except EvalError V :=
  valueAux (s.ins.length + 1) s [] i

/-! ## Reading a pin through its address -/

/-- Call `isConnected()` on the input pin at address `i`. -/
def Flow.inIsConnected (s : Flow V) (i : Nat) : Option Bool :=
  (Arena.find s.ins i).map InPin.isConnected

/-- Call `getLink()` on the input pin at address `i`. -/
def Flow.inGetLink (s : Flow V) (i : Nat) : Option (Option Nat) :=
  (Arena.find s.ins i).map InPin.getLink

/-- Call `isConnected()` on the output pin at address `o`. -/
def Flow.outIsConnected (s : Flow V) (o : Nat) : Option Bool :=
  (Arena.find s.outs o).map OutPin.isConnected

/-! ## A small graph used to exercise the statements

Node 10 has the integer outputs 1 (constant 5) and 2 (constant 7) and the
integer input 13; node 20 has the float output 3 and the integer input 11;
node 30 has the integer inputs 12 and 14, the latter with a filter that
accepts nothing. -/

/-- A producer that reads nothing and returns `c`. -/
def Behaviour.const (c : V) : Behaviour V :=
  { reads := [], compute := fun _ => c }

/-- The sample graph before any link is made. -/
def sample0 : Flow Int :=
  { ins := [(11, InPin.new TypeTag.int 1 "in" 0 ConnectionFilter.SameType 20 99),
            (12, InPin.new TypeTag.int 1 "in" 0 ConnectionFilter.SameType 30 99),
            (14, InPin.new TypeTag.int 2 "shut" 0 (fun _ _ => false) 30 99),
            (13, InPin.new TypeTag.int 1 "in" 0 ConnectionFilter.SameType 10 99)],
    outs := [(1, (OutPin.new TypeTag.int 1 "five" 10 99).behaviour (Behaviour.const 5)),
             (2, (OutPin.new TypeTag.int 2 "seven" 10 99).behaviour (Behaviour.const 7)),
             (3, (OutPin.new TypeTag.float 1 "float" 20 99).behaviour (Behaviour.const 1))],
    links := [], m_links := [], nextLink := 0 }

/-- The sample graph after `createLink(1, 11)`. -/
def sample1 : Flow Int := (createLink sample0 1 11).2

/-- Number of input-pin entries whose address is not on the evaluation stack. -/
def pending (s : Flow V) (stack : List Nat) : Nat :=
  ((Arena.keys s.ins).filter (fun a => decide (a ∉ stack))).length

/-- No dangling reference on an evaluation path: every link held by an input
pin exists, its left endpoint is an output pin that exists, and every input
pin read by the producer of that output pin exists. -/
def closed (s : Flow V) : Bool :=
  s.ins.all (fun e =>
    match e.2.m_link with
    | none => true
    | some l =>
      match Arena.find s.links l with
      | none => false
      | some lk =>
        match Arena.find s.outs lk.left with
        | none => false
        | some po =>
          match po.m_behaviour with
          | none => true
          | some b => b.reads.all (fun j => (Arena.find s.ins j).isSome))

/-! ## A graph with feedback

Node 10 has the input 1 (default 7), which allows same-node connections, and
the output 3, whose producer reads input 1 and adds one; node 20 has the
input 2 (default 0). -/

/-- The producer of output 3: one more than the sum of what it reads from input 1. -/
def succBehaviour : Behaviour Int :=
  { reads := [1], compute := fun vs => vs.sum + 1 }

/-- The feedback graph before any link is made. -/
def loop0 : Flow Int :=
  { ins := [(1, (InPin.new TypeTag.int 1 "a" 7 ConnectionFilter.SameType 10
                  99).allowSameNodeConnections true),
            (2, InPin.new TypeTag.int 1 "b" 0 ConnectionFilter.SameType 20 99)],
    outs := [(3, (OutPin.new TypeTag.int 1 "o" 10 99).behaviour succBehaviour)],
    links := [], m_links := [], nextLink := 0 }

/-- The feedback graph after `createLink(3, 1)`: output 3 feeds the input it reads. -/
def loop1 : Flow Int := (createLink loop0 3 1).2

/-- The feedback graph after `createLink(3, 2)` as well: output 3 fans out to inputs 1 and 2. -/
def loop2 : Flow Int := (createLink loop1 3 2).2

/-! ## Invariants of the heap -/

/-- Ownership of links (I1): a live link is held by the input pin at its right
end, and the link an input pin holds is live and has that pin at its right
end. -/
structure Owned (s : Flow V) : Prop where
  holder : ∀ l lk, Arena.find s.links l = some lk →
    ∃ p, Arena.find s.ins lk.right = some p ∧ p.m_link = some l
  held : ∀ i p l, Arena.find s.ins i = some p → p.m_link = some l →
    ∃ lk, Arena.find s.links l = some lk ∧ lk.right = i

/-- Well-formed heap: links are owned, their addresses are below the next
address to be handed out, and every live link is registered in the fan-out
list of the output pin at its left end. -/
structure WF (s : Flow V) extends Owned s : Prop where
  fresh : ∀ l lk, Arena.find s.links l = some lk → l < s.nextLink
  registered : ∀ l lk, Arena.find s.links l = some lk →
    ∃ po, Arena.find s.outs lk.left = some po ∧ l ∈ po.m_links

/-- The sample graph after `createLink(1, 11)` and then `createLink(2, 11)`. -/
def sample2 : Flow Int := (createLink sample1 2 11).2

/-- Evaluating input pin `i` makes a request for input pin `j`: `i` holds a live
link whose left end is an output pin with a producer that reads `j`. -/
def readsFrom (s : Flow V) (i j : Nat) : Prop :=
  ∃ p l lk po b, Arena.find s.ins i = some p ∧ p.m_link = some l ∧
    Arena.find s.links l = some lk ∧ Arena.find s.outs lk.left = some po ∧
    po.m_behaviour = some b ∧ j ∈ b.reads

/-- Input pin `i` is `j` or its evaluation requests `j`, directly or through
further pins. -/
def dependsOn (s : Flow V) (i j : Nat) : Prop :=
  Relation.ReflTransGen (readsFrom s) i j

/-- The sample graph after `createLink(1, 11)` and then `createLink(1, 12)`:
output 1 fans out to the inputs 11 and 12. -/
def fan2 : Flow Int := (createLink sample1 1 12).2

/-! ## Nodes -/

/-- Struct `ImVec2` of Dear ImGui, with exact coordinates. -/
structure ImVec2 where
  x : ℚ
  y : ℚ
  deriving DecidableEq

/-- Class `BaseNode`.  Pointers are addresses (`none` is `nullptr`), the pin
lists hold the addresses of the pins, and an entry of a dynamic pin list
is the marker paired with the pin. -/
structure BaseNode where
  m_uid : Nat
  m_title : String
  m_pos : ImVec2
  m_posTarget : ImVec2
  m_size : ImVec2
  m_inf : Option Nat
  m_style : Option Nat
  m_selected : Bool
  m_selectedNext : Bool
  m_dragged : Bool
  m_destroyed : Bool
  m_ins : List Nat
  m_dynamicIns : List (Int × Nat)
  m_outs : List Nat
  m_dynamicOuts : List (Int × Nat)
  deriving DecidableEq

/-- Constructor `BaseNode::BaseNode()` for the object at address `this`:
`m_uid = reinterpret_cast<uintptr_t>(this)`, every other member at its
default member initialiser. -/
def BaseNode.new (this : Nat) : BaseNode :=
  { m_uid := this, m_title := "", m_pos := ⟨0, 0⟩, m_posTarget := ⟨0, 0⟩, m_size := ⟨0, 0⟩,
    m_inf := none, m_style := none, m_selected := false, m_selectedNext := false,
    m_dragged := false, m_destroyed := false, m_ins := [], m_dynamicIns := [], m_outs := [],
    m_dynamicOuts := [] }

/-- Method `BaseNode::getIns()`. -/
def BaseNode.getIns (n : BaseNode) : List Nat := n.m_ins

/-- Method `BaseNode::getOuts()`. -/
def BaseNode.getOuts (n : BaseNode) : List Nat := n.m_outs

/-- Method `BaseNode::destroy()`. -/
def BaseNode.destroy (n : BaseNode) : BaseNode := { n with m_destroyed := true }

/-- Method `BaseNode::toDestroy()`. -/
def BaseNode.toDestroy (n : BaseNode) : Bool := n.m_destroyed

/-- Method `BaseNode::getUID()`. -/
def BaseNode.getUID (n : BaseNode) : Nat := n.m_uid

/-- Method `BaseNode::getName()`. -/
def BaseNode.getName (n : BaseNode) : String := n.m_title

/-- Method `BaseNode::getSize()`. -/
def BaseNode.getSize (n : BaseNode) : ImVec2 := n.m_size

/-- Method `BaseNode::getPos()`. -/
def BaseNode.getPos (n : BaseNode) : ImVec2 := n.m_pos

/-- Method `BaseNode::getHandler()`. -/
def BaseNode.getHandler (n : BaseNode) : Option Nat := n.m_inf

/-- Method `BaseNode::getStyle()`. -/
def BaseNode.getStyle (n : BaseNode) : Option Nat := n.m_style

/-- Method `BaseNode::isSelected()`. -/
def BaseNode.isSelected (n : BaseNode) : Bool := n.m_selected

/-- Method `BaseNode::isDragged()`. -/
def BaseNode.isDragged (n : BaseNode) : Bool := n.m_dragged

/-- Method `BaseNode::setUID(uid)`. -/
def BaseNode.setUID (n : BaseNode) (uid : Nat) : BaseNode := { n with m_uid := uid }

/-- Method `BaseNode::setTitle(title)`. -/
def BaseNode.setTitle (n : BaseNode) (title : String) : BaseNode := { n with m_title := title }

/-- Method `BaseNode::setPos(pos)`. -/
def BaseNode.setPos (n : BaseNode) (pos : ImVec2) : BaseNode :=
  { n with m_pos := pos, m_posTarget := pos }

/-- Method `BaseNode::setHandler(inf)`. -/
def BaseNode.setHandler (n : BaseNode) (inf : Option Nat) : BaseNode := { n with m_inf := inf }

/-- Method `BaseNode::setStyle(style)`. -/
def BaseNode.setStyle (n : BaseNode) (style : Option Nat) : BaseNode :=
  { n with m_style := style }

/-- Method `BaseNode::selected(state)`. -/
def BaseNode.selected (n : BaseNode) (state : Bool) : BaseNode :=
  { n with m_selectedNext := state }

/-- Method `BaseNode::updatePublicStatus()`. -/
def BaseNode.updatePublicStatus (n : BaseNode) : BaseNode :=
  { n with m_selected := n.m_selectedNext }

/-! ## The editor -/

/-- Class `ImNodeFlow`: the members of the editor besides its link list, which
is `Flow.m_links`, and the evaluation stack; pointers are addresses
(`none` is `nullptr`), the node map, the callbacks, the drawing context and
the style are left out. -/
structure ImNodeFlow where
  m_name : String
  m_singleUseClick : Bool
  m_droppedLinkLeft : Option Nat
  m_hoveredNodeAux : Option Nat
  m_hoveredNode : Option Nat
  m_draggingNode : Bool
  m_draggingNodeNext : Bool
  m_hovering : Option Nat
  m_dragOut : Option Nat
  deriving DecidableEq

/-- Largest value of the C++ type `int`. -/
def INT_MAX : Int := 2147483647

/-- Decimal digits of a natural number, most significant first, as `std::to_string` prints them. -/
def decimalDigits (n : Nat) : List Char :=
  if n = 0 then ['0'] else ((Nat.digits 10 n).reverse).map Nat.digitChar

/-- Function `std::to_string(int)`: the decimal numeral, with a minus sign when negative. -/
def to_string (n : Int) : String :=
  match n with
  | Int.ofNat k => String.mk (decimalDigits k)
  | Int.negSucc k => String.mk ('-' :: decimalDigits (k + 1))

/-- Constructor `ImNodeFlow::ImNodeFlow(std::string&& name)` run when the static
counter `m_instances` is `instances`: the editor with its default member
initialisers, and the counter after `m_instances++`.  Incrementing an `int`
that is `INT_MAX` is undefined, so then there is no result. -/
def ImNodeFlow.new (name : String) (instances : Int) : Option (ImNodeFlow × Int) :=
  if instances < INT_MAX then
    some ({ m_name := name, m_singleUseClick := false, m_droppedLinkLeft := none,
            m_hoveredNodeAux := none, m_hoveredNode := none, m_draggingNode := false,
            m_draggingNodeNext := false, m_hovering := none, m_dragOut := none },
          instances + 1)
  else none

/-- Constructor `ImNodeFlow::ImNodeFlow()`: delegates to the named constructor
with `"FlowGrid" + std::to_string(m_instances)`. -/
def ImNodeFlow.newDefault (instances : Int) : Option (ImNodeFlow × Int) :=
  ImNodeFlow.new ("FlowGrid" ++ to_string instances) instances

/-- Construct one editor: `none` asks for the default constructor, `some name`
for the named one. -/
def constructOne (req : Option String) (instances : Int) : Option (ImNodeFlow × Int) :=
  match req with
  | none => ImNodeFlow.newDefault instances
  | some name => ImNodeFlow.new name instances

/-- Construct editors one after the other, starting with the counter at
`instances`.  The result is the editors in order and the final counter. -/
def constructAll : List (Option String) → Int → Option (List ImNodeFlow × Int)
  | [], instances => some ([], instances)
  | req :: reqs, instances =>
    match constructOne req instances with
    | none => none
    | some (e, instances1) =>
      match constructAll reqs instances1 with
      | none => none
      | some (es, instances2) => some (e :: es, instances2)

/-- Method `ImNodeFlow::getSingleUseClick()`. -/
def ImNodeFlow.getSingleUseClick (e : ImNodeFlow) : Bool := e.m_singleUseClick

/-- Method `ImNodeFlow::consumeSingleUseClick()`. -/
def ImNodeFlow.consumeSingleUseClick (e : ImNodeFlow) : ImNodeFlow :=
  { e with m_singleUseClick := false }

/-- Method `ImNodeFlow::getName()`. -/
def ImNodeFlow.getName (e : ImNodeFlow) : String := e.m_name

/-- Method `ImNodeFlow::isNodeDragged()`. -/
def ImNodeFlow.isNodeDragged (e : ImNodeFlow) : Bool := e.m_draggingNode

/-- Method `ImNodeFlow::draggingNode(state)`. -/
def ImNodeFlow.draggingNode (e : ImNodeFlow) (state : Bool) : ImNodeFlow :=
  { e with m_draggingNodeNext := state }

/-- Method `ImNodeFlow::hovering(hovering)`. -/
def ImNodeFlow.hovering (e : ImNodeFlow) (hovering : Option Nat) : ImNodeFlow :=
  { e with m_hovering := hovering }

/-- Method `ImNodeFlow::hoveredNode(hovering)`. -/
def ImNodeFlow.hoveredNode (e : ImNodeFlow) (hovering : Option Nat) : ImNodeFlow :=
  { e with m_hoveredNode := hovering }

/-- An element that reacts to the click of the frame: it tests
`getSingleUseClick()` and then calls `consumeSingleUseClick()`.  The result
is what the element saw and the editor afterwards. -/
def reactToClick (e : ImNodeFlow) : Bool × ImNodeFlow :=
  (e.getSingleUseClick, e.consumeSingleUseClick)

/-! ## Several nodes -/

/-- The implicitly declared copy constructor and copy assignment of `BaseNode`
(the class declares neither and deletes neither): every member is copied
from the source, `m_uid` included. -/
def BaseNode.copy (src : BaseNode) : BaseNode := src

/-- A call of the public interface of `BaseNode` on the node at address `this`;
`construct` makes a new node at a free address and `delete` frees one;
`copyConstruct` makes a new node at a free address as a copy of the node at
`src`, and `copyAssign` assigns the node at `src` to the node at `this`. -/
inductive NodeOp where
  | construct (this : Nat)
  | copyConstruct (this : Nat) (src : Nat)
  | copyAssign (this : Nat) (src : Nat)
  | delete (this : Nat)
  | setUID (this : Nat) (uid : Nat)
  | setTitle (this : Nat) (title : String)
  | setPos (this : Nat) (pos : ImVec2)
  | setHandler (this : Nat) (inf : Option Nat)
  | setStyle (this : Nat) (style : Option Nat)
  | selected (this : Nat) (state : Bool)
  | updatePublicStatus (this : Nat)
  | destroy (this : Nat)

/-- Whether the call is `setUID`. -/
def NodeOp.isSetUID : NodeOp → Bool
  | NodeOp.setUID _ _ => true
  | _ => false

/-- Whether the call copies a node: copy construction or copy assignment. -/
def NodeOp.isCopy : NodeOp → Bool
  | NodeOp.copyConstruct _ _ => true
  | NodeOp.copyAssign _ _ => true
  | _ => false

/-- Run one call on the live nodes, an arena keyed by address.  A node cannot
be constructed at an address that is in use, and the source of a copy is a
live node. -/
def NodeOp.apply (w : List (Nat × BaseNode)) : NodeOp → List (Nat × BaseNode)
  | NodeOp.construct this =>
    if (Arena.find w this).isSome then w else (this, BaseNode.new this) :: w
  | NodeOp.copyConstruct this src =>
    match Arena.find w src with
    | none => w
    | some n => if (Arena.find w this).isSome then w else (this, n.copy) :: w
  | NodeOp.copyAssign this src =>
    match Arena.find w src with
    | none => w
    | some n => Arena.modify w this (fun _ => n.copy)
  | NodeOp.delete this => Arena.remove w this
  | NodeOp.setUID this uid => Arena.modify w this (fun n => n.setUID uid)
  | NodeOp.setTitle this title => Arena.modify w this (fun n => n.setTitle title)
  | NodeOp.setPos this pos => Arena.modify w this (fun n => n.setPos pos)
  | NodeOp.setHandler this inf => Arena.modify w this (fun n => n.setHandler inf)
  | NodeOp.setStyle this style => Arena.modify w this (fun n => n.setStyle style)
  | NodeOp.selected this state => Arena.modify w this (fun n => n.selected state)
  | NodeOp.updatePublicStatus this => Arena.modify w this (fun n => n.updatePublicStatus)
  | NodeOp.destroy this => Arena.modify w this (fun n => n.destroy)

/-- The live nodes after a sequence of calls, starting with none. -/
def runNodeOps (ops : List NodeOp) : List (Nat × BaseNode) :=
  ops.foldl NodeOp.apply []

/-! ## Pins of a node -/

/-- An address above every address in use in the arena. -/
def Arena.above {α : Type} (m : List (Nat × α)) : Nat :=
  (Arena.keys m).foldr (fun a b => max (a + 1) b) 0

/-- The address `std::make_shared` returns for a new pin: one that no pin has. -/
def freshPin (s : Flow V) : Nat :=
  max (Arena.above s.ins) (Arena.above s.outs)

/-- Whether the input pin at address `a` has the uid `uid`. -/
def hasUidIn (s : Flow V) (uid : Nat) (a : Nat) : Bool :=
  match Arena.find s.ins a with
  | some p => decide (p.m_uid = uid)
  | none => false

/-- Whether the output pin at address `a` has the uid `uid`. -/
def hasUidOut (s : Flow V) (uid : Nat) (a : Nat) : Bool :=
  match Arena.find s.outs a with
  | some p => decide (p.m_uid = uid)
  | none => false

/-- Modelled from the spec: the body of `BaseNode::addIN_uid` is not in the header.
Spec: "`addInput(id, name, defaultValue, filter, style) -> InputPin`: fails
silently (returns existing) if `id` already present among the node's inputs;
must be unique only within that node+direction."  `this` is the address of
the node; the result is the pin returned, the node and the heap. -/
def BaseNode.addIN_uid (n : BaseNode) (s : Flow V) (this : Nat) (tag : TypeTag) (uid : Nat)
    (name : String) (defReturn : V) (filter : Pin → Pin → Bool) : Nat × BaseNode × Flow V :=
  match n.m_ins.find? (hasUidIn s uid) with
  | some a => (a, n, s)
  | none =>
    (freshPin s,
      { n with m_ins := n.m_ins ++ [freshPin s] },
      { s with ins := (freshPin s,
          InPin.new tag uid name defReturn filter this (n.m_inf.getD 0)) :: s.ins })

/-- Node 10 of the sample graph: its input 13 (uid 1) and its outputs 1 (uid 1)
and 2 (uid 2). -/
def sampleNode : BaseNode :=
  { BaseNode.new 10 with m_ins := [13], m_outs := [1, 2] }

/-! ## Dynamic pins -/

/-- Mark as touched (marker 1) the first entry of a dynamic pin list whose pin
satisfies `q`; `none` when no entry does. -/
def touchFirst (q : Nat → Bool) : List (Int × Nat) → Option (List (Int × Nat))
  | [] => none
  | e :: es =>
    if q e.2 then some ((1, e.2) :: es)
    else
      match touchFirst q es with
      | none => none
      | some es2 => some (e :: es2)

/-- Modelled from the spec: the body of `BaseNode::showIN_uid` is not in the
header, which says "The pin is created the first time showIN_uid is called
and kept alive as long as showIN_uid is called each frame".  A dynamic input
pin with the uid is touched if the node has one, and is created, touched,
otherwise.  The value the call returns is `InPin.val` of that pin and is
not part of the result here. -/
def BaseNode.showIN_uid (n : BaseNode) (s : Flow V) (this : Nat) (tag : TypeTag) (uid : Nat)
    (name : String) (defReturn : V) (filter : Pin → Pin → Bool) : BaseNode × Flow V :=
  match touchFirst (hasUidIn s uid) n.m_dynamicIns with
  | some es => ({ n with m_dynamicIns := es }, s)
  | none =>
    ({ n with m_dynamicIns := n.m_dynamicIns ++ [(1, freshPin s)] },
      { s with ins := (freshPin s,
          InPin.new tag uid name defReturn filter this (n.m_inf.getD 0)) :: s.ins })

/-- Modelled from the spec: the body of `BaseNode::showOUT_uid` is not in the
header, which says "The pin is created the first time showOUT_uid is called
and kept alive as long as showOUT_uid is called each frame".  A dynamic
output pin with the uid is touched if the node has one, and is created with
the given behaviour, touched, otherwise. -/
def BaseNode.showOUT_uid [Inhabited V] (n : BaseNode) (s : Flow V) (this : Nat) (tag : TypeTag)
    (uid : Nat) (name : String) (behaviour : Behaviour V) : BaseNode × Flow V :=
  match touchFirst (hasUidOut s uid) n.m_dynamicOuts with
  | some es => ({ n with m_dynamicOuts := es }, s)
  | none =>
    ({ n with m_dynamicOuts := n.m_dynamicOuts ++ [(1, freshPin s)] },
      { s with outs := (freshPin s,
          (OutPin.new tag uid name this (n.m_inf.getD 0)).behaviour behaviour) :: s.outs })

/-- Destructor of `InPin<T>` (implicit in the header): the member `m_link` is
destroyed, which drops the link as `deleteLink()` does, and the pin is gone. -/
def InPin.dtor (s : Flow V) (a : Nat) : Flow V :=
  { InPin.deleteLink s a with ins := Arena.remove (InPin.deleteLink s a).ins a }

/-- A declaration of a dynamic pin made by `draw()` in a frame. -/
inductive Decl (V : Type) where
  | showIN (tag : TypeTag) (uid : Nat) (name : String) (defReturn : V)
      (filter : Pin → Pin → Bool)
  | showOUT (tag : TypeTag) (uid : Nat) (name : String) (behaviour : Behaviour V)

/-- Whether the declaration is a `showIN` of the uid. -/
def Decl.showsIn (uid : Nat) : Decl V → Bool
  | Decl.showIN _ u _ _ _ => decide (u = uid)
  | Decl.showOUT _ _ _ _ => false

/-- Whether the declaration is a `showOUT` of the uid. -/
def Decl.showsOut (uid : Nat) : Decl V → Bool
  | Decl.showIN _ _ _ _ _ => false
  | Decl.showOUT _ u _ _ => decide (u = uid)

/-- Run one declaration on the node at address `this`. -/
def BaseNode.declare [Inhabited V] (this : Nat) (ns : BaseNode × Flow V) :
    Decl V → BaseNode × Flow V
  | Decl.showIN tag uid name defReturn filter =>
    ns.1.showIN_uid ns.2 this tag uid name defReturn filter
  | Decl.showOUT tag uid name behaviour => ns.1.showOUT_uid ns.2 this tag uid name behaviour

/-- Modelled from the spec: the end of the frame of a node, part of
`BaseNode::update()` whose body is not in the header.  Spec: "any dynamic
pin not touched during the current frame's declaration pass is removed at
frame end, and removal tears down its link exactly like node destruction".
The entries with marker 0 are erased, inputs first, and their pins
destroyed. -/
def BaseNode.sweep (n : BaseNode) (s : Flow V) : BaseNode × Flow V :=
  ({ n with
      m_dynamicIns := n.m_dynamicIns.filter (fun e => decide (e.1 ≠ 0)),
      m_dynamicOuts := n.m_dynamicOuts.filter (fun e => decide (e.1 ≠ 0)) },
    ((n.m_dynamicOuts.filter (fun e => decide (e.1 = 0))).map Prod.snd).foldl OutPin.dtor
      (((n.m_dynamicIns.filter (fun e => decide (e.1 = 0))).map Prod.snd).foldl InPin.dtor s))

/-- The node when a frame starts: no dynamic pin is touched yet. -/
def BaseNode.untouch (n : BaseNode) : BaseNode :=
  { n with
    m_dynamicIns := n.m_dynamicIns.map (fun e => (0, e.2)),
    m_dynamicOuts := n.m_dynamicOuts.map (fun e => (0, e.2)) }

/-- Modelled from the spec: the frame of a node, `BaseNode::update()`, as far as
dynamic pins go: no dynamic pin is touched when the frame starts, `draw()`
makes the declarations `decls`, and the untouched pins are swept at the
end. -/
def BaseNode.update [Inhabited V] (this : Nat) (decls : List (Decl V)) (n : BaseNode)
    (s : Flow V) : BaseNode × Flow V :=
  BaseNode.sweep (decls.foldl (BaseNode.declare this) (n.untouch, s)).1
    (decls.foldl (BaseNode.declare this) (n.untouch, s)).2

/-! ## A node with dynamic pins

Node 20 declares the dynamic input with uid 7 (default 0) in every frame it
is asked to; node 10 of the sample graph feeds it from output 1. -/

/-- The declaration of the dynamic input with uid 7. -/
def dynDecl : Decl Int :=
  Decl.showIN TypeTag.int 7 "dyn" 0 ConnectionFilter.SameType

/-- After frame 1, which declares the pin: it is created at address 15. -/
def dynFrame1 : BaseNode × Flow Int :=
  BaseNode.update 20 [dynDecl] (BaseNode.new 20) sample0

/-- After `createLink(1, 15)` and frame 2, which declares the pin again. -/
def dynFrame2 : BaseNode × Flow Int :=
  BaseNode.update 20 [dynDecl] dynFrame1.1 (createLink dynFrame1.2 1 15).2

/-- After frame 3, which declares the pin again. -/
def dynFrame3 : BaseNode × Flow Int :=
  BaseNode.update 20 [dynDecl] dynFrame2.1 dynFrame2.2

/-- After frame 4, which declares nothing. -/
def dynFrame4 : BaseNode × Flow Int :=
  BaseNode.update 20 [] dynFrame3.1 dynFrame3.2

/-- The dynamic pin at address `a` is in the list and none of its entries is touched. -/
def quiet (es : List (Int × Nat)) (a : Nat) : Prop :=
  a ∈ es.map Prod.snd ∧ ∀ e ∈ es, e.2 = a → e.1 = 0

/-- The dynamic pin at address `a` is in the list and all of its entries are touched. -/
def touched (es : List (Int × Nat)) (a : Nat) : Prop :=
  a ∈ es.map Prod.snd ∧ ∀ e ∈ es, e.2 = a → e.1 = 1

/-- The dynamic input pin at address `a` is the only dynamic input of the node
with uid `u`; it is untouched, the entries of the list have pairwise
different pins, and all those pins exist. -/
def readyIn (n : BaseNode) (s : Flow V) (a u : Nat) : Prop :=
  quiet n.m_dynamicIns a ∧ hasUidIn s u a = true ∧
    (∀ e ∈ n.m_dynamicIns, hasUidIn s u e.2 = true → e.2 = a) ∧
    (n.m_dynamicIns.map Prod.snd).Nodup ∧
    (∀ e ∈ n.m_dynamicIns, (Arena.find s.ins e.2).isSome = true)

/-- The dynamic output pin at address `o` is the only dynamic output of the
node with uid `u`; it is untouched, the entries of the list have pairwise
different pins, and all those pins exist. -/
def readyOut (n : BaseNode) (s : Flow V) (o u : Nat) : Prop :=
  quiet n.m_dynamicOuts o ∧ hasUidOut s u o = true ∧
    (∀ e ∈ n.m_dynamicOuts, hasUidOut s u e.2 = true → e.2 = o) ∧
    (n.m_dynamicOuts.map Prod.snd).Nodup ∧
    (∀ e ∈ n.m_dynamicOuts, (Arena.find s.outs e.2).isSome = true)

/-! ## Geometry of a link -/

/-- Operator `ImVec2 + ImVec2`. -/
def ImVec2.add (a b : ImVec2) : ImVec2 := ⟨a.x + b.x, a.y + b.y⟩

/-- Operator `ImVec2 - ImVec2`. -/
def ImVec2.sub (a b : ImVec2) : ImVec2 := ⟨a.x - b.x, a.y - b.y⟩

/-- Operator `ImVec2 * float`. -/
def ImVec2.scale (a : ImVec2) (t : ℚ) : ImVec2 := ⟨a.x * t, a.y * t⟩

/-- Function `ImLengthSqr` of Dear ImGui: the squared length. -/
def ImLengthSqr (a : ImVec2) : ℚ := a.x * a.x + a.y * a.y

/-- Function `ImBezierCubicCalc` of Dear ImGui: the point of the cubic Bezier
curve with the control points `p1 p2 p3 p4` at the parameter `t`. -/
def ImBezierCubicCalc (p1 p2 p3 p4 : ImVec2) (t : ℚ) : ImVec2 :=
  ⟨(1 - t) ^ 3 * p1.x + 3 * (1 - t) ^ 2 * t * p2.x + 3 * (1 - t) * t ^ 2 * p3.x + t ^ 3 * p4.x,
   (1 - t) ^ 3 * p1.y + 3 * (1 - t) ^ 2 * t * p2.y + 3 * (1 - t) * t ^ 2 * p3.y + t ^ 3 * p4.y⟩

/-- Function `ImLineClosestPoint` of Dear ImGui: the point of the segment from
`a` to `b` that is nearest to `p`. -/
def ImLineClosestPoint (a b p : ImVec2) : ImVec2 :=
  if (p.x - a.x) * (b.x - a.x) + (p.y - a.y) * (b.y - a.y) < 0 then a
  else if ImLengthSqr (b.sub a) < (p.x - a.x) * (b.x - a.x) + (p.y - a.y) * (b.y - a.y) then b
  else a.add ((b.sub a).scale
    (((p.x - a.x) * (b.x - a.x) + (p.y - a.y) * (b.y - a.y)) / ImLengthSqr (b.sub a)))

/-- The curve sampled at `steps` parametric steps: the points at `i / steps`
for `i = 0, ..., steps`. -/
def bezierSamples (p1 c1 c2 p2 : ImVec2) (steps : Nat) : List ImVec2 :=
  (List.range (steps + 1)).map (fun i => ImBezierCubicCalc p1 c1 c2 p2 ((i : ℚ) / (steps : ℚ)))

/-- The segments between consecutive points. -/
def segments (pts : List ImVec2) : List (ImVec2 × ImVec2) :=
  pts.zip pts.tail

/-- Squared distance from `p` to the segment `seg`. -/
def segmentDistSqr (p : ImVec2) (seg : ImVec2 × ImVec2) : ℚ :=
  ImLengthSqr (p.sub (ImLineClosestPoint seg.1 seg.2 p))

/-- Squared distance from `p` to the nearest of the segments; `none` when there
is no segment. -/
def nearestDistSqr (p : ImVec2) : List (ImVec2 × ImVec2) → Option ℚ
  | [] => none
  | seg :: segs =>
    match nearestDistSqr p segs with
    | none => some (segmentDistSqr p seg)
    | some m => some (min (segmentDistSqr p seg) m)

/-- Modelled from the spec: the body of `smart_bezier_collider` is not in the
header.  Spec: "sample the curve at a fixed number of parametric steps, find
the sampled segment nearest the query point by perpendicular distance to
each segment, and accept if that minimum distance ≤ radius", with the
control points derived from the end points by a heuristic; `ctrl` is that
heuristic and `steps` the number of steps.  Coordinates are exact, and the
distance `d` is compared through its square: `d ≤ radius` is `0 ≤ radius`
and `d * d ≤ radius * radius`. -/
def smart_bezier_collider (ctrl : ImVec2 → ImVec2 → ImVec2 × ImVec2) (steps : Nat)
    (p p1 p2 : ImVec2) (radius : ℚ) : Bool :=
  match nearestDistSqr p
      (segments (bezierSamples p1 (ctrl p1 p2).1 (ctrl p1 p2).2 p2 steps)) with
  | none => false
  | some d => decide (0 ≤ radius ∧ d ≤ radius * radius)

/-- The point `q` is on the segment `seg`. -/
def onSegment (q : ImVec2) (seg : ImVec2 × ImVec2) : Prop :=
  ∃ t : ℚ, 0 ≤ t ∧ t ≤ 1 ∧ q = seg.1.add ((seg.2.sub seg.1).scale t)

/-- The distance from `p` to `q` is greater than `radius`. -/
def fartherThan (p q : ImVec2) (radius : ℚ) : Prop :=
  radius < 0 ∨ radius * radius < ImLengthSqr (p.sub q)

/-- A heuristic that puts the control points on the end points. -/
def straightCtrl (p1 p2 : ImVec2) : ImVec2 × ImVec2 := (p1, p2)

/-! ## Geometry of a pin -/

/-- Struct `PinStyleExtras`.  Of its members only `socket_padding`, the "Spacing
between pin content and socket", is read by the functions embedded here;
the colours, radii and thicknesses, which only rendering reads, are left
out. -/
structure PinStyleExtras where
  socket_padding : ℚ
  deriving DecidableEq

/-- The default member initialiser `socket_padding = 6.6f`, as an exact number. -/
def PinStyleExtras.new : PinStyleExtras :=
  { socket_padding := 33 / 5 }

/-- Class `PinStyle`: the member `extra`; colour and socket shape are left out. -/
structure PinStyle where
  extra : PinStyleExtras
  deriving DecidableEq

/-- The members of class `Pin` that place the pin on the grid, which `Pin`
above leaves out: the position `m_pos`, the hit-box size `m_size` and the
style that `m_style` points to. -/
structure PinFrame where
  m_pos : ImVec2
  m_size : ImVec2
  m_style : PinStyle
  deriving DecidableEq

/-- Method `InPin<T>::pinPoint()`:
`m_pos + ImVec2(-m_style->extra.socket_padding, m_size.y / 2)`. -/
def InPin.pinPoint (p : PinFrame) : ImVec2 :=
  p.m_pos.add ⟨-p.m_style.extra.socket_padding, p.m_size.y / 2⟩

/-- Method `OutPin<T>::pinPoint()`:
`m_pos + ImVec2(m_size.x + m_style->extra.socket_padding, m_size.y / 2)`. -/
def OutPin.pinPoint (p : PinFrame) : ImVec2 :=
  p.m_pos.add ⟨p.m_size.x + p.m_style.extra.socket_padding, p.m_size.y / 2⟩

/-! ## Reachable heaps -/

/-- The heap with no pin and no link. -/
def Flow.empty : Flow V :=
  { ins := [], outs := [], links := [], m_links := [], nextLink := 0 }

/-- The heaps that the operations on pins and links produce from the empty
heap.  A pin is constructed at an unused address, an input pin holding no
link and an output pin with an empty fan-out list, as the constructors
leave them; a member of a pin other than its link or its fan-out list is
set (`allowSameNodeConnections`, `behaviour`); a link is made by
`createLink` and dropped by `InPin<T>::deleteLink`; a pin is destroyed. -/
inductive Reachable : Flow V → Prop
  | empty : Reachable Flow.empty
  | newIn (s : Flow V) (a : Nat) (p : InPin V) : Reachable s →
      Arena.find s.ins a = none → p.m_link = none →
      Reachable { s with ins := (a, p) :: s.ins }
  | newOut (s : Flow V) (o : Nat) (po : OutPin V) : Reachable s →
      Arena.find s.outs o = none → po.m_links = [] →
      Reachable { s with outs := (o, po) :: s.outs }
  | setIn (s : Flow V) (i : Nat) (f : InPin V → InPin V) : Reachable s →
      (∀ p, (f p).m_link = p.m_link) →
      Reachable { s with ins := Arena.modify s.ins i f }
  | setOut (s : Flow V) (o : Nat) (f : OutPin V → OutPin V) : Reachable s →
      (∀ p, (f p).m_links = p.m_links) →
      Reachable { s with outs := Arena.modify s.outs o f }
  | link (s : Flow V) (o i : Nat) : Reachable s → Reachable (createLink s o i).2
  | unlink (s : Flow V) (i : Nat) : Reachable s → Reachable (InPin.deleteLink s i)
  | dropIn (s : Flow V) (a : Nat) : Reachable s → Reachable (InPin.dtor s a)
  | dropOut (s : Flow V) (o : Nat) : Reachable s → Reachable (OutPin.dtor s o)

/-- No expired pointer in a fan-out list: every entry of the list `m_links` of
an output pin is a live link with that pin at its left end. -/
def Tidy (s : Flow V) : Prop :=
  ∀ o po l, Arena.find s.outs o = some po → l ∈ po.m_links →
    ∃ lk, Arena.find s.links l = some lk ∧ lk.left = o

/-! # Properties -/

/-! ## Arena lemmas -/

namespace Arena

theorem find_nil {α : Type} (a : Nat) : find ([] : List (Nat × α)) a = none := rfl

theorem find_cons {α : Type} (k : Nat) (v : α) (m : List (Nat × α)) (a : Nat) :
    find ((k, v) :: m) a = if k = a then some v else find m a := rfl

theorem find_modify {α : Type} (m : List (Nat × α)) (a b : Nat) (f : α → α) :
    find (modify m a f) b = if b = a then (find m a).map f else find m b := by
  induction m with
  | nil => simp [modify, find_nil]
  | cons e m ih =>
    obtain ⟨k, v⟩ := e
    have hc : modify ((k, v) :: m) a f = (k, if k = a then f v else v) :: modify m a f := rfl
    simp only [hc, find_cons, ih]
    by_cases hk : k = b
    · subst hk
      by_cases hb : k = a
      · subst hb; simp
      · simp [hb]
    · by_cases hb : b = a
      · subst hb; simp [hk]
      · simp [hk, hb]

theorem find_remove {α : Type} (m : List (Nat × α)) (a b : Nat) :
    find (remove m a) b = if b = a then none else find m b := by
  induction m with
  | nil => simp [remove, find_nil]
  | cons e m ih =>
    obtain ⟨k, v⟩ := e
    by_cases hk : k = a
    · have hc : remove ((k, v) :: m) a = remove m a := by
        simp [remove, hk]
      rw [hc, ih, find_cons]
      by_cases hb : b = a
      · simp [hb]
      · have : ¬ k = b := fun h => hb (h ▸ hk)
        simp [hb, this]
    · have hc : remove ((k, v) :: m) a = (k, v) :: remove m a := by
        simp [remove, hk]
      rw [hc, find_cons, find_cons, ih]
      by_cases hb : k = b
      · subst hb; simp [hk]
      · simp [hb]

theorem mem_keys_of_find {α : Type} (m : List (Nat × α)) (a : Nat) (v : α)
    (h : find m a = some v) : a ∈ keys m := by
  induction m with
  | nil => simp [find_nil] at h
  | cons e m ih =>
    obtain ⟨k, w⟩ := e
    rw [find_cons] at h
    by_cases hk : k = a
    · subst hk; simp [keys]
    · simp only [hk, if_false] at h
      have := ih h
      simp only [keys, List.map_cons, List.mem_cons] at this ⊢
      exact Or.inr this

theorem keys_modify {α : Type} (m : List (Nat × α)) (a : Nat) (f : α → α) :
    keys (modify m a f) = keys m := by
  simp [keys, modify, Function.comp_def]

end Arena

/-! ## What the operations do to each arena -/

theorem OutPin.prune_ins (s : Flow V) (o : Nat) : (OutPin.deleteLink s o).ins = s.ins := rfl

theorem OutPin.prune_links (s : Flow V) (o : Nat) :
    (OutPin.deleteLink s o).links = s.links := rfl

theorem OutPin.prune_find_outs (s : Flow V) (o a : Nat) :
    Arena.find (OutPin.deleteLink s o).outs a =
      if a = o then (Arena.find s.outs o).map (fun p =>
        { p with m_links := p.m_links.filter (fun l => (Arena.find s.links l).isSome) })
      else Arena.find s.outs a := by
  simp only [OutPin.deleteLink, Arena.find_modify]

theorem InPin.deleteLink_of_absent (s : Flow V) (i : Nat) (h : Arena.find s.ins i = none) :
    InPin.deleteLink s i = s := by
  unfold InPin.deleteLink
  rw [h]

theorem InPin.deleteLink_of_unlinked (s : Flow V) (i : Nat) (p : InPin V)
    (h : Arena.find s.ins i = some p) (hl : p.m_link = none) :
    InPin.deleteLink s i = s := by
  unfold InPin.deleteLink
  rw [h]
  simp only [hl]

theorem InPin.deleteLink_of_linked (s : Flow V) (i : Nat) (p : InPin V) (l : Nat) (lk : Link)
    (h : Arena.find s.ins i = some p) (hl : p.m_link = some l)
    (hlk : Arena.find s.links l = some lk) :
    InPin.deleteLink s i =
      OutPin.deleteLink
        { s with ins := Arena.modify s.ins i (fun q => { q with m_link := none }),
                 links := Arena.remove s.links l } lk.m_left := by
  unfold InPin.deleteLink
  rw [h]
  simp only [hl, hlk, Link.dtor]

theorem InPin.deleteLink_of_dangling (s : Flow V) (i : Nat) (p : InPin V) (l : Nat)
    (h : Arena.find s.ins i = some p) (hl : p.m_link = some l)
    (hlk : Arena.find s.links l = none) :
    InPin.deleteLink s i =
        { s with ins := Arena.modify s.ins i (fun q => { q with m_link := none }),
                 links := Arena.remove s.links l } := by
  unfold InPin.deleteLink
  rw [h]
  simp only [hl, hlk]

theorem InPin.deleteLink_find_ins (s : Flow V) (i j : Nat) :
    Arena.find (InPin.deleteLink s i).ins j =
      if j = i then (Arena.find s.ins i).map (fun q => { q with m_link := none })
      else Arena.find s.ins j := by
  cases hp : Arena.find s.ins i with
  | none =>
    rw [InPin.deleteLink_of_absent s i hp]
    by_cases hj : j = i
    · subst hj; simp [hp]
    · simp [hj]
  | some p =>
    cases hl : p.m_link with
    | none =>
      rw [InPin.deleteLink_of_unlinked s i p hp hl]
      by_cases hj : j = i
      · subst hj
        simp only [hp, if_true, Option.map_some']
        congr 1
        cases p; simp_all
      · simp [hj]
    | some l =>
      cases hlk : Arena.find s.links l with
      | none =>
        rw [InPin.deleteLink_of_dangling s i p l hp hl hlk]
        simp only [Arena.find_modify, hp]
      | some lk =>
        rw [InPin.deleteLink_of_linked s i p l lk hp hl hlk]
        simp only [OutPin.prune_ins, Arena.find_modify, hp]

theorem InPin.deleteLink_find_links (s : Flow V) (i l : Nat) :
    Arena.find (InPin.deleteLink s i).links l =
      if (Arena.find s.ins i).bind (fun p => p.m_link) = some l then none
      else Arena.find s.links l := by
  cases hp : Arena.find s.ins i with
  | none => rw [InPin.deleteLink_of_absent s i hp]; simp
  | some p =>
    cases hl : p.m_link with
    | none => rw [InPin.deleteLink_of_unlinked s i p hp hl]; simp [hl]
    | some k =>
      have hk : (k = l) = (l = k) := propext eq_comm
      cases hlk : Arena.find s.links k with
      | none =>
        rw [InPin.deleteLink_of_dangling s i p k hp hl hlk]
        simp [Arena.find_remove, hl, hk]
      | some lk =>
        rw [InPin.deleteLink_of_linked s i p k lk hp hl hlk]
        simp [OutPin.prune_links, Arena.find_remove, hl, hk]

theorem InPin.deleteLink_nextLink (s : Flow V) (i : Nat) :
    (InPin.deleteLink s i).nextLink = s.nextLink := by
  cases hp : Arena.find s.ins i with
  | none => rw [InPin.deleteLink_of_absent s i hp]
  | some p =>
    cases hl : p.m_link with
    | none => rw [InPin.deleteLink_of_unlinked s i p hp hl]
    | some k =>
      cases hlk : Arena.find s.links k with
      | none => rw [InPin.deleteLink_of_dangling s i p k hp hl hlk]
      | some lk => rw [InPin.deleteLink_of_linked s i p k lk hp hl hlk]; rfl

theorem InPin.deleteLink_m_links (s : Flow V) (i : Nat) :
    (InPin.deleteLink s i).m_links = s.m_links := by
  cases hp : Arena.find s.ins i with
  | none => rw [InPin.deleteLink_of_absent s i hp]
  | some p =>
    cases hl : p.m_link with
    | none => rw [InPin.deleteLink_of_unlinked s i p hp hl]
    | some k =>
      cases hlk : Arena.find s.links k with
      | none => rw [InPin.deleteLink_of_dangling s i p k hp hl hlk]
      | some lk => rw [InPin.deleteLink_of_linked s i p k lk hp hl hlk]; rfl

theorem InPin.deleteLink_keys_ins (s : Flow V) (i : Nat) :
    Arena.keys (InPin.deleteLink s i).ins = Arena.keys s.ins := by
  cases hp : Arena.find s.ins i with
  | none => rw [InPin.deleteLink_of_absent s i hp]
  | some p =>
    cases hl : p.m_link with
    | none => rw [InPin.deleteLink_of_unlinked s i p hp hl]
    | some k =>
      cases hlk : Arena.find s.links k with
      | none =>
        rw [InPin.deleteLink_of_dangling s i p k hp hl hlk]
        simp [Arena.keys_modify]
      | some lk =>
        rw [InPin.deleteLink_of_linked s i p k lk hp hl hlk]
        simp [OutPin.prune_ins, Arena.keys_modify]

/-- Deleting the link of an input pin changes, of the output pins, only
fan-out lists, and only by dropping entries. -/
theorem InPin.deleteLink_find_outs (s : Flow V) (i a : Nat) :
    ∃ keep : Nat → Bool,
      Arena.find (InPin.deleteLink s i).outs a =
        (Arena.find s.outs a).map (fun p => { p with m_links := p.m_links.filter keep }) := by
  have hid : ∀ q : Option (OutPin V),
      q = q.map (fun p => { p with m_links := p.m_links.filter (fun _ => true) }) := by
    intro q
    cases q with
    | none => rfl
    | some p => simp
  cases hp : Arena.find s.ins i with
  | none => rw [InPin.deleteLink_of_absent s i hp]; exact ⟨fun _ => true, hid _⟩
  | some p =>
    cases hl : p.m_link with
    | none => rw [InPin.deleteLink_of_unlinked s i p hp hl]; exact ⟨fun _ => true, hid _⟩
    | some k =>
      cases hlk : Arena.find s.links k with
      | none =>
        rw [InPin.deleteLink_of_dangling s i p k hp hl hlk]; exact ⟨fun _ => true, hid _⟩
      | some lk =>
        rw [InPin.deleteLink_of_linked s i p k lk hp hl hlk]
        by_cases ha : a = lk.m_left
        · refine ⟨fun l => (Arena.find (Arena.remove s.links k) l).isSome, ?_⟩
          simp [OutPin.prune_find_outs, ha]
        · refine ⟨fun _ => true, ?_⟩
          simp only [OutPin.prune_find_outs, ha, if_false]
          exact hid _

theorem createLink_accept (s : Flow V) (o i : Nat) (po : OutPin V) (pi : InPin V)
    (ho : Arena.find s.outs o = some po) (hi : Arena.find s.ins i = some pi)
    (ht : po.dataType = pi.dataType) (hf : pi.m_filter po.toPin pi.toPin = true)
    (hn : po.m_parent ≠ pi.m_parent ∨ pi.m_allowSelfConnection = true) :
    createLink s o i =
      (Except.ok s.nextLink,
        { ins := Arena.modify (InPin.deleteLink s i).ins i
            (fun q => { q with m_link := some s.nextLink }),
          outs := Arena.modify (InPin.deleteLink s i).outs o
            (fun p => { p with m_links := p.m_links ++ [s.nextLink] }),
          links := (s.nextLink, Link.new o i pi.m_inf) :: (InPin.deleteLink s i).links,
          m_links := s.m_links ++ [s.nextLink],
          nextLink := s.nextLink + 1 }) := by
  have hn2 : ¬ (po.m_parent = pi.m_parent ∧ pi.m_allowSelfConnection = false) := by
    rintro ⟨h1, h2⟩
    rcases hn with h | h
    · exact h h1
    · rw [h2] at h; exact Bool.noConfusion h
  unfold createLink
  rw [ho, hi]
  simp only [ne_eq, ht, not_true_eq_false, if_false, hf, Bool.true_eq_false, hn2,
    ImNodeFlow.addLink, OutPin.setLink, InPin.deleteLink_nextLink, InPin.deleteLink_m_links]

theorem createLink_reject (s : Flow V) (o i : Nat) (po : OutPin V) (pi : InPin V)
    (ho : Arena.find s.outs o = some po) (hi : Arena.find s.ins i = some pi)
    (h : ¬ (po.dataType = pi.dataType ∧ pi.m_filter po.toPin pi.toPin = true ∧
      (po.m_parent ≠ pi.m_parent ∨ pi.m_allowSelfConnection = true))) :
    ∃ e, createLink s o i = (Except.error e, s) := by
  unfold createLink
  rw [ho, hi]
  by_cases ht : po.dataType = pi.dataType
  · by_cases hf : pi.m_filter po.toPin pi.toPin = true
    · have hn : po.m_parent = pi.m_parent ∧ pi.m_allowSelfConnection = false := by
        by_contra hc
        apply h
        refine ⟨ht, hf, ?_⟩
        by_cases hp : po.m_parent = pi.m_parent
        · right
          cases ha : pi.m_allowSelfConnection with
          | true => rfl
          | false => exact absurd ⟨hp, ha⟩ hc
        · left; exact hp
      exact ⟨LinkError.selfConnection, by simp [ht, hf, hn]⟩
    · have hf2 : pi.m_filter po.toPin pi.toPin = false := by
        cases hx : pi.m_filter po.toPin pi.toPin with
        | true => exact absurd hx hf
        | false => rfl
      exact ⟨LinkError.filterRejection, by simp [ht, hf2]⟩
  · exact ⟨LinkError.typeMismatch, by simp [ht]⟩

theorem createLink_invalid (s : Flow V) (o i : Nat)
    (h : Arena.find s.outs o = none ∨ Arena.find s.ins i = none) :
    createLink s o i = (Except.error LinkError.invalidHandle, s) := by
  unfold createLink
  rcases h with h | h
  · rw [h]
  · rw [h]
    cases Arena.find s.outs o with
    | none => rfl
    | some po => rfl

/-! ## Claims -/

/-- C1: for an output pin `o` and an input pin `i`, `createLink(o, i)` reports a
new link, which then is a live link from `o` to `i` held by `i`, if and only
if the data type tags of the two pins are equal, the filter of `i` accepts
`(o, i)`, and the pins are on different nodes or `i` allows same-node
connections. -/
theorem createLink_succeeds_iff (s : Flow V) (o i : Nat) (po : OutPin V) (pi : InPin V)
    (ho : Arena.find s.outs o = some po) (hi : Arena.find s.ins i = some pi) :
    (∃ l lk, (createLink s o i).1 = Except.ok l ∧
        Arena.find (createLink s o i).2.links l = some lk ∧
        lk.left = o ∧ lk.right = i ∧
        (createLink s o i).2.inGetLink i = some (some l)) ↔
      (po.dataType = pi.dataType ∧ pi.m_filter po.toPin pi.toPin = true ∧
        (po.m_parent ≠ pi.m_parent ∨ pi.m_allowSelfConnection = true)) := by
  constructor
  · rintro ⟨l, lk, h, -⟩
    by_contra hc
    obtain ⟨e, he⟩ := createLink_reject s o i po pi ho hi hc
    rw [he] at h
    exact Except.noConfusion h
  · rintro ⟨ht, hf, hn⟩
    rw [createLink_accept s o i po pi ho hi ht hf hn]
    refine ⟨s.nextLink, Link.new o i pi.m_inf, rfl, ?_, rfl, rfl, ?_⟩
    · simp [Arena.find_cons]
    · simp [Flow.inGetLink, Arena.find_modify, InPin.deleteLink_find_ins, hi, InPin.getLink]

/-- Witness for C1 on the sample graph: output 1 and input 11. -/
theorem createLink_succeeds_iff_witness :
    (∃ l lk, (createLink sample0 1 11).1 = Except.ok l ∧
        Arena.find (createLink sample0 1 11).2.links l = some lk ∧
        lk.left = 1 ∧ lk.right = 11 ∧
        (createLink sample0 1 11).2.inGetLink 11 = some (some l)) ↔
      (TypeTag.int = TypeTag.int ∧
        ConnectionFilter.SameType
          ((OutPin.new TypeTag.int 1 "five" 10 99 : OutPin Int).behaviour (Behaviour.const 5)).toPin
          (InPin.new TypeTag.int 1 "in" (0 : Int) ConnectionFilter.SameType 20 99).toPin = true ∧
        ((10 : Nat) ≠ 20 ∨ false = true)) :=
  createLink_succeeds_iff sample0 1 11 _ _ rfl rfl

/-- C9: a `createLink(o, i)` call that is rejected (for any reason) leaves the
heap as it was, so `i` keeps the link it had, the fan-out list of `o` and the
editor link list are unchanged. -/
theorem createLink_rejected_unchanged (s : Flow V) (o i : Nat) (e : LinkError)
    (h : (createLink s o i).1 = Except.error e) :
    (createLink s o i).2 = s ∧
      (createLink s o i).2.inGetLink i = s.inGetLink i ∧
      Arena.find (createLink s o i).2.outs o = Arena.find s.outs o ∧
      (createLink s o i).2.m_links = s.m_links := by
  have key : (createLink s o i).2 = s := by
    cases ho : Arena.find s.outs o with
    | none => rw [createLink_invalid s o i (Or.inl ho)]
    | some po =>
      cases hi : Arena.find s.ins i with
      | none => rw [createLink_invalid s o i (Or.inr hi)]
      | some pi =>
        by_cases hc : po.dataType = pi.dataType ∧ pi.m_filter po.toPin pi.toPin = true ∧
            (po.m_parent ≠ pi.m_parent ∨ pi.m_allowSelfConnection = true)
        · rw [createLink_accept s o i po pi ho hi hc.1 hc.2.1 hc.2.2] at h
          exact Except.noConfusion h
        · obtain ⟨e2, he⟩ := createLink_reject s o i po pi ho hi hc
          rw [he]
  rw [key]
  exact ⟨rfl, rfl, rfl, rfl⟩

/-- Witness for C9: the float output 3 is rejected by the integer input 11 of
the sample graph, which already holds a link. -/
theorem createLink_rejected_unchanged_witness :
    (createLink sample1 3 11).1 = Except.error LinkError.typeMismatch ∧
    ((createLink sample1 3 11).2 = sample1 ∧
      (createLink sample1 3 11).2.inGetLink 11 = sample1.inGetLink 11 ∧
      Arena.find (createLink sample1 3 11).2.outs 3 = Arena.find sample1.outs 3 ∧
      (createLink sample1 3 11).2.m_links = sample1.m_links) :=
  ⟨rfl, createLink_rejected_unchanged sample1 3 11 LinkError.typeMismatch rfl⟩

/-- C10: a newly constructed input pin has the same-node-connection flag
`false`, and `allowSameNodeConnections(state)` sets the flag to exactly `state`
and leaves the link, the default value, the filter and the `Pin` members of
the pin as they were. -/
theorem allowSameNodeConnections_spec (tag : TypeTag) (uid : Nat) (name : String) (d : V)
    (filter : Pin → Pin → Bool) (parent inf : Nat) (p : InPin V) (state : Bool) :
    (InPin.new tag uid name d filter parent inf).m_allowSelfConnection = false ∧
      (p.allowSameNodeConnections state).m_allowSelfConnection = state ∧
      (p.allowSameNodeConnections state).m_link = p.m_link ∧
      (p.allowSameNodeConnections state).m_emptyVal = p.m_emptyVal ∧
      (p.allowSameNodeConnections state).m_filter = p.m_filter ∧
      (p.allowSameNodeConnections state).toPin = p.toPin :=
  ⟨rfl, rfl, rfl, rfl, rfl, rfl⟩

/-- C8: after `deleteLink()` on an input pin the pin is unconnected:
`isConnected()` is false and `getLink()` is empty, whatever the pin held
before; on an unconnected pin the call changes nothing, and a second call
changes nothing more. -/
theorem InPin.deleteLink_unconnected (s : Flow V) (i : Nat) (p : InPin V)
    (hi : Arena.find s.ins i = some p) :
    (InPin.deleteLink s i).inIsConnected i = some false ∧
      (InPin.deleteLink s i).inGetLink i = some none ∧
      (p.isConnected = false → InPin.deleteLink s i = s) ∧
      InPin.deleteLink (InPin.deleteLink s i) i = InPin.deleteLink s i := by
  have hfind : Arena.find (InPin.deleteLink s i).ins i = some { p with m_link := none } := by
    rw [InPin.deleteLink_find_ins, hi]; simp
  refine ⟨?_, ?_, ?_, ?_⟩
  · simp [Flow.inIsConnected, hfind, InPin.isConnected]
  · simp [Flow.inGetLink, hfind, InPin.getLink]
  · intro hc
    have hl : p.m_link = none := by
      cases hm : p.m_link with
      | none => rfl
      | some l => simp [InPin.isConnected, hm] at hc
    exact InPin.deleteLink_of_unlinked s i p hi hl
  · exact InPin.deleteLink_of_unlinked _ i _ hfind rfl

/-- Witness for C8: input 11 of the sample graph, once holding a link and
once holding none. -/
theorem InPin.deleteLink_unconnected_witness :
    ((InPin.deleteLink sample1 11).inIsConnected 11 = some false ∧
      (InPin.deleteLink sample1 11).inGetLink 11 = some none ∧
      InPin.deleteLink (InPin.deleteLink sample1 11) 11 = InPin.deleteLink sample1 11) ∧
    InPin.deleteLink sample0 11 = sample0 :=
  ⟨⟨(InPin.deleteLink_unconnected sample1 11 _ rfl).1,
      (InPin.deleteLink_unconnected sample1 11 _ rfl).2.1,
      (InPin.deleteLink_unconnected sample1 11 _ rfl).2.2.2⟩,
    (InPin.deleteLink_unconnected sample0 11 _ rfl).2.2.1 rfl⟩

/-! ## Pull evaluation -/

theorem valueAux_succ [Inhabited V] (fuel : Nat) (s : Flow V) (stack : List Nat) (i : Nat) :
    valueAux (fuel + 1) s stack i =
      match Arena.find s.ins i with
      | none => Except.error EvalError.invalidHandle
      | some p =>
        if i ∈ stack then Except.ok p.m_emptyVal
        else
          match p.m_link with
          | none => Except.ok p.m_emptyVal
          | some l =>
            match Arena.find s.links l with
            | none => Except.error EvalError.invalidHandle
            | some lk =>
              match Arena.find s.outs lk.left with
              | none => Except.error EvalError.invalidHandle
              | some po => runBehaviour (fun j => valueAux fuel s (i :: stack) j) po.m_behaviour := by
  rw [valueAux]

theorem valueAux_unlinked [Inhabited V] (fuel : Nat) (s : Flow V) (stack : List Nat) (i : Nat)
    (p : InPin V) (hi : Arena.find s.ins i = some p) (hl : p.m_link = none) :
    valueAux (fuel + 1) s stack i = Except.ok p.m_emptyVal := by
  rw [valueAux_succ, hi]
  simp only [hl, ite_self]

theorem valueAux_on_stack [Inhabited V] (fuel : Nat) (s : Flow V) (stack : List Nat) (i : Nat)
    (p : InPin V) (hi : Arena.find s.ins i = some p) (hs : i ∈ stack) :
    valueAux (fuel + 1) s stack i = Except.ok p.m_emptyVal := by
  rw [valueAux_succ, hi]
  simp only [hs, if_true]

theorem valueAux_linked [Inhabited V] (fuel : Nat) (s : Flow V) (stack : List Nat) (i : Nat)
    (p : InPin V) (l : Nat) (lk : Link) (po : OutPin V)
    (hi : Arena.find s.ins i = some p) (hs : i ∉ stack) (hl : p.m_link = some l)
    (hlk : Arena.find s.links l = some lk) (ho : Arena.find s.outs lk.left = some po) :
    valueAux (fuel + 1) s stack i =
      runBehaviour (fun j => valueAux fuel s (i :: stack) j) po.m_behaviour := by
  rw [valueAux_succ, hi]
  simp only [hs, if_false, hl, hlk, ho]

theorem createLink_emptyVal (s : Flow V) (o i j : Nat) :
    (Arena.find (createLink s o i).2.ins j).map (fun p => p.m_emptyVal) =
      (Arena.find s.ins j).map (fun p => p.m_emptyVal) := by
  cases ho : Arena.find s.outs o with
  | none => rw [createLink_invalid s o i (Or.inl ho)]
  | some po =>
    cases hi : Arena.find s.ins i with
    | none => rw [createLink_invalid s o i (Or.inr hi)]
    | some pi =>
      by_cases hc : po.dataType = pi.dataType ∧ pi.m_filter po.toPin pi.toPin = true ∧
          (po.m_parent ≠ pi.m_parent ∨ pi.m_allowSelfConnection = true)
      · rw [createLink_accept s o i po pi ho hi hc.1 hc.2.1 hc.2.2]
        simp only [Arena.find_modify, InPin.deleteLink_find_ins]
        by_cases hj : j = i
        · subst hj; simp [hi]
        · simp only [hj, if_false]
      · obtain ⟨e2, he⟩ := createLink_reject s o i po pi ho hi hc
        rw [he]

/-- C3: an input pin constructed with default value `d` stores `d` and holds no
link, and `val()` on an input pin that holds no link returns the stored
default; this is so in particular after `deleteLink()`, also when the link
deleted was made by a `createLink` call just before. -/
theorem InPin.val_unconnected [Inhabited V] (s : Flow V) (i : Nat) (p : InPin V)
    (hi : Arena.find s.ins i = some p) :
    (p.isConnected = false → InPin.val s i = Except.ok p.m_emptyVal) ∧
      InPin.val (InPin.deleteLink s i) i = Except.ok p.m_emptyVal ∧
      (∀ o, InPin.val (InPin.deleteLink (createLink s o i).2 i) i = Except.ok p.m_emptyVal) ∧
      (∀ (tag : TypeTag) (uid : Nat) (name : String) (d : V) (filter : Pin → Pin → Bool)
          (parent inf : Nat),
        (InPin.new tag uid name d filter parent inf).m_emptyVal = d ∧
        (InPin.new tag uid name d filter parent inf).isConnected = false) := by
  have hdel : ∀ (t : Flow V) (q : InPin V), Arena.find t.ins i = some q →
      InPin.val (InPin.deleteLink t i) i = Except.ok q.m_emptyVal := by
    intro t q hq
    have hfind : Arena.find (InPin.deleteLink t i).ins i = some { q with m_link := none } := by
      rw [InPin.deleteLink_find_ins, hq]; simp
    exact valueAux_unlinked _ _ [] i { q with m_link := none } hfind rfl
  refine ⟨?_, hdel s p hi, ?_, ?_⟩
  · intro hc
    have hl : p.m_link = none := by
      cases hm : p.m_link with
      | none => rfl
      | some l => simp [InPin.isConnected, hm] at hc
    exact valueAux_unlinked _ s [] i p hi hl
  · intro o
    have h := createLink_emptyVal s o i i
    rw [hi] at h
    cases hq : Arena.find (createLink s o i).2.ins i with
    | none => rw [hq] at h; simp at h
    | some q =>
      rw [hq] at h
      simp only [Option.map_some', Option.some.injEq] at h
      rw [← h]
      exact hdel _ q hq
  · intros
    exact ⟨rfl, rfl⟩

/-- Witness for C3: input 11 of the sample graph, default 0, before it is
linked and after its link to the constant 5 has been deleted. -/
theorem InPin.val_unconnected_witness :
    InPin.val sample0 11 = Except.ok 0 ∧
      InPin.val (InPin.deleteLink sample1 11) 11 = Except.ok 0 :=
  ⟨(InPin.val_unconnected sample0 11 _ rfl).1 rfl,
    (InPin.val_unconnected sample0 11 _ rfl).2.2.1 1⟩

theorem createLink_ok_inv (s : Flow V) (o i l : Nat)
    (h : (createLink s o i).1 = Except.ok l) :
    ∃ po pi, Arena.find s.outs o = some po ∧ Arena.find s.ins i = some pi ∧
      po.dataType = pi.dataType ∧ pi.m_filter po.toPin pi.toPin = true ∧
      (po.m_parent ≠ pi.m_parent ∨ pi.m_allowSelfConnection = true) ∧ l = s.nextLink := by
  cases ho : Arena.find s.outs o with
  | none =>
    rw [createLink_invalid s o i (Or.inl ho)] at h
    exact Except.noConfusion h
  | some po =>
    cases hi : Arena.find s.ins i with
    | none =>
      rw [createLink_invalid s o i (Or.inr hi)] at h
      exact Except.noConfusion h
    | some pi =>
      by_cases hc : po.dataType = pi.dataType ∧ pi.m_filter po.toPin pi.toPin = true ∧
          (po.m_parent ≠ pi.m_parent ∨ pi.m_allowSelfConnection = true)
      · rw [createLink_accept s o i po pi ho hi hc.1 hc.2.1 hc.2.2] at h
        simp only [Except.ok.injEq] at h
        exact ⟨po, pi, rfl, rfl, hc.1, hc.2.1, hc.2.2, h.symm⟩
      · obtain ⟨e2, he⟩ := createLink_reject s o i po pi ho hi hc
        rw [he] at h
        exact Except.noConfusion h

/-- C2: after `createLink(o, i)` succeeds, `isConnected()` on `i` is true and
`i.val()` is what the producer function of `o` returns (run with `i` on the
evaluation stack); when the producer reads no input pin, that is its
constant. -/
theorem createLink_then_val [Inhabited V] (s : Flow V) (o i l : Nat) (po : OutPin V)
    (ho : Arena.find s.outs o = some po) (h : (createLink s o i).1 = Except.ok l) :
    (createLink s o i).2.inIsConnected i = some true ∧
      InPin.val (createLink s o i).2 i =
        runBehaviour
          (fun j => valueAux (createLink s o i).2.ins.length (createLink s o i).2 [i] j)
          po.m_behaviour ∧
      (∀ b, po.m_behaviour = some b → b.reads = [] →
        InPin.val (createLink s o i).2 i = Except.ok (b.compute [])) := by
  obtain ⟨po2, pi, ho2, hi, ht, hf, hn, -⟩ := createLink_ok_inv s o i l h
  rw [ho] at ho2
  simp only [Option.some.injEq] at ho2
  subst ho2
  obtain ⟨keep, hkeep⟩ := InPin.deleteLink_find_outs s i o
  have hacc := createLink_accept s o i po pi ho hi ht hf hn
  have hins : Arena.find (createLink s o i).2.ins i =
      some { pi with m_link := some s.nextLink } := by
    rw [hacc]
    simp [Arena.find_modify, InPin.deleteLink_find_ins, hi]
  have hlinks : Arena.find (createLink s o i).2.links s.nextLink =
      some (Link.new o i pi.m_inf) := by
    rw [hacc]
    simp [Arena.find_cons]
  have houts : Arena.find (createLink s o i).2.outs o =
      some { po with m_links := po.m_links.filter keep ++ [s.nextLink] } := by
    rw [hacc]
    simp [Arena.find_modify, hkeep, ho]
  have hval : InPin.val (createLink s o i).2 i =
      runBehaviour
        (fun j => valueAux (createLink s o i).2.ins.length (createLink s o i).2 [i] j)
        po.m_behaviour :=
    valueAux_linked _ _ [] i _ s.nextLink (Link.new o i pi.m_inf)
      { po with m_links := po.m_links.filter keep ++ [s.nextLink] }
      hins (by simp) rfl hlinks houts
  refine ⟨?_, hval, ?_⟩
  · simp [Flow.inIsConnected, hins, InPin.isConnected]
  · intro b hb hr
    rw [hval, hb]
    simp [runBehaviour, hr, readAll]

/-- Witness for C2: output 1 of the sample graph produces the constant 5 and
input 11 has default 0; after the link is made input 11 reads 5. -/
theorem createLink_then_val_witness :
    (createLink sample0 1 11).2.inIsConnected 11 = some true ∧
      InPin.val (createLink sample0 1 11).2 11 = Except.ok 5 :=
  ⟨(createLink_then_val sample0 1 11 0 _ rfl rfl).1,
    (createLink_then_val sample0 1 11 0 _ rfl rfl).2.2 (Behaviour.const 5) rfl rfl⟩

theorem Arena.mem_of_find {α : Type} (m : List (Nat × α)) (a : Nat) (v : α)
    (h : Arena.find m a = some v) : (a, v) ∈ m := by
  induction m with
  | nil => simp [Arena.find_nil] at h
  | cons e m ih =>
    obtain ⟨k, w⟩ := e
    rw [Arena.find_cons] at h
    by_cases hk : k = a
    · simp only [hk, if_true, Option.some.injEq] at h
      subst hk; subst h
      exact List.mem_cons_self _ _
    · simp only [hk, if_false] at h
      exact List.mem_cons_of_mem _ (ih h)

theorem pending_nil (s : Flow V) : pending s [] = s.ins.length := by
  simp [pending, Arena.keys]

theorem pending_cons_lt (s : Flow V) (stack : List Nat) (i : Nat)
    (hi : i ∈ Arena.keys s.ins) (hs : i ∉ stack) :
    pending s (i :: stack) < pending s stack := by
  have hsplit : (Arena.keys s.ins).filter (fun a => decide (a ∉ i :: stack)) =
      ((Arena.keys s.ins).filter (fun a => decide (a ∉ stack))).filter
        (fun a => decide (a ≠ i)) := by
    rw [List.filter_filter]
    apply List.filter_congr
    intro a _
    simp only [List.mem_cons, not_or, Bool.decide_and, ne_eq]
  unfold pending
  rw [hsplit]
  apply List.length_filter_lt_length_iff_exists.mpr
  exact ⟨i, List.mem_filter.mpr ⟨hi, by simpa using hs⟩, by simp⟩

theorem readAll_ne_outOfFuel (f : Nat → Except EvalError V) (l : List Nat)
    (h : ∀ j ∈ l, f j ≠ Except.error EvalError.outOfFuel) :
    readAll f l ≠ Except.error EvalError.outOfFuel := by
  induction l with
  | nil => simp [readAll]
  | cons j js ih =>
    have hj := h j (List.mem_cons_self _ _)
    have hjs := ih (fun k hk => h k (List.mem_cons_of_mem _ hk))
    rw [readAll]
    cases hfj : f j with
    | error e =>
      simp only
      rw [hfj] at hj
      intro hc
      apply hj
      cases hc
      rfl
    | ok v =>
      simp only
      cases hr : readAll f js with
      | error e =>
        simp only
        rw [hr] at hjs
        exact hjs
      | ok vs => simp

theorem runBehaviour_ne_outOfFuel [Inhabited V] (f : Nat → Except EvalError V)
    (b : Option (Behaviour V)) (h : ∀ j, f j ≠ Except.error EvalError.outOfFuel) :
    runBehaviour f b ≠ Except.error EvalError.outOfFuel := by
  cases b with
  | none => simp [runBehaviour]
  | some b =>
    have hr := readAll_ne_outOfFuel f b.reads (fun j _ => h j)
    rw [runBehaviour]
    cases hx : readAll f b.reads with
    | error e =>
      simp only
      rw [hx] at hr
      intro hc
      apply hr
      cases hc
      rfl
    | ok vs => simp

theorem valueAux_ne_outOfFuel [Inhabited V] (s : Flow V) :
    ∀ (fuel : Nat) (stack : List Nat) (i : Nat), pending s stack < fuel →
      valueAux fuel s stack i ≠ Except.error EvalError.outOfFuel := by
  intro fuel
  induction fuel with
  | zero => intro stack i h; exact absurd h (Nat.not_lt_zero _)
  | succ fuel ih =>
    intro stack i h
    rw [valueAux_succ]
    cases hi : Arena.find s.ins i with
    | none => simp
    | some p =>
      simp only
      by_cases hs : i ∈ stack
      · simp [hs]
      · simp only [hs, if_false]
        cases hl : p.m_link with
        | none => simp
        | some l =>
          simp only
          cases hlk : Arena.find s.links l with
          | none => simp
          | some lk =>
            simp only
            cases ho : Arena.find s.outs lk.left with
            | none => simp
            | some po =>
              simp only
              apply runBehaviour_ne_outOfFuel
              intro j
              apply ih
              have := pending_cons_lt s stack i (Arena.mem_keys_of_find _ _ _ hi) hs
              omega

theorem closed_spec (s : Flow V) (hc : closed s = true) (i : Nat) (p : InPin V) (l : Nat)
    (hi : Arena.find s.ins i = some p) (hl : p.m_link = some l) :
    ∃ lk po, Arena.find s.links l = some lk ∧ Arena.find s.outs lk.left = some po ∧
      ∀ b, po.m_behaviour = some b → ∀ j ∈ b.reads, (Arena.find s.ins j).isSome = true := by
  have h := (List.all_eq_true.mp hc) (i, p) (Arena.mem_of_find _ _ _ hi)
  simp only [hl] at h
  cases hlk : Arena.find s.links l with
  | none => rw [hlk] at h; exact Bool.noConfusion h
  | some lk =>
    rw [hlk] at h
    simp only at h
    cases ho : Arena.find s.outs lk.left with
    | none => rw [ho] at h; exact Bool.noConfusion h
    | some po =>
      rw [ho] at h
      simp only at h
      refine ⟨lk, po, rfl, ho, ?_⟩
      intro b hb j hj
      rw [hb] at h
      exact (List.all_eq_true.mp h) j hj

theorem readAll_ok (f : Nat → Except EvalError V) (l : List Nat)
    (h : ∀ j ∈ l, ∃ v, f j = Except.ok v) : ∃ vs, readAll f l = Except.ok vs := by
  induction l with
  | nil => exact ⟨[], rfl⟩
  | cons j js ih =>
    obtain ⟨v, hv⟩ := h j (List.mem_cons_self _ _)
    obtain ⟨vs, hvs⟩ := ih (fun k hk => h k (List.mem_cons_of_mem _ hk))
    exact ⟨v :: vs, by rw [readAll, hv]; simp only [hvs]⟩

theorem valueAux_ok [Inhabited V] (s : Flow V) (hc : closed s = true) :
    ∀ (fuel : Nat) (stack : List Nat) (i : Nat), pending s stack < fuel →
      (Arena.find s.ins i).isSome = true → ∃ v, valueAux fuel s stack i = Except.ok v := by
  intro fuel
  induction fuel with
  | zero => intro stack i h; exact absurd h (Nat.not_lt_zero _)
  | succ fuel ih =>
    intro stack i h hsome
    cases hi : Arena.find s.ins i with
    | none => rw [hi] at hsome; exact Bool.noConfusion hsome
    | some p =>
      by_cases hs : i ∈ stack
      · exact ⟨_, valueAux_on_stack fuel s stack i p hi hs⟩
      · cases hl : p.m_link with
        | none => exact ⟨_, valueAux_unlinked fuel s stack i p hi hl⟩
        | some l =>
          obtain ⟨lk, po, hlk, ho, hreads⟩ := closed_spec s hc i p l hi hl
          rw [valueAux_linked fuel s stack i p l lk po hi hs hl hlk ho]
          have hlt : pending s (i :: stack) < fuel := by
            have := pending_cons_lt s stack i (Arena.mem_keys_of_find _ _ _ hi) hs
            omega
          cases hb : po.m_behaviour with
          | none => exact ⟨default, rfl⟩
          | some b =>
            obtain ⟨vs, hvs⟩ := readAll_ok (fun j => valueAux fuel s (i :: stack) j) b.reads
              (fun j hj => ih (i :: stack) j hlt (hreads b hb j hj))
            exact ⟨b.compute vs, by rw [runBehaviour]; simp only [hvs]⟩

/-- C4: pull evaluation of a pin always finishes within the depth `InPin.val`
allows, whatever the wiring, cyclic or not; when no reference on the way
dangles it finishes with a value; and a request for a pin that is already
on the evaluation stack returns the default value of that pin at once. -/
theorem InPin.val_terminates [Inhabited V] (s : Flow V) :
    (∀ i, InPin.val s i ≠ Except.error EvalError.outOfFuel) ∧
      (closed s = true → ∀ i, (Arena.find s.ins i).isSome = true →
        ∃ v, InPin.val s i = Except.ok v) ∧
      (∀ (fuel : Nat) (stack : List Nat) (i : Nat) (p : InPin V),
        Arena.find s.ins i = some p → i ∈ stack →
          valueAux (fuel + 1) s stack i = Except.ok p.m_emptyVal) := by
  refine ⟨?_, ?_, ?_⟩
  · intro i
    apply valueAux_ne_outOfFuel
    rw [pending_nil]
    exact Nat.lt_succ_self _
  · intro hc i hi
    apply valueAux_ok s hc
    · rw [pending_nil]
      exact Nat.lt_succ_self _
    · exact hi
  · intro fuel stack i p hi hs
    exact valueAux_on_stack fuel s stack i p hi hs

/-- Witness for C4: in the feedback graph input 1 is fed by output 3, whose
producer reads input 1; evaluation of input 1 finishes with a value, and the
nested request for input 1 returns its default 7. -/
theorem InPin.val_terminates_witness :
    InPin.val loop2 1 ≠ Except.error EvalError.outOfFuel ∧
      (∃ v, InPin.val loop2 1 = Except.ok v) ∧
      valueAux 1 loop2 [1] 1 = Except.ok 7 :=
  ⟨(InPin.val_terminates loop2).1 1,
    (InPin.val_terminates loop2).2.1 rfl 1 rfl,
    (InPin.val_terminates loop2).2.2 0 [1] 1 _ rfl (List.mem_cons_self _ _)⟩

/-! ## The invariants are kept -/

theorem InPin.deleteLink_find_outs_linked (s : Flow V) (i a : Nat) (p : InPin V) (l : Nat)
    (lk : Link) (h : Arena.find s.ins i = some p) (hl : p.m_link = some l)
    (hlk : Arena.find s.links l = some lk) :
    Arena.find (InPin.deleteLink s i).outs a =
      if a = lk.left then (Arena.find s.outs a).map (fun po =>
        { po with m_links :=
            List.filter (fun x => (Arena.find (InPin.deleteLink s i).links x).isSome) po.m_links })
      else Arena.find s.outs a := by
  rw [InPin.deleteLink_of_linked s i p l lk h hl hlk, OutPin.prune_find_outs]
  by_cases ha : a = lk.left
  · subst ha
    simp only [Link.left, if_true]
    rfl
  · have ha2 : ¬ a = lk.m_left := ha
    simp only [ha, ha2, if_false]

theorem InPin.deleteLink_links_sub (s : Flow V) (i l : Nat) (lk : Link)
    (h : Arena.find (InPin.deleteLink s i).links l = some lk) :
    Arena.find s.links l = some lk := by
  rw [InPin.deleteLink_find_links] at h
  split at h
  · exact Option.noConfusion h
  · exact h

theorem Owned_deleteLink (s : Flow V) (i : Nat) (hs : Owned s) : Owned (InPin.deleteLink s i) := by
  cases hp : Arena.find s.ins i with
  | none => rw [InPin.deleteLink_of_absent s i hp]; exact hs
  | some p =>
    cases hl : p.m_link with
    | none => rw [InPin.deleteLink_of_unlinked s i p hp hl]; exact hs
    | some l =>
      obtain ⟨lk, hlk, hright⟩ := hs.held i p l hp hl
      have hlinks : ∀ x, Arena.find (InPin.deleteLink s i).links x =
          if x = l then none else Arena.find s.links x := by
        intro x
        rw [InPin.deleteLink_find_links, hp]
        simp only [Option.some_bind, hl, Option.some.injEq]
        by_cases hx : x = l
        · subst hx; simp
        · have : ¬ l = x := fun h => hx h.symm
          simp [hx, this]
      constructor
      · intro x lkx hx
        rw [hlinks] at hx
        by_cases hxl : x = l
        · simp [hxl] at hx
        · simp only [hxl, if_false] at hx
          obtain ⟨q, hq, hql⟩ := hs.holder x lkx hx
          have hne : lkx.right ≠ i := by
            intro heq
            rw [heq, hp] at hq
            simp only [Option.some.injEq] at hq
            subst hq
            rw [hl] at hql
            simp only [Option.some.injEq] at hql
            exact hxl hql.symm
          exact ⟨q, by rw [InPin.deleteLink_find_ins]; simp only [hne, if_false]; exact hq, hql⟩
      · intro j q x hj hqx
        rw [InPin.deleteLink_find_ins] at hj
        by_cases hji : j = i
        · subst hji
          simp only [if_true, hp, Option.map_some', Option.some.injEq] at hj
          subst hj
          exact Option.noConfusion hqx
        · simp only [hji, if_false] at hj
          obtain ⟨lkx, hlkx, hr⟩ := hs.held j q x hj hqx
          have hxl : x ≠ l := by
            intro heq
            subst heq
            rw [hlk] at hlkx
            simp only [Option.some.injEq] at hlkx
            subst hlkx
            exact hji (hr.symm.trans hright)
          exact ⟨lkx, by rw [hlinks]; simp only [hxl, if_false]; exact hlkx, hr⟩

theorem WF_deleteLink (s : Flow V) (i : Nat) (hs : WF s) : WF (InPin.deleteLink s i) := by
  refine { toOwned := Owned_deleteLink s i hs.toOwned, fresh := ?_, registered := ?_ }
  · intro l lk h
    rw [InPin.deleteLink_nextLink]
    exact hs.fresh l lk (InPin.deleteLink_links_sub s i l lk h)
  · intro x lkx hx
    have hx0 := InPin.deleteLink_links_sub s i x lkx hx
    obtain ⟨po, hpo, hmem⟩ := hs.registered x lkx hx0
    cases hp : Arena.find s.ins i with
    | none => rw [InPin.deleteLink_of_absent s i hp]; exact ⟨po, hpo, hmem⟩
    | some p =>
      cases hl : p.m_link with
      | none => rw [InPin.deleteLink_of_unlinked s i p hp hl]; exact ⟨po, hpo, hmem⟩
      | some l =>
        obtain ⟨lk, hlk, -⟩ := hs.held i p l hp hl
        rw [InPin.deleteLink_find_outs_linked s i lkx.left p l lk hp hl hlk]
        by_cases ha : lkx.left = lk.left
        · simp only [ha, if_true]
          rw [ha] at hpo
          rw [hpo]
          refine ⟨_, rfl, ?_⟩
          simp only [List.mem_filter]
          exact ⟨hmem, by rw [hx]; rfl⟩
        · simp only [ha, if_false]
          exact ⟨po, hpo, hmem⟩

theorem WF_of_unlinked (s : Flow V) (hl : s.links = [])
    (hp : ∀ e ∈ s.ins, e.2.m_link = none) : WF s := by
  have hnone : ∀ l, Arena.find s.links l = none := by
    intro l; rw [hl]; rfl
  have hheld : ∀ i p l, Arena.find s.ins i = some p → p.m_link ≠ some l := by
    intro i p l hi hc
    have := hp (i, p) (Arena.mem_of_find _ _ _ hi)
    simp only at this
    rw [this] at hc
    exact Option.noConfusion hc
  refine { holder := ?_, held := ?_, fresh := ?_, registered := ?_ }
  · intro l lk h; rw [hnone] at h; exact Option.noConfusion h
  · intro i p l hi h; exact absurd h (hheld i p l hi)
  · intro l lk h; rw [hnone] at h; exact Option.noConfusion h
  · intro l lk h; rw [hnone] at h; exact Option.noConfusion h

theorem WF_createLink (s : Flow V) (o i : Nat) (hs : WF s) : WF (createLink s o i).2 := by
  cases ho : Arena.find s.outs o with
  | none => rw [createLink_invalid s o i (Or.inl ho)]; exact hs
  | some po =>
    cases hi : Arena.find s.ins i with
    | none => rw [createLink_invalid s o i (Or.inr hi)]; exact hs
    | some pi =>
      by_cases hc : po.dataType = pi.dataType ∧ pi.m_filter po.toPin pi.toPin = true ∧
          (po.m_parent ≠ pi.m_parent ∨ pi.m_allowSelfConnection = true)
      · rw [createLink_accept s o i po pi ho hi hc.1 hc.2.1 hc.2.2]
        have h1 := WF_deleteLink s i hs
        have hnext := InPin.deleteLink_nextLink s i
        have hi1 : Arena.find (InPin.deleteLink s i).ins i = some { pi with m_link := none } := by
          rw [InPin.deleteLink_find_ins, hi]; simp
        obtain ⟨keep, hkeep⟩ := InPin.deleteLink_find_outs s i o
        rw [ho] at hkeep
        simp only [Option.map_some'] at hkeep
        refine { holder := ?_, held := ?_, fresh := ?_, registered := ?_ }
        · intro x lkx hx
          simp only [Arena.find_cons] at hx
          simp only [Arena.find_modify]
          by_cases hxn : s.nextLink = x
          · simp only [hxn, if_true, Option.some.injEq] at hx
            subst hx
            refine ⟨{ pi with m_link := some s.nextLink }, ?_, by rw [hxn]⟩
            simp [Link.right, Link.new, hi1]
          · simp only [hxn, if_false] at hx
            obtain ⟨q, hq, hql⟩ := h1.holder x lkx hx
            have hne : lkx.right ≠ i := by
              intro heq
              rw [heq, hi1] at hq
              simp only [Option.some.injEq] at hq
              subst hq
              exact Option.noConfusion hql
            exact ⟨q, by simp only [hne, if_false]; exact hq, hql⟩
        · intro j q x hj hqx
          simp only [Arena.find_modify] at hj
          simp only [Arena.find_cons]
          by_cases hji : j = i
          · subst hji
            simp only [if_true, hi1, Option.map_some', Option.some.injEq] at hj
            subst hj
            simp only [Option.some.injEq] at hqx
            subst hqx
            exact ⟨Link.new o j pi.m_inf, by simp, rfl⟩
          · simp only [hji, if_false] at hj
            obtain ⟨lkx, hlkx, hr⟩ := h1.held j q x hj hqx
            have hlt := h1.fresh x lkx hlkx
            rw [hnext] at hlt
            have hxn : ¬ s.nextLink = x := by omega
            exact ⟨lkx, by simp only [hxn, if_false]; exact hlkx, hr⟩
        · intro x lkx hx
          simp only [Arena.find_cons] at hx
          by_cases hxn : s.nextLink = x
          · subst hxn; exact Nat.lt_succ_self _
          · simp only [hxn, if_false] at hx
            have hlt := h1.fresh x lkx hx
            rw [hnext] at hlt
            exact Nat.lt_succ_of_lt hlt
        · intro x lkx hx
          simp only [Arena.find_cons] at hx
          simp only [Arena.find_modify]
          by_cases hxn : s.nextLink = x
          · simp only [hxn, if_true, Option.some.injEq] at hx
            subst hx
            refine ⟨{ po with m_links := po.m_links.filter keep ++ [s.nextLink] }, ?_, ?_⟩
            · simp only [Link.left, Link.new, if_true, hkeep, Option.map_some']
            · simp [hxn]
          · simp only [hxn, if_false] at hx
            obtain ⟨q, hq, hmem⟩ := h1.registered x lkx hx
            by_cases hlo : lkx.left = o
            · rw [hlo] at hq
              simp only [hlo, if_true, hq, Option.map_some']
              exact ⟨_, rfl, List.mem_append_left _ hmem⟩
            · simp only [hlo, if_false]
              exact ⟨q, hq, hmem⟩
      · obtain ⟨e2, he⟩ := createLink_reject s o i po pi ho hi hc
        rw [he]; exact hs

theorem sample0_WF : WF sample0 :=
  WF_of_unlinked sample0 rfl (by simp [sample0, InPin.new])

theorem sample1_WF : WF sample1 :=
  WF_createLink sample0 1 11 sample0_WF

/-- C5: an input pin holds at most one link.  In a well-formed heap, when input
pin `i` holds the link `l1` from output `o1` and `createLink(o2, i)` succeeds
for another output `o2`, then `l1` is released, the link `i` holds
afterwards is the new one, which runs from `o2` to `i` and is the only live
link ending in `i`; the fan-out list of `o1` is its old list without `l1`
and without expired entries, so it has no live link to `i`, and
`o1.isConnected()` is computed from that reduced list. -/
theorem createLink_replaces (s : Flow V) (o2 i l1 l2 : Nat) (p : InPin V) (lk1 : Link)
    (po1 : OutPin V) (hs : WF s)
    (hi : Arena.find s.ins i = some p) (hl : p.m_link = some l1)
    (hlk : Arena.find s.links l1 = some lk1) (ho1 : Arena.find s.outs lk1.left = some po1)
    (hne : o2 ≠ lk1.left) (h : (createLink s o2 i).1 = Except.ok l2) :
    Arena.find (createLink s o2 i).2.links l1 = none ∧
      (createLink s o2 i).2.inGetLink i = some (some l2) ∧
      (∃ lk2, Arena.find (createLink s o2 i).2.links l2 = some lk2 ∧
        lk2.left = o2 ∧ lk2.right = i) ∧
      (∀ l lk, Arena.find (createLink s o2 i).2.links l = some lk → lk.right = i → l = l2) ∧
      (∃ po, Arena.find (createLink s o2 i).2.outs lk1.left = some po ∧
        po.m_links = List.filter
          (fun x => decide (x ≠ l1) && (Arena.find s.links x).isSome) po1.m_links ∧
        l1 ∉ po.m_links ∧
        (∀ l ∈ po.m_links, ∀ lk, Arena.find (createLink s o2 i).2.links l = some lk →
          lk.right ≠ i) ∧
        (createLink s o2 i).2.outIsConnected lk1.left = some (!po.m_links.isEmpty)) := by
  obtain ⟨po2, pi, ho2, hi2, ht, hf, hn, hl2⟩ := createLink_ok_inv s o2 i l2 h
  rw [hi] at hi2
  simp only [Option.some.injEq] at hi2
  subst hi2
  subst hl2
  have hlinks1 : ∀ x, Arena.find (InPin.deleteLink s i).links x =
      if x = l1 then none else Arena.find s.links x := by
    intro x
    rw [InPin.deleteLink_find_links, hi]
    simp only [Option.some_bind, hl, Option.some.injEq]
    by_cases hx : x = l1
    · subst hx; simp
    · have : ¬ l1 = x := fun h => hx h.symm
      simp [hx, this]
  have hfresh1 : l1 < s.nextLink := hs.fresh l1 lk1 hlk
  have hacc := createLink_accept s o2 i po2 p ho2 hi ht hf hn
  have hlinks : ∀ x, Arena.find (createLink s o2 i).2.links x =
      if s.nextLink = x then some (Link.new o2 i p.m_inf)
      else if x = l1 then none else Arena.find s.links x := by
    intro x
    rw [hacc]
    simp only [Arena.find_cons, hlinks1]
  have hone : ∀ l lk, Arena.find (createLink s o2 i).2.links l = some lk → lk.right = i →
      l = s.nextLink := by
    intro x lkx hx hr
    rw [hlinks] at hx
    by_cases hxn : s.nextLink = x
    · exact hxn.symm
    · simp only [hxn, if_false] at hx
      by_cases hx1 : x = l1
      · simp [hx1] at hx
      · simp only [hx1, if_false] at hx
        obtain ⟨q, hq, hql⟩ := hs.holder x lkx hx
        rw [hr, hi] at hq
        simp only [Option.some.injEq] at hq
        subst hq
        rw [hl] at hql
        simp only [Option.some.injEq] at hql
        exact absurd hql.symm hx1
  have hne2 : ¬ lk1.left = o2 := fun h => hne h.symm
  have hpred : ∀ x, (Arena.find (InPin.deleteLink s i).links x).isSome =
      (decide (x ≠ l1) && (Arena.find s.links x).isSome) := by
    intro x
    rw [hlinks1]
    by_cases hx : x = l1
    · simp [hx]
    · simp [hx]
  have houts : Arena.find (createLink s o2 i).2.outs lk1.left =
      some { po1 with
        m_links := List.filter (fun x => decide (x ≠ l1) && (Arena.find s.links x).isSome)
          po1.m_links } := by
    rw [hacc]
    simp only [Arena.find_modify, hne2, if_false]
    rw [InPin.deleteLink_find_outs_linked s i lk1.left p l1 lk1 hi hl hlk]
    simp only [if_true, ho1, Option.map_some', hpred]
  refine ⟨?_, ?_, ?_, hone, ?_⟩
  · rw [hlinks]
    have : ¬ s.nextLink = l1 := by omega
    simp [this]
  · rw [hacc]
    simp [Flow.inGetLink, Arena.find_modify, InPin.deleteLink_find_ins, hi, InPin.getLink]
  · exact ⟨Link.new o2 i p.m_inf, by rw [hlinks]; simp, rfl, rfl⟩
  · refine ⟨_, houts, rfl, ?_, ?_, ?_⟩
    · simp [List.mem_filter]
    · intro x hx lkx hlkx hr
      have hxn := hone x lkx hlkx hr
      simp only [List.mem_filter, Bool.and_eq_true, decide_eq_true_eq] at hx
      obtain ⟨-, -, hlive⟩ := hx
      cases hfx : Arena.find s.links x with
      | none => rw [hfx] at hlive; exact Bool.noConfusion hlive
      | some lk0 =>
        have := hs.fresh x lk0 hfx
        omega
    · simp [Flow.outIsConnected, houts, OutPin.isConnected]

/-- Witness for C5: input 11 of the sample graph is linked to output 1 and is
then linked to output 2. -/
theorem createLink_replaces_witness :
    Arena.find sample2.links 0 = none ∧
      sample2.inGetLink 11 = some (some 1) ∧
      (∃ lk2, Arena.find sample2.links 1 = some lk2 ∧ lk2.left = 2 ∧ lk2.right = 11) ∧
      (∀ l lk, Arena.find sample2.links l = some lk → lk.right = 11 → l = 1) ∧
      (∃ po, Arena.find sample2.outs 1 = some po ∧
        po.m_links = List.filter
          (fun x => decide (x ≠ 0) && (Arena.find sample1.links x).isSome) [0] ∧
        0 ∉ po.m_links ∧
        (∀ l ∈ po.m_links, ∀ lk, Arena.find sample2.links l = some lk → lk.right ≠ 11) ∧
        sample2.outIsConnected 1 = some (!po.m_links.isEmpty)) :=
  createLink_replaces sample1 2 11 0 1 _ (Link.new 1 11 99) _
    sample1_WF rfl rfl rfl rfl (by decide) rfl

/-! ## Destroying an output pin -/

theorem OutPin.dtorStep_inv (st : Flow V) (l : Nat) (hs : Owned st) :
    Owned (OutPin.dtorStep st l) ∧
      (∀ x lkx, Arena.find (OutPin.dtorStep st l).links x = some lkx →
        Arena.find st.links x = some lkx) ∧
      Arena.find (OutPin.dtorStep st l).links l = none ∧
      (∀ j, (Arena.find (OutPin.dtorStep st l).ins j).isSome = (Arena.find st.ins j).isSome) := by
  unfold OutPin.dtorStep
  cases hl : Arena.find st.links l with
  | none => exact ⟨hs, fun _ _ h => h, hl, fun _ => rfl⟩
  | some lk =>
    simp only
    refine ⟨Owned_deleteLink st lk.right hs, InPin.deleteLink_links_sub st lk.right, ?_, ?_⟩
    · obtain ⟨q, hq, hql⟩ := hs.holder l lk hl
      rw [InPin.deleteLink_find_links, hq]
      simp [hql]
    · intro j
      rw [InPin.deleteLink_find_ins]
      by_cases hj : j = lk.right
      · subst hj
        simp only [if_true]
        cases Arena.find st.ins lk.right with
        | none => rfl
        | some q => rfl
      · simp only [hj, if_false]

theorem OutPin.dtorLoop_inv (ls : List Nat) :
    ∀ (st : Flow V), Owned st →
      Owned (ls.foldl OutPin.dtorStep st) ∧
        (∀ x lkx, Arena.find (ls.foldl OutPin.dtorStep st).links x = some lkx →
          Arena.find st.links x = some lkx) ∧
        (∀ l ∈ ls, Arena.find (ls.foldl OutPin.dtorStep st).links l = none) ∧
        (∀ j, (Arena.find (ls.foldl OutPin.dtorStep st).ins j).isSome =
          (Arena.find st.ins j).isSome) := by
  induction ls with
  | nil =>
    intro st hs
    exact ⟨hs, fun _ _ h => h, fun _ h => absurd h (List.not_mem_nil _), fun _ => rfl⟩
  | cons l ls ih =>
    intro st hs
    obtain ⟨h1, h2, h3, h4⟩ := OutPin.dtorStep_inv st l hs
    obtain ⟨k1, k2, k3, k4⟩ := ih (OutPin.dtorStep st l) h1
    simp only [List.foldl_cons]
    refine ⟨k1, fun x lkx h => h2 x lkx (k2 x lkx h), ?_, fun j => (k4 j).trans (h4 j)⟩
    intro x hx
    rcases List.mem_cons.mp hx with hxl | hxl
    · subst hxl
      cases hf : Arena.find (List.foldl OutPin.dtorStep (OutPin.dtorStep st x) ls).links x with
      | none => rfl
      | some lkx =>
        have := k2 x lkx hf
        rw [h3] at this
        exact Option.noConfusion this
    · exact k3 x hxl

theorem OutPin.dtor_eq (s : Flow V) (o : Nat) (po : OutPin V)
    (ho : Arena.find s.outs o = some po) :
    OutPin.dtor s o =
      { (po.m_links.foldl OutPin.dtorStep
          { s with outs := Arena.modify s.outs o (fun q => { q with m_links := [] }) }) with
        outs := Arena.remove
          (po.m_links.foldl OutPin.dtorStep
            { s with outs := Arena.modify s.outs o (fun q => { q with m_links := [] }) }).outs o } := by
  unfold OutPin.dtor
  rw [ho]

/-- C6: when an output pin of a well-formed heap is destroyed, every link of
its fan-out is torn down: for each live link in the fan-out list the input
pin at the right end is unconnected afterwards; no live link has the
destroyed pin at its left end, every link an input pin still holds is live
and comes from another pin, and the pin is gone. -/
theorem OutPin.dtor_disconnects (s : Flow V) (o : Nat) (po : OutPin V) (hs : WF s)
    (ho : Arena.find s.outs o = some po) :
    (∀ l ∈ po.m_links, ∀ lk, Arena.find s.links l = some lk →
        (OutPin.dtor s o).inIsConnected lk.right = some false) ∧
      (∀ x lkx, Arena.find (OutPin.dtor s o).links x = some lkx → lkx.left ≠ o) ∧
      (∀ j q x, Arena.find (OutPin.dtor s o).ins j = some q → q.m_link = some x →
        ∃ lkx, Arena.find (OutPin.dtor s o).links x = some lkx ∧ lkx.left ≠ o) ∧
      Arena.find (OutPin.dtor s o).outs o = none := by
  have hs0 : Owned ({ s with outs := Arena.modify s.outs o (fun q => { q with m_links := [] }) } :
      Flow V) := ⟨hs.holder, hs.held⟩
  obtain ⟨k1, k2, k3, k4⟩ := OutPin.dtorLoop_inv po.m_links _ hs0
  rw [OutPin.dtor_eq s o po ho]
  have hnoleft : ∀ x lkx,
      Arena.find (po.m_links.foldl OutPin.dtorStep
        { s with outs := Arena.modify s.outs o (fun q => { q with m_links := [] }) }).links x
          = some lkx → lkx.left ≠ o := by
    intro x lkx hx hleft
    have hx0 : Arena.find s.links x = some lkx := k2 x lkx hx
    obtain ⟨po2, hpo2, hmem⟩ := hs.registered x lkx hx0
    rw [hleft, ho] at hpo2
    simp only [Option.some.injEq] at hpo2
    subst hpo2
    rw [k3 x hmem] at hx
    exact Option.noConfusion hx
  refine ⟨?_, hnoleft, ?_, ?_⟩
  · intro l hl lk hlk
    obtain ⟨q0, hq0, hq0l⟩ := hs.holder l lk hlk
    have hex := k4 lk.right
    simp only [hq0, Option.isSome_some] at hex
    simp only [Flow.inIsConnected]
    cases hq : Arena.find (po.m_links.foldl OutPin.dtorStep
        { s with outs := Arena.modify s.outs o (fun q => { q with m_links := [] }) }).ins
        lk.right with
    | none => rw [hq] at hex; exact Bool.noConfusion hex
    | some q =>
      simp only [Option.map_some', InPin.isConnected, Option.some.injEq]
      cases hql : q.m_link with
      | none => rfl
      | some x =>
        exfalso
        obtain ⟨lkx, hlkx, hr⟩ := k1.held lk.right q x hq hql
        have hx0 : Arena.find s.links x = some lkx := k2 x lkx hlkx
        obtain ⟨q1, hq1, hq1l⟩ := hs.holder x lkx hx0
        rw [hr, hq0] at hq1
        simp only [Option.some.injEq] at hq1
        subst hq1
        rw [hq0l] at hq1l
        simp only [Option.some.injEq] at hq1l
        subst hq1l
        rw [k3 l hl] at hlkx
        exact Option.noConfusion hlkx
  · intro j q x hj hqx
    obtain ⟨lkx, hlkx, -⟩ := k1.held j q x hj hqx
    exact ⟨lkx, hlkx, hnoleft x lkx hlkx⟩
  · simp [Arena.find_remove]

theorem loop0_WF : WF loop0 :=
  WF_of_unlinked loop0 rfl (by simp [loop0, InPin.new, InPin.allowSameNodeConnections])

theorem loop2_WF : WF loop2 :=
  WF_createLink loop1 3 2 (WF_createLink loop0 3 1 loop0_WF)

/-- Witness for C6: output 3 of the feedback graph fans out to inputs 1 and 2;
after it is destroyed both inputs are unconnected and the pin is gone. -/
theorem OutPin.dtor_disconnects_witness :
    (OutPin.dtor loop2 3).inIsConnected 1 = some false ∧
      (OutPin.dtor loop2 3).inIsConnected 2 = some false ∧
      (∀ x lkx, Arena.find (OutPin.dtor loop2 3).links x = some lkx → lkx.left ≠ 3) ∧
      Arena.find (OutPin.dtor loop2 3).outs 3 = none :=
  ⟨(OutPin.dtor_disconnects loop2 3
      { (OutPin.new TypeTag.int 1 "o" 10 99 : OutPin Int).behaviour succBehaviour with
        m_links := [0, 1] } loop2_WF rfl).1 0 (by decide) (Link.new 3 1 99) rfl,
    (OutPin.dtor_disconnects loop2 3
      { (OutPin.new TypeTag.int 1 "o" 10 99 : OutPin Int).behaviour succBehaviour with
        m_links := [0, 1] } loop2_WF rfl).1 1 (by decide) (Link.new 3 2 99) rfl,
    (OutPin.dtor_disconnects loop2 3 _ loop2_WF rfl).2.1,
    (OutPin.dtor_disconnects loop2 3 _ loop2_WF rfl).2.2.2⟩

/-! ## Deleting one link of a fan-out -/

theorem readAll_congr (f g : Nat → Except EvalError V) (l : List Nat)
    (h : ∀ j ∈ l, f j = g j) : readAll f l = readAll g l := by
  induction l with
  | nil => rfl
  | cons j js ih =>
    rw [readAll, readAll, h j (List.mem_cons_self _ _),
      ih (fun k hk => h k (List.mem_cons_of_mem _ hk))]

theorem runBehaviour_congr [Inhabited V] (f g : Nat → Except EvalError V)
    (b : Option (Behaviour V)) (h : ∀ b0, b = some b0 → ∀ j ∈ b0.reads, f j = g j) :
    runBehaviour f b = runBehaviour g b := by
  cases b with
  | none => rfl
  | some b0 => rw [runBehaviour, runBehaviour, readAll_congr f g b0.reads (h b0 rfl)]

theorem valueAux_deleteLink_frame [Inhabited V] (s : Flow V) (i1 : Nat) (hs : Owned s) :
    ∀ (fuel : Nat) (stack : List Nat) (i : Nat), ¬ dependsOn s i i1 →
      valueAux fuel (InPin.deleteLink s i1) stack i = valueAux fuel s stack i := by
  intro fuel
  induction fuel with
  | zero => intro stack i _; rfl
  | succ fuel ih =>
    intro stack i hdep
    have hne : i ≠ i1 := fun h => hdep (h ▸ Relation.ReflTransGen.refl)
    have hins : Arena.find (InPin.deleteLink s i1).ins i = Arena.find s.ins i := by
      rw [InPin.deleteLink_find_ins]; simp only [hne, if_false]
    rw [valueAux_succ, valueAux_succ, hins]
    cases hp : Arena.find s.ins i with
    | none => rfl
    | some p =>
      simp only
      by_cases hst : i ∈ stack
      · simp only [hst, if_true]
      · simp only [hst, if_false]
        cases hl : p.m_link with
        | none => rfl
        | some l =>
          simp only
          have hlinks : Arena.find (InPin.deleteLink s i1).links l = Arena.find s.links l := by
            rw [InPin.deleteLink_find_links]
            have hnot : ¬ (Arena.find s.ins i1).bind (fun p => p.m_link) = some l := by
              intro hb
              cases hp1 : Arena.find s.ins i1 with
              | none => rw [hp1] at hb; exact Option.noConfusion hb
              | some p1 =>
                rw [hp1] at hb
                simp only [Option.some_bind] at hb
                obtain ⟨lk, hlk, hr⟩ := hs.held i p l hp hl
                obtain ⟨lk1, hlk1, hr1⟩ := hs.held i1 p1 l hp1 hb
                rw [hlk] at hlk1
                simp only [Option.some.injEq] at hlk1
                subst hlk1
                exact hne (hr.symm.trans hr1)
            simp only [hnot, if_false]
          rw [hlinks]
          cases hlk : Arena.find s.links l with
          | none => rfl
          | some lk =>
            simp only
            obtain ⟨keep, hkeep⟩ := InPin.deleteLink_find_outs s i1 lk.left
            rw [hkeep]
            cases ho : Arena.find s.outs lk.left with
            | none => rfl
            | some po =>
              simp only [Option.map_some']
              apply runBehaviour_congr
              intro b hb j hj
              apply ih
              intro hdj
              exact hdep (Relation.ReflTransGen.head ⟨p, l, lk, po, b, hp, hl, hlk, ho, hb, hj⟩ hdj)

/-- C7 as stated fails: in the feedback graph output 3 fans out to the inputs 1
and 2 (links 0 and 1) and its producer reads input 1; deleting the link of
input 1 changes what input 2 reads from 9 to 8. -/
theorem deleteLink_changes_other_value :
    Arena.find loop2.links 0 = some (Link.new 3 1 99) ∧
      Arena.find loop2.links 1 = some (Link.new 3 2 99) ∧
      loop2.inGetLink 1 = some (some 0) ∧
      loop2.inGetLink 2 = some (some 1) ∧
      InPin.val loop2 2 = Except.ok 9 ∧
      InPin.val (InPin.deleteLink loop2 1) 2 = Except.ok 8 :=
  ⟨rfl, rfl, rfl, rfl, rfl, rfl⟩

/-- C7, amended: deleting the link of input pin `i1` leaves the link and
`isConnected()` of every other input pin `i2` as they were, and in a heap
with owned links the value `i2` reads is the same before and after
provided the evaluation of `i2` does not request `i1`. -/
theorem InPin.deleteLink_frame [Inhabited V] (s : Flow V) (i1 i2 : Nat) (hne : i1 ≠ i2) :
    (InPin.deleteLink s i1).inGetLink i2 = s.inGetLink i2 ∧
      (InPin.deleteLink s i1).inIsConnected i2 = s.inIsConnected i2 ∧
      (Owned s → ¬ dependsOn s i2 i1 →
        InPin.val (InPin.deleteLink s i1) i2 = InPin.val s i2) := by
  have hne2 : ¬ i2 = i1 := fun h => hne h.symm
  have hins : Arena.find (InPin.deleteLink s i1).ins i2 = Arena.find s.ins i2 := by
    rw [InPin.deleteLink_find_ins]; simp only [hne2, if_false]
  refine ⟨?_, ?_, ?_⟩
  · simp only [Flow.inGetLink, hins]
  · simp only [Flow.inIsConnected, hins]
  · intro hs hdep
    have hlen : (InPin.deleteLink s i1).ins.length = s.ins.length := by
      have := congrArg List.length (InPin.deleteLink_keys_ins s i1)
      simpa [Arena.keys] using this
    unfold InPin.val
    rw [hlen]
    exact valueAux_deleteLink_frame s i1 hs _ [] i2 hdep

theorem not_dependsOn_of_reads_nil (s : Flow V) (i j : Nat) (p : InPin V) (l : Nat) (lk : Link)
    (po : OutPin V) (b : Behaviour V) (hij : i ≠ j) (hp : Arena.find s.ins i = some p)
    (hl : p.m_link = some l) (hlk : Arena.find s.links l = some lk)
    (ho : Arena.find s.outs lk.left = some po) (hb : po.m_behaviour = some b)
    (hr : b.reads = []) : ¬ dependsOn s i j := by
  intro h
  rcases Relation.ReflTransGen.cases_head h with heq | ⟨c, ⟨p2, l2, lk2, po2, b2, hp2, hl2, hlk2, ho2, hb2, hj2⟩, -⟩
  · exact hij heq
  · rw [hp] at hp2
    simp only [Option.some.injEq] at hp2
    subst hp2
    rw [hl] at hl2
    simp only [Option.some.injEq] at hl2
    subst hl2
    rw [hlk] at hlk2
    simp only [Option.some.injEq] at hlk2
    subst hlk2
    rw [ho] at ho2
    simp only [Option.some.injEq] at ho2
    subst ho2
    rw [hb] at hb2
    simp only [Option.some.injEq] at hb2
    subst hb2
    rw [hr] at hj2
    exact absurd hj2 (List.not_mem_nil _)

theorem fan2_WF : WF fan2 :=
  WF_createLink sample1 1 12 sample1_WF

/-- Witness for C7: output 1 of the sample graph, a constant, fans out to the
inputs 11 and 12; deleting the link of 11 leaves 12 as it was. -/
theorem InPin.deleteLink_frame_witness :
    (InPin.deleteLink fan2 11).inGetLink 12 = fan2.inGetLink 12 ∧
      (InPin.deleteLink fan2 11).inIsConnected 12 = fan2.inIsConnected 12 ∧
      InPin.val (InPin.deleteLink fan2 11) 12 = InPin.val fan2 12 :=
  ⟨(InPin.deleteLink_frame fan2 11 12 (by decide)).1,
    (InPin.deleteLink_frame fan2 11 12 (by decide)).2.1,
    (InPin.deleteLink_frame fan2 11 12 (by decide)).2.2 fan2_WF.toOwned
      (not_dependsOn_of_reads_nil fan2 12 11 _ 1 (Link.new 1 12 99)
        { (OutPin.new TypeTag.int 1 "five" 10 99 : OutPin Int).behaviour (Behaviour.const 5) with
          m_links := [0, 1] }
        (Behaviour.const 5) (by decide) rfl rfl rfl rfl rfl rfl)⟩

theorem OutPin.dtorStep_nextLink (st : Flow V) (l : Nat) :
    (OutPin.dtorStep st l).nextLink = st.nextLink := by
  unfold OutPin.dtorStep
  cases Arena.find st.links l with
  | none => rfl
  | some lk => exact InPin.deleteLink_nextLink st lk.right

theorem OutPin.dtorStep_outs (st : Flow V) (l : Nat) (hs : Owned st) (a : Nat) (po : OutPin V)
    (x : Nat) (hpo : Arena.find st.outs a = some po) (hx : x ∈ po.m_links)
    (hlive : (Arena.find (OutPin.dtorStep st l).links x).isSome = true) :
    ∃ po2, Arena.find (OutPin.dtorStep st l).outs a = some po2 ∧ x ∈ po2.m_links := by
  unfold OutPin.dtorStep at hlive ⊢
  cases hl : Arena.find st.links l with
  | none => exact ⟨po, hpo, hx⟩
  | some lk =>
    rw [hl] at hlive
    simp only at hlive ⊢
    obtain ⟨q, hq, hql⟩ := hs.holder l lk hl
    rw [InPin.deleteLink_find_outs_linked st lk.right a q l lk hq hql hl]
    by_cases ha : a = lk.left
    · simp only [ha, if_true]
      rw [ha] at hpo
      rw [hpo]
      exact ⟨_, rfl, List.mem_filter.mpr ⟨hx, hlive⟩⟩
    · simp only [ha, if_false]
      exact ⟨po, hpo, hx⟩

theorem OutPin.dtorLoop_reg (o : Nat) (ls : List Nat) :
    ∀ (st : Flow V), Owned st →
      (∀ x lkx, Arena.find st.links x = some lkx → lkx.left ≠ o →
        ∃ po, Arena.find st.outs lkx.left = some po ∧ x ∈ po.m_links) →
      (∀ x lkx, Arena.find (ls.foldl OutPin.dtorStep st).links x = some lkx → lkx.left ≠ o →
        ∃ po, Arena.find (ls.foldl OutPin.dtorStep st).outs lkx.left = some po ∧
          x ∈ po.m_links) ∧
        (ls.foldl OutPin.dtorStep st).nextLink = st.nextLink := by
  induction ls with
  | nil => intro st _ hq; exact ⟨hq, rfl⟩
  | cons l ls ih =>
    intro st hs hq
    obtain ⟨h1, h2, -, -⟩ := OutPin.dtorStep_inv st l hs
    have hq1 : ∀ x lkx, Arena.find (OutPin.dtorStep st l).links x = some lkx → lkx.left ≠ o →
        ∃ po, Arena.find (OutPin.dtorStep st l).outs lkx.left = some po ∧ x ∈ po.m_links := by
      intro x lkx hx hleft
      obtain ⟨po, hpo, hmem⟩ := hq x lkx (h2 x lkx hx) hleft
      exact OutPin.dtorStep_outs st l hs lkx.left po x hpo hmem (by rw [hx]; rfl)
    obtain ⟨r1, r2⟩ := ih (OutPin.dtorStep st l) h1 hq1
    simp only [List.foldl_cons]
    exact ⟨r1, r2.trans (OutPin.dtorStep_nextLink st l)⟩

/-- The well-formedness invariant is kept when an output pin is destroyed. -/
theorem WF_dtor (s : Flow V) (o : Nat) (hs : WF s) : WF (OutPin.dtor s o) := by
  cases ho : Arena.find s.outs o with
  | none =>
    have : OutPin.dtor s o = s := by unfold OutPin.dtor; rw [ho]
    rw [this]; exact hs
  | some po =>
    have hs0 : Owned ({ s with outs := Arena.modify s.outs o (fun q => { q with m_links := [] }) } :
        Flow V) := ⟨hs.holder, hs.held⟩
    have hq0 : ∀ x lkx, Arena.find s.links x = some lkx → lkx.left ≠ o →
        ∃ po2, Arena.find (Arena.modify s.outs o (fun q => { q with m_links := [] }))
          lkx.left = some po2 ∧ x ∈ po2.m_links := by
      intro x lkx hx hleft
      obtain ⟨po2, hpo2, hmem⟩ := hs.registered x lkx hx
      exact ⟨po2, by simp only [Arena.find_modify, hleft, if_false]; exact hpo2, hmem⟩
    obtain ⟨k1, k2, k3, -⟩ := OutPin.dtorLoop_inv po.m_links _ hs0
    obtain ⟨r1, r2⟩ := OutPin.dtorLoop_reg o po.m_links _ hs0 hq0
    rw [OutPin.dtor_eq s o po ho]
    refine { holder := k1.holder, held := k1.held, fresh := ?_, registered := ?_ }
    · intro x lkx hx
      have hx0 : Arena.find s.links x = some lkx := k2 x lkx hx
      have := hs.fresh x lkx hx0
      simp only [r2]
      exact this
    · intro x lkx hx
      have hleft : lkx.left ≠ o := by
        intro hleft
        have hx0 : Arena.find s.links x = some lkx := k2 x lkx hx
        obtain ⟨po2, hpo2, hmem⟩ := hs.registered x lkx hx0
        rw [hleft, ho] at hpo2
        simp only [Option.some.injEq] at hpo2
        subst hpo2
        have hx2 := hx
        simp only at hx2
        rw [k3 x hmem] at hx2
        exact Option.noConfusion hx2
      obtain ⟨po2, hpo2, hmem⟩ := r1 x lkx hx hleft
      exact ⟨po2, by simp only [Arena.find_remove, hleft, if_false]; exact hpo2, hmem⟩

/-! ## Nodes: staged flags, identity, destruction -/

/-- C11: node selection is staged.  `selected(state)` leaves `isSelected()` as it
was; after the next `updatePublicStatus()` `isSelected()` is the value staged
last, so of two `selected` calls the later one wins; and a new node is
unselected. -/
theorem selected_staged (n : BaseNode) (state state2 : Bool) (this : Nat) :
    (n.selected state).isSelected = n.isSelected ∧
      ((n.selected state).updatePublicStatus).isSelected = state ∧
      (((n.selected state).selected state2).updatePublicStatus).isSelected = state2 ∧
      (BaseNode.new this).isSelected = false ∧
      ((BaseNode.new this).updatePublicStatus).isSelected = false :=
  ⟨rfl, rfl, rfl, rfl, rfl⟩

/-- C15: right after construction `getUID()` is the address of the node; none of
`destroy`, `selected`, `updatePublicStatus`, `setPos`, `setTitle`,
`setHandler`, `setStyle` changes `getUID()`; `setUID(u)` changes it to `u`. -/
theorem getUID_stable (n : BaseNode) (this u : Nat) (state : Bool) (pos : ImVec2)
    (title : String) (inf style : Option Nat) :
    (BaseNode.new this).getUID = this ∧
      n.destroy.getUID = n.getUID ∧
      (n.selected state).getUID = n.getUID ∧
      n.updatePublicStatus.getUID = n.getUID ∧
      (n.setPos pos).getUID = n.getUID ∧
      (n.setTitle title).getUID = n.getUID ∧
      (n.setHandler inf).getUID = n.getUID ∧
      (n.setStyle style).getUID = n.getUID ∧
      (n.setUID u).getUID = u :=
  ⟨rfl, rfl, rfl, rfl, rfl, rfl, rfl, rfl, rfl⟩

/-- C16: `toDestroy()` is true after `destroy()`, and `destroy()` on a node
whose `toDestroy()` is already true changes no member of the node; so
destroying twice is destroying once. -/
theorem destroy_idempotent (n : BaseNode) :
    n.destroy.toDestroy = true ∧
      (n.toDestroy = true → n.destroy = n) ∧
      n.destroy.destroy = n.destroy := by
  refine ⟨rfl, ?_, rfl⟩
  intro h
  cases n
  simp only [BaseNode.toDestroy] at h
  simp only [BaseNode.destroy, h]

/-- Witness for C16: a node that has been destroyed once. -/
theorem destroy_idempotent_witness :
    (BaseNode.new 100).destroy.destroy = (BaseNode.new 100).destroy :=
  (destroy_idempotent (BaseNode.new 100).destroy).2.1 rfl

/-! ## The editor: staged dragging flag and the click of the frame -/

/-- C12: `draggingNode(state)` leaves `isNodeDragged()` as it was; it records
`state` in `m_draggingNodeNext` and changes no other member. -/
theorem draggingNode_staged (e : ImNodeFlow) (state : Bool) :
    (e.draggingNode state).isNodeDragged = e.isNodeDragged ∧
      (e.draggingNode state).m_draggingNodeNext = state ∧
      e.draggingNode state = { e with m_draggingNodeNext := state } :=
  ⟨rfl, rfl, rfl⟩

/-- C13: after `consumeSingleUseClick()` the click is used: `getSingleUseClick()`
is false and stays false under any number of further consume calls; of two
elements that each test the click and then consume it, the second sees
false, so at most the first sees true. -/
theorem click_single_use (e : ImNodeFlow) (k : Nat) :
    e.consumeSingleUseClick.getSingleUseClick = false ∧
      ((ImNodeFlow.consumeSingleUseClick^[k]) e.consumeSingleUseClick).getSingleUseClick
        = false ∧
      (reactToClick (reactToClick e).2).1 = false ∧
      ¬ ((reactToClick e).1 = true ∧ (reactToClick (reactToClick e).2).1 = true) := by
  have hk : ∀ (k : Nat) (e0 : ImNodeFlow), e0.getSingleUseClick = false →
      ((ImNodeFlow.consumeSingleUseClick^[k]) e0).getSingleUseClick = false := by
    intro k
    induction k with
    | zero => intro e0 h; exact h
    | succ k ih =>
      intro e0 _
      rw [Function.iterate_succ_apply]
      exact ih _ rfl
  refine ⟨rfl, hk k _ rfl, rfl, ?_⟩
  rintro ⟨-, h⟩
  exact Bool.noConfusion (show false = true from h)

/-! ## Editor names -/

theorem digitChar_inj_lt_ten :
    ∀ a < 10, ∀ b < 10, Nat.digitChar a = Nat.digitChar b → a = b := by
  decide

theorem digitChar_ne_minus : ∀ a < 10, Nat.digitChar a ≠ '-' := by
  decide

theorem map_digitChar_inj (l1 : List Nat) :
    ∀ l2 : List Nat, (∀ x ∈ l1, x < 10) → (∀ x ∈ l2, x < 10) →
      l1.map Nat.digitChar = l2.map Nat.digitChar → l1 = l2 := by
  induction l1 with
  | nil =>
    intro l2 _ _ h
    cases l2 with
    | nil => rfl
    | cons b l2 => simp at h
  | cons a l1 ih =>
    intro l2 h1 h2 h
    cases l2 with
    | nil => simp at h
    | cons b l2 =>
      simp only [List.map_cons, List.cons.injEq] at h
      have hab := digitChar_inj_lt_ten a (h1 a (List.mem_cons_self _ _)) b
        (h2 b (List.mem_cons_self _ _)) h.1
      have htl := ih l2 (fun x hx => h1 x (List.mem_cons_of_mem _ hx))
        (fun x hx => h2 x (List.mem_cons_of_mem _ hx)) h.2
      rw [hab, htl]

theorem decimalDigits_pos (n : Nat) (hn : n ≠ 0) :
    decimalDigits n = ((Nat.digits 10 n).reverse).map Nat.digitChar := by
  simp [decimalDigits, hn]

theorem decimalDigits_ne_zero_numeral (n : Nat) (hn : n ≠ 0) : decimalDigits n ≠ ['0'] := by
  rw [decimalDigits_pos n hn]
  intro h
  have hne : Nat.digits 10 n ≠ [] := Nat.digits_ne_nil_iff_ne_zero.mpr hn
  have hlast := Nat.getLast_digit_ne_zero 10 hn
  have hlt : (Nat.digits 10 n).getLast hne < 10 :=
    Nat.digits_lt_base (by norm_num) (List.getLast_mem hne)
  have hrev : (Nat.digits 10 n).reverse =
      (Nat.digits 10 n).getLast hne :: ((Nat.digits 10 n).dropLast).reverse := by
    conv_lhs => rw [← List.dropLast_append_getLast hne]
    simp
  rw [hrev] at h
  simp only [List.map_cons, List.cons.injEq] at h
  have h0 : Nat.digitChar ((Nat.digits 10 n).getLast hne) = Nat.digitChar 0 := h.1
  exact hlast (digitChar_inj_lt_ten _ hlt 0 (by norm_num) h0)

theorem decimalDigits_injective (a b : Nat) (h : decimalDigits a = decimalDigits b) : a = b := by
  by_cases ha : a = 0
  · by_cases hb : b = 0
    · rw [ha, hb]
    · subst ha
      exact absurd h.symm (decimalDigits_ne_zero_numeral b hb)
  · by_cases hb : b = 0
    · subst hb
      exact absurd h (decimalDigits_ne_zero_numeral a ha)
    · rw [decimalDigits_pos a ha, decimalDigits_pos b hb] at h
      have hrev := map_digitChar_inj _ _
        (fun x hx => Nat.digits_lt_base (by norm_num) (List.mem_reverse.mp hx))
        (fun x hx => Nat.digits_lt_base (by norm_num) (List.mem_reverse.mp hx)) h
      exact Nat.digits.injective 10 (List.reverse_injective hrev)

theorem decimalDigits_no_minus (n : Nat) : ∀ c ∈ decimalDigits n, c ≠ '-' := by
  intro c hc
  by_cases hn : n = 0
  · subst hn
    simp only [decimalDigits, if_true, List.mem_singleton] at hc
    rw [hc]
    decide
  · rw [decimalDigits_pos n hn] at hc
    obtain ⟨d, hd, rfl⟩ := List.mem_map.mp hc
    exact digitChar_ne_minus d (Nat.digits_lt_base (by norm_num) (List.mem_reverse.mp hd))

theorem decimalDigits_ne_nil (n : Nat) : decimalDigits n ≠ [] := by
  by_cases hn : n = 0
  · simp [decimalDigits, hn]
  · rw [decimalDigits_pos n hn]
    simp [Nat.digits_ne_nil_iff_ne_zero.mpr hn]

theorem to_string_injective (a b : Int) (h : to_string a = to_string b) : a = b := by
  have hd := congrArg String.data h
  cases a with
  | ofNat k =>
    cases b with
    | ofNat m =>
      simp only [to_string] at hd
      rw [decimalDigits_injective k m hd]
    | negSucc m =>
      simp only [to_string] at hd
      exfalso
      have hmem : '-' ∈ decimalDigits k := by rw [hd]; exact List.mem_cons_self _ _
      exact decimalDigits_no_minus k '-' hmem rfl
  | negSucc k =>
    cases b with
    | ofNat m =>
      simp only [to_string] at hd
      exfalso
      have hmem : '-' ∈ decimalDigits m := by rw [← hd]; exact List.mem_cons_self _ _
      exact decimalDigits_no_minus m '-' hmem rfl
    | negSucc m =>
      simp only [to_string, List.cons.injEq, true_and] at hd
      have := decimalDigits_injective (k + 1) (m + 1) hd
      have hkm : k = m := by omega
      rw [hkm]

theorem flowGrid_name_injective (a b : Int)
    (h : "FlowGrid" ++ to_string a = "FlowGrid" ++ to_string b) : a = b := by
  apply to_string_injective
  have hd := congrArg String.data h
  simp only [String.data_append] at hd
  exact String.ext (List.append_cancel_left hd)

theorem ImNodeFlow.new_eq (name : String) (n : Int) (h : n < INT_MAX) :
    ∃ e, ImNodeFlow.new name n = some (e, n + 1) ∧ e.getName = name := by
  unfold ImNodeFlow.new
  rw [if_pos h]
  exact ⟨_, rfl, rfl⟩

theorem ImNodeFlow.new_inv (name : String) (n m : Int) (e : ImNodeFlow)
    (h : ImNodeFlow.new name n = some (e, m)) : m = n + 1 ∧ e.getName = name := by
  unfold ImNodeFlow.new at h
  split at h
  · simp only [Option.some.injEq, Prod.mk.injEq] at h
    obtain ⟨he, hm⟩ := h
    subst he
    exact ⟨hm.symm, rfl⟩
  · exact Option.noConfusion h

theorem constructAll_spec (reqs : List (Option String)) :
    ∀ (n m : Int) (es : List ImNodeFlow), constructAll reqs n = some (es, m) →
      m = n + reqs.length ∧
        ∀ (i : Nat) (e : ImNodeFlow), reqs[i]? = some none → es[i]? = some e →
          e.getName = "FlowGrid" ++ to_string (n + i) := by
  induction reqs with
  | nil =>
    intro n m es h
    simp only [constructAll, Option.some.injEq, Prod.mk.injEq] at h
    obtain ⟨-, hm⟩ := h
    refine ⟨by simp [hm], ?_⟩
    intro i e hi
    simp at hi
  | cons req reqs ih =>
    intro n m es h
    rw [constructAll] at h
    cases hfirst : constructOne req n with
    | none => rw [hfirst] at h; exact Option.noConfusion h
    | some r =>
      obtain ⟨e0, n1⟩ := r
      rw [hfirst] at h
      simp only at h
      cases hrest : constructAll reqs n1 with
      | none => rw [hrest] at h; exact Option.noConfusion h
      | some r2 =>
        obtain ⟨es2, m2⟩ := r2
        rw [hrest] at h
        simp only [Option.some.injEq, Prod.mk.injEq] at h
        obtain ⟨hes, hm⟩ := h
        subst hes
        subst hm
        obtain ⟨ih1, ih2⟩ := ih n1 m2 es2 hrest
        have hn1 : n1 = n + 1 ∧ (req = none → e0.getName = "FlowGrid" ++ to_string n) := by
          cases req with
          | none =>
            simp only [constructOne, ImNodeFlow.newDefault] at hfirst
            obtain ⟨h1, h2⟩ := ImNodeFlow.new_inv _ n n1 e0 hfirst
            exact ⟨h1, fun _ => h2⟩
          | some name =>
            simp only [constructOne] at hfirst
            obtain ⟨h1, -⟩ := ImNodeFlow.new_inv _ n n1 e0 hfirst
            exact ⟨h1, fun hc => Option.noConfusion hc⟩
        refine ⟨by rw [ih1, hn1.1]; simp only [List.length_cons]; push_cast; ring, ?_⟩
        intro i e hi he
        cases i with
        | zero =>
          simp only [List.getElem?_cons_zero, Option.some.injEq] at hi he
          subst he
          simpa using hn1.2 hi
        | succ i =>
          simp only [List.getElem?_cons_succ] at hi he
          have := ih2 i e hi he
          rw [this, hn1.1]
          congr 2
          push_cast
          ring

/-- C20: when the editor instance counter is `n` (below `INT_MAX`, so that the
increment is defined), the default constructor yields an editor whose name
is `"FlowGrid"` followed by the decimal numeral of `n`, and either
constructor increases the counter by exactly one; hence in any run of
constructions two default-constructed editors have different names. -/
theorem editor_default_name (n : Int) (hn : n < INT_MAX) (name : String) :
    (∃ e, ImNodeFlow.newDefault n = some (e, n + 1) ∧
        e.getName = "FlowGrid" ++ to_string n) ∧
      (∃ e, ImNodeFlow.new name n = some (e, n + 1) ∧ e.getName = name) ∧
      (∀ (reqs : List (Option String)) (es : List ImNodeFlow) (m : Int),
        constructAll reqs n = some (es, m) →
          m = n + reqs.length ∧
          ∀ (i j : Nat) (ei ej : ImNodeFlow), i < j →
            reqs[i]? = some none → reqs[j]? = some none →
            es[i]? = some ei → es[j]? = some ej → ei.getName ≠ ej.getName) := by
  refine ⟨ImNodeFlow.new_eq _ n hn, ImNodeFlow.new_eq name n hn, ?_⟩
  intro reqs es m h
  obtain ⟨h1, h2⟩ := constructAll_spec reqs n m es h
  refine ⟨h1, ?_⟩
  intro i j ei ej hij hri hrj hei hej heq
  rw [h2 i ei hri hei, h2 j ej hrj hej] at heq
  have := flowGrid_name_injective _ _ heq
  omega

theorem constructAll_sample :
    ∃ es, constructAll [none, some "Main", none] 0 = some (es, 3) ∧ es.length = 3 := by
  simp [constructAll, constructOne, ImNodeFlow.newDefault, ImNodeFlow.new, INT_MAX]

/-- Witness for C20: with the counter at 0, a default, a named and another
default editor are constructed; the counter ends at 3 and the two default
editors have different names. -/
theorem editor_default_name_witness :
    (∃ e, ImNodeFlow.newDefault 0 = some (e, 0 + 1) ∧
        e.getName = "FlowGrid" ++ to_string 0) ∧
      ∃ es, constructAll [none, some "Main", none] 0 = some (es, 3) ∧
        ∀ (ei ej : ImNodeFlow), es[0]? = some ei → es[2]? = some ej →
          ei.getName ≠ ej.getName :=
  ⟨(editor_default_name 0 (by decide) "Main").1,
    constructAll_sample.elim fun es h =>
      ⟨es, h.1, fun ei ej hi hj =>
        ((editor_default_name 0 (by decide) "Main").2.2 _ es 3 h.1).2 0 2 ei ej (by decide)
          rfl rfl hi hj⟩⟩

/-! ## Node ids -/

theorem NodeOp.apply_keeps_uid (w : List (Nat × BaseNode)) (op : NodeOp)
    (hop : op.isSetUID = false) (hcp : op.isCopy = false)
    (hw : ∀ a n, Arena.find w a = some n → n.getUID = a) :
    ∀ a n, Arena.find (NodeOp.apply w op) a = some n → n.getUID = a := by
  have hmod : ∀ (this : Nat) (f : BaseNode → BaseNode), (∀ n, (f n).getUID = n.getUID) →
      ∀ a n, Arena.find (Arena.modify w this f) a = some n → n.getUID = a := by
    intro this f hf a n h
    rw [Arena.find_modify] at h
    by_cases ha : a = this
    · subst ha
      simp only [if_true] at h
      cases hfind : Arena.find w a with
      | none => rw [hfind] at h; exact Option.noConfusion h
      | some n0 =>
        rw [hfind] at h
        simp only [Option.map_some', Option.some.injEq] at h
        rw [← h, hf]
        exact hw a n0 hfind
    · simp only [ha, if_false] at h
      exact hw a n h
  cases op with
  | construct this =>
    intro a n h
    simp only [NodeOp.apply] at h
    split at h
    · exact hw a n h
    · rw [Arena.find_cons] at h
      by_cases ha : this = a
      · simp only [ha, if_true, Option.some.injEq] at h
        rw [← h]
        rfl
      · simp only [ha, if_false] at h
        exact hw a n h
  | delete this =>
    intro a n h
    simp only [NodeOp.apply, Arena.find_remove] at h
    by_cases ha : a = this
    · simp [ha] at h
    · simp only [ha, if_false] at h
      exact hw a n h
  | copyConstruct this src => exact Bool.noConfusion hcp
  | copyAssign this src => exact Bool.noConfusion hcp
  | setUID this uid => exact Bool.noConfusion hop
  | setTitle this title => exact hmod this (fun n => n.setTitle title) (fun _ => rfl)
  | setPos this pos => exact hmod this (fun n => n.setPos pos) (fun _ => rfl)
  | setHandler this inf => exact hmod this (fun n => n.setHandler inf) (fun _ => rfl)
  | setStyle this style => exact hmod this (fun n => n.setStyle style) (fun _ => rfl)
  | selected this state => exact hmod this (fun n => n.selected state) (fun _ => rfl)
  | updatePublicStatus this => exact hmod this (fun n => n.updatePublicStatus) (fun _ => rfl)
  | destroy this => exact hmod this (fun n => n.destroy) (fun _ => rfl)

theorem foldl_apply_keeps_uid (ops : List NodeOp) :
    ∀ (w : List (Nat × BaseNode)),
      (∀ op ∈ ops, op.isSetUID = false ∧ op.isCopy = false) →
      (∀ a n, Arena.find w a = some n → n.getUID = a) →
      ∀ a n, Arena.find (ops.foldl NodeOp.apply w) a = some n → n.getUID = a := by
  induction ops with
  | nil => intro w _ hw; exact hw
  | cons op ops ih =>
    intro w hops hw
    simp only [List.foldl_cons]
    exact ih _ (fun o ho => hops o (List.mem_cons_of_mem _ ho))
      (NodeOp.apply_keeps_uid w op (hops op (List.mem_cons_self _ _)).1
        (hops op (List.mem_cons_self _ _)).2 hw)

/-- C14 as stated fails: after two nodes are constructed at the addresses 100
and 200, `setUID(100)` on the second gives two distinct live nodes the same
`getUID()`; so does constructing the second node as a copy of the first, and
so does assigning the first node to the second. -/
theorem uid_can_collide :
    (∃ na nb, Arena.find
        (runNodeOps [NodeOp.construct 100, NodeOp.construct 200, NodeOp.setUID 200 100]) 100
          = some na ∧
      Arena.find
        (runNodeOps [NodeOp.construct 100, NodeOp.construct 200, NodeOp.setUID 200 100]) 200
          = some nb ∧
      na.getUID = nb.getUID) ∧
    (∃ na nb, Arena.find
        (runNodeOps [NodeOp.construct 100, NodeOp.copyConstruct 200 100]) 100 = some na ∧
      Arena.find
        (runNodeOps [NodeOp.construct 100, NodeOp.copyConstruct 200 100]) 200 = some nb ∧
      na.getUID = nb.getUID) ∧
    (∃ na nb, Arena.find
        (runNodeOps [NodeOp.construct 100, NodeOp.construct 200, NodeOp.copyAssign 200 100]) 100
          = some na ∧
      Arena.find
        (runNodeOps [NodeOp.construct 100, NodeOp.construct 200, NodeOp.copyAssign 200 100]) 200
          = some nb ∧
      na.getUID = nb.getUID) :=
  ⟨⟨BaseNode.new 100, (BaseNode.new 200).setUID 100, rfl, rfl, rfl⟩,
    ⟨BaseNode.new 100, (BaseNode.new 100).copy, rfl, rfl, rfl⟩,
    ⟨BaseNode.new 100, (BaseNode.new 100).copy, rfl, rfl, rfl⟩⟩

/-- C14, amended: in every state reached through construction by the declared
constructor, deletion and the calls other than `setUID`, with no node
copied, `getUID()` of every live node is the address of the node, so any
two distinct live nodes have different `getUID()` values. -/
theorem uid_unique_without_setUID_or_copy (ops : List NodeOp)
    (hops : ∀ op ∈ ops, op.isSetUID = false ∧ op.isCopy = false) :
    (∀ a n, Arena.find (runNodeOps ops) a = some n → n.getUID = a) ∧
      ∀ a b na nb, a ≠ b → Arena.find (runNodeOps ops) a = some na →
        Arena.find (runNodeOps ops) b = some nb → na.getUID ≠ nb.getUID := by
  have key := foldl_apply_keeps_uid ops [] hops
    (fun a n h => by rw [Arena.find_nil] at h; exact Option.noConfusion h)
  refine ⟨key, ?_⟩
  intro a b na nb hab ha hb heq
  have h1 := key a na ha
  have h2 := key b nb hb
  exact hab (h1.symm.trans (heq.trans h2))

/-- Witness for C14: two nodes are constructed, one gets a title and is marked
for destruction, the other is selected. -/
theorem uid_unique_without_setUID_or_copy_witness :
    (∀ a n, Arena.find (runNodeOps [NodeOp.construct 100, NodeOp.construct 200,
          NodeOp.setTitle 100 "a", NodeOp.destroy 100, NodeOp.selected 200 true]) a = some n →
        n.getUID = a) ∧
      ∀ a b na nb, a ≠ b →
        Arena.find (runNodeOps [NodeOp.construct 100, NodeOp.construct 200,
          NodeOp.setTitle 100 "a", NodeOp.destroy 100, NodeOp.selected 200 true]) a = some na →
        Arena.find (runNodeOps [NodeOp.construct 100, NodeOp.construct 200,
          NodeOp.setTitle 100 "a", NodeOp.destroy 100, NodeOp.selected 200 true]) b = some nb →
        na.getUID ≠ nb.getUID :=
  uid_unique_without_setUID_or_copy _ (by decide)

/-! ## Adding a pin to a node -/

theorem Arena.lt_above_of_mem {α : Type} (m : List (Nat × α)) (a : Nat)
    (h : a ∈ Arena.keys m) : a < Arena.above m := by
  induction m with
  | nil => exact absurd h (List.not_mem_nil _)
  | cons e m ih =>
    have hc : Arena.above (e :: m) = max (e.1 + 1) (Arena.above m) := rfl
    rw [hc]
    have hk : Arena.keys (e :: m) = e.1 :: Arena.keys m := rfl
    rw [hk] at h
    rcases List.mem_cons.mp h with hk | hk
    · subst hk
      exact lt_of_lt_of_le (Nat.lt_succ_self _) (le_max_left _ _)
    · exact lt_of_lt_of_le (ih hk) (le_max_right _ _)

theorem freshPin_ins (s : Flow V) : Arena.find s.ins (freshPin s) = none := by
  cases h : Arena.find s.ins (freshPin s) with
  | none => rfl
  | some p =>
    have h1 := Arena.lt_above_of_mem s.ins _ (Arena.mem_keys_of_find _ _ _ h)
    have h2 : Arena.above s.ins ≤ freshPin s := le_max_left _ _
    omega

theorem freshPin_outs (s : Flow V) : Arena.find s.outs (freshPin s) = none := by
  cases h : Arena.find s.outs (freshPin s) with
  | none => rfl
  | some p =>
    have h1 := Arena.lt_above_of_mem s.outs _ (Arena.mem_keys_of_find _ _ _ h)
    have h2 : Arena.above s.outs ≤ freshPin s := le_max_right _ _
    omega

/-- C18: `addIN_uid` with an id that an input pin of the node already has adds
nothing: node and heap are unchanged and an existing input pin with that id
is returned.  When no input pin of the node has the id, whatever ids the
output pins have, a new pin with that id is appended to the inputs and the
outputs are left alone. -/
theorem addIN_uid_duplicate (n : BaseNode) (s : Flow V) (this : Nat) (tag : TypeTag)
    (uid : Nat) (name : String) (d : V) (filter : Pin → Pin → Bool) :
    ((∃ a ∈ n.m_ins, ∃ p, Arena.find s.ins a = some p ∧ p.m_uid = uid) →
        ∃ b, n.addIN_uid s this tag uid name d filter = (b, n, s) ∧ b ∈ n.m_ins ∧
          ∃ p, Arena.find s.ins b = some p ∧ p.m_uid = uid) ∧
      ((∀ a ∈ n.m_ins, ∀ p, Arena.find s.ins a = some p → p.m_uid ≠ uid) →
        (n.addIN_uid s this tag uid name d filter).1 = freshPin s ∧
        (n.addIN_uid s this tag uid name d filter).2.1.m_ins = n.m_ins ++ [freshPin s] ∧
        (n.addIN_uid s this tag uid name d filter).2.1.m_outs = n.m_outs ∧
        (∃ p, Arena.find (n.addIN_uid s this tag uid name d filter).2.2.ins (freshPin s)
            = some p ∧ p.m_uid = uid ∧ p.m_emptyVal = d) ∧
        (∀ a, a ≠ freshPin s →
          Arena.find (n.addIN_uid s this tag uid name d filter).2.2.ins a = Arena.find s.ins a) ∧
        (n.addIN_uid s this tag uid name d filter).2.2.outs = s.outs) := by
  constructor
  · rintro ⟨a, ha, p, hp, hu⟩
    have hpa : hasUidIn s uid a = true := by simp [hasUidIn, hp, hu]
    cases hf : n.m_ins.find? (hasUidIn s uid) with
    | none => exact absurd hpa (by simpa using (List.find?_eq_none.mp hf) a ha)
    | some b =>
      refine ⟨b, by simp only [BaseNode.addIN_uid, hf], List.mem_of_find?_eq_some hf, ?_⟩
      have hb := List.find?_some hf
      unfold hasUidIn at hb
      cases hq : Arena.find s.ins b with
      | none => rw [hq] at hb; exact Bool.noConfusion hb
      | some q =>
        rw [hq] at hb
        exact ⟨q, rfl, by simpa using hb⟩
  · intro hno
    have hf : n.m_ins.find? (hasUidIn s uid) = none := by
      apply List.find?_eq_none.mpr
      intro a ha
      unfold hasUidIn
      cases hq : Arena.find s.ins a with
      | none => simp
      | some q => simpa using hno a ha q hq
    have heq : n.addIN_uid s this tag uid name d filter =
        (freshPin s,
          { n with m_ins := n.m_ins ++ [freshPin s] },
          { s with ins := (freshPin s,
              InPin.new tag uid name d filter this (n.m_inf.getD 0)) :: s.ins }) := by
      simp only [BaseNode.addIN_uid, hf]
    rw [heq]
    refine ⟨rfl, rfl, rfl, ⟨InPin.new tag uid name d filter this (n.m_inf.getD 0),
      by simp only [Arena.find_cons, if_true], rfl, rfl⟩, ?_, rfl⟩
    intro a ha
    have : ¬ freshPin s = a := fun h => ha h.symm
    simp only [Arena.find_cons, this, if_false]

/-- Witness for C18: node 10 of the sample graph has the input 13 with uid 1 and
an output with uid 2; adding an input with uid 1 returns pin 13 and changes
nothing, adding an input with uid 2 appends a new pin. -/
theorem addIN_uid_duplicate_witness :
    (∃ b, sampleNode.addIN_uid sample0 10 TypeTag.int 1 "again" (0 : Int)
          ConnectionFilter.None = (b, sampleNode, sample0) ∧ b ∈ sampleNode.m_ins) ∧
      (sampleNode.addIN_uid sample0 10 TypeTag.int 2 "other" (0 : Int)
          ConnectionFilter.None).2.1.m_ins = [13] ++ [freshPin sample0] ∧
      hasUidOut sample0 2 2 = true :=
  ⟨((addIN_uid_duplicate sampleNode sample0 10 TypeTag.int 1 "again" 0
        ConnectionFilter.None).1 ⟨13, by decide, _, rfl, rfl⟩).elim
      fun b hb => ⟨b, hb.1, hb.2.1⟩,
    ((addIN_uid_duplicate sampleNode sample0 10 TypeTag.int 2 "other" 0
        ConnectionFilter.None).2 (by
          intro a ha p hp
          have ha13 : a = 13 := by simpa [sampleNode] using ha
          subst ha13
          have : Arena.find sample0.ins 13 =
              some (InPin.new TypeTag.int 1 "in" 0 ConnectionFilter.SameType 10 99) := rfl
          rw [this] at hp
          simp only [Option.some.injEq] at hp
          rw [← hp]
          decide)).2.1,
    rfl⟩

/-! ## Dynamic pins: what a frame keeps and what it sweeps -/

theorem touchFirst_spec (q : Nat → Bool) (es : List (Int × Nat)) :
    ∀ es2, touchFirst q es = some es2 →
      es2.map Prod.snd = es.map Prod.snd ∧ ∀ e ∈ es2, e ∈ es ∨ q e.2 = true := by
  induction es with
  | nil => intro es2 h; exact Option.noConfusion h
  | cons e es ih =>
    intro es2 h
    rw [touchFirst] at h
    by_cases hq : q e.2 = true
    · simp only [hq, if_true, Option.some.injEq] at h
      subst h
      refine ⟨rfl, ?_⟩
      intro x hx
      rcases List.mem_cons.mp hx with hx | hx
      · right; rw [hx]; exact hq
      · left; exact List.mem_cons_of_mem _ hx
    · have hqf : q e.2 = false := by
        cases hx : q e.2 with
        | true => exact absurd hx hq
        | false => rfl
      simp only [hqf, Bool.false_eq_true, if_false] at h
      cases ht : touchFirst q es with
      | none => rw [ht] at h; exact Option.noConfusion h
      | some es3 =>
        rw [ht] at h
        simp only [Option.some.injEq] at h
        subst h
        obtain ⟨h1, h2⟩ := ih es3 ht
        refine ⟨by simp only [List.map_cons, h1], ?_⟩
        intro x hx
        rcases List.mem_cons.mp hx with hx | hx
        · left; rw [hx]; exact List.mem_cons_self _ _
        · rcases h2 x hx with h3 | h3
          · left; exact List.mem_cons_of_mem _ h3
          · right; exact h3

theorem quiet_touchFirst (q : Nat → Bool) (es es2 : List (Int × Nat)) (a : Nat)
    (ht : touchFirst q es = some es2) (hqa : q a = false) (h : quiet es a) : quiet es2 a := by
  obtain ⟨h1, h2⟩ := touchFirst_spec q es es2 ht
  refine ⟨by rw [h1]; exact h.1, ?_⟩
  intro e he hea
  rcases h2 e he with h3 | h3
  · exact h.2 e h3 hea
  · rw [hea, hqa] at h3
    exact Bool.noConfusion h3

theorem quiet_append (es : List (Int × Nat)) (a b : Nat) (m : Int) (hab : b ≠ a)
    (h : quiet es a) : quiet (es ++ [(m, b)]) a := by
  refine ⟨by simp only [List.map_append, List.mem_append]; exact Or.inl h.1, ?_⟩
  intro e he hea
  rcases List.mem_append.mp he with h3 | h3
  · exact h.2 e h3 hea
  · simp only [List.mem_singleton] at h3
    subst h3
    exact absurd hea hab

theorem WF_add_in (s : Flow V) (a : Nat) (p : InPin V) (hs : WF s)
    (ha : Arena.find s.ins a = none) (hp : p.m_link = none) :
    WF ({ s with ins := (a, p) :: s.ins } : Flow V) := by
  refine { holder := ?_, held := ?_, fresh := hs.fresh, registered := hs.registered }
  · intro l lk hl
    obtain ⟨q, hq, hql⟩ := hs.holder l lk hl
    have hne : ¬ a = lk.right := by
      intro h
      rw [← h, ha] at hq
      exact Option.noConfusion hq
    exact ⟨q, by simp only [Arena.find_cons, hne, if_false]; exact hq, hql⟩
  · intro i q l hi hql
    simp only [Arena.find_cons] at hi
    by_cases hai : a = i
    · simp only [hai, if_true, Option.some.injEq] at hi
      subst hi
      rw [hp] at hql
      exact Option.noConfusion hql
    · simp only [hai, if_false] at hi
      exact hs.held i q l hi hql

theorem WF_add_out (s : Flow V) (o : Nat) (po : OutPin V) (hs : WF s)
    (ho : Arena.find s.outs o = none) :
    WF ({ s with outs := (o, po) :: s.outs } : Flow V) := by
  refine { holder := hs.holder, held := hs.held, fresh := hs.fresh, registered := ?_ }
  intro l lk hl
  obtain ⟨q, hq, hmem⟩ := hs.registered l lk hl
  have hne : ¬ o = lk.left := by
    intro h
    rw [← h, ho] at hq
    exact Option.noConfusion hq
  exact ⟨q, by simp only [Arena.find_cons, hne, if_false]; exact hq, hmem⟩

theorem WF_InPin_dtor (s : Flow V) (a : Nat) (hs : WF s) : WF (InPin.dtor s a) := by
  have h1 := WF_deleteLink s a hs
  have hfa : ∀ q, Arena.find (InPin.deleteLink s a).ins a = some q → q.m_link = none := by
    intro q hq
    rw [InPin.deleteLink_find_ins] at hq
    simp only [if_true] at hq
    cases hp : Arena.find s.ins a with
    | none => rw [hp] at hq; exact Option.noConfusion hq
    | some p =>
      rw [hp] at hq
      simp only [Option.map_some', Option.some.injEq] at hq
      rw [← hq]
  refine { holder := ?_, held := ?_, fresh := h1.fresh, registered := h1.registered }
  · intro l lk hl
    obtain ⟨q, hq, hql⟩ := h1.holder l lk hl
    have hne : ¬ lk.right = a := by
      intro h
      rw [h] at hq
      rw [hfa q hq] at hql
      exact Option.noConfusion hql
    exact ⟨q, by simp only [InPin.dtor, Arena.find_remove, hne, if_false]; exact hq, hql⟩
  · intro i q l hi hql
    simp only [InPin.dtor, Arena.find_remove] at hi
    by_cases hia : i = a
    · simp [hia] at hi
    · simp only [hia, if_false] at hi
      exact h1.held i q l hi hql

theorem declare_inv [Inhabited V] (this : Nat) (n : BaseNode) (s : Flow V) (d : Decl V)
    (hs : WF s) :
    WF (BaseNode.declare this (n, s) d).2 ∧
      (BaseNode.declare this (n, s) d).2.links = s.links ∧
      (∀ a p, Arena.find s.ins a = some p →
        Arena.find (BaseNode.declare this (n, s) d).2.ins a = some p) ∧
      (∀ o po, Arena.find s.outs o = some po →
        Arena.find (BaseNode.declare this (n, s) d).2.outs o = some po) ∧
      (∀ a p, Arena.find s.ins a = some p → d.showsIn p.m_uid = false →
        quiet n.m_dynamicIns a → quiet (BaseNode.declare this (n, s) d).1.m_dynamicIns a) ∧
      (∀ o po, Arena.find s.outs o = some po → d.showsOut po.m_uid = false →
        quiet n.m_dynamicOuts o →
          quiet (BaseNode.declare this (n, s) d).1.m_dynamicOuts o) := by
  cases d with
  | showIN tag uid name defReturn filter =>
    simp only [BaseNode.declare, BaseNode.showIN_uid]
    cases ht : touchFirst (hasUidIn s uid) n.m_dynamicIns with
    | some es =>
      simp only
      refine ⟨hs, trivial, fun _ _ h => h, fun _ _ h => h, ?_, fun _ _ _ _ h => h⟩
      intro a p hp hd hq
      refine quiet_touchFirst _ _ _ a ht ?_ hq
      simp only [hasUidIn, hp]
      simpa [Decl.showsIn, eq_comm] using hd
    | none =>
      simp only
      have hne : ∀ a p, Arena.find s.ins a = some p → ¬ freshPin s = a := by
        intro a p hp h
        rw [← h, freshPin_ins] at hp
        exact Option.noConfusion hp
      refine ⟨WF_add_in s _ _ hs (freshPin_ins s) rfl, trivial, ?_, fun _ _ h => h, ?_,
        fun _ _ _ _ h => h⟩
      · intro a p hp
        simp only [Arena.find_cons, hne a p hp, if_false]
        exact hp
      · intro a p hp _ hq
        exact quiet_append _ a _ 1 (hne a p hp) hq
  | showOUT tag uid name behaviour =>
    simp only [BaseNode.declare, BaseNode.showOUT_uid]
    cases ht : touchFirst (hasUidOut s uid) n.m_dynamicOuts with
    | some es =>
      simp only
      refine ⟨hs, trivial, fun _ _ h => h, fun _ _ h => h, fun _ _ _ _ h => h, ?_⟩
      intro o po hp hd hq
      refine quiet_touchFirst _ _ _ o ht ?_ hq
      simp only [hasUidOut, hp]
      simpa [Decl.showsOut, eq_comm] using hd
    | none =>
      simp only
      have hne : ∀ o po, Arena.find s.outs o = some po → ¬ freshPin s = o := by
        intro o po hp h
        rw [← h, freshPin_outs] at hp
        exact Option.noConfusion hp
      refine ⟨WF_add_out s _ _ hs (freshPin_outs s), trivial, fun _ _ h => h, ?_,
        fun _ _ _ _ h => h, ?_⟩
      · intro o po hp
        simp only [Arena.find_cons, hne o po hp, if_false]
        exact hp
      · intro o po hp _ hq
        exact quiet_append _ o _ 1 (hne o po hp) hq

theorem foldl_declare_inv [Inhabited V] (this : Nat) (decls : List (Decl V)) :
    ∀ (n : BaseNode) (s : Flow V), WF s →
      WF (decls.foldl (BaseNode.declare this) (n, s)).2 ∧
        (decls.foldl (BaseNode.declare this) (n, s)).2.links = s.links ∧
        (∀ a p, Arena.find s.ins a = some p → (∀ d ∈ decls, d.showsIn p.m_uid = false) →
          quiet n.m_dynamicIns a →
            Arena.find (decls.foldl (BaseNode.declare this) (n, s)).2.ins a = some p ∧
            quiet (decls.foldl (BaseNode.declare this) (n, s)).1.m_dynamicIns a) ∧
        (∀ o po, Arena.find s.outs o = some po → (∀ d ∈ decls, d.showsOut po.m_uid = false) →
          quiet n.m_dynamicOuts o →
            Arena.find (decls.foldl (BaseNode.declare this) (n, s)).2.outs o = some po ∧
            quiet (decls.foldl (BaseNode.declare this) (n, s)).1.m_dynamicOuts o) := by
  induction decls with
  | nil =>
    intro n s hs
    exact ⟨hs, rfl, fun _ _ hp _ hq => ⟨hp, hq⟩, fun _ _ hp _ hq => ⟨hp, hq⟩⟩
  | cons d decls ih =>
    intro n s hs
    obtain ⟨h1, h2, h3, h4, h5, h6⟩ := declare_inv this n s d hs
    simp only [List.foldl_cons]
    obtain ⟨k1, k2, k3, k4⟩ :=
      ih (BaseNode.declare this (n, s) d).1 (BaseNode.declare this (n, s) d).2 h1
    refine ⟨k1, k2.trans h2, ?_, ?_⟩
    · intro a p hp hd hq
      exact k3 a p (h3 a p hp) (fun x hx => hd x (List.mem_cons_of_mem _ hx))
        (h5 a p hp (hd d (List.mem_cons_self _ _)) hq)
    · intro o po hp hd hq
      exact k4 o po (h4 o po hp) (fun x hx => hd x (List.mem_cons_of_mem _ hx))
        (h6 o po hp (hd d (List.mem_cons_self _ _)) hq)

theorem InPin.dtor_links_sub (s : Flow V) (a l : Nat) (lk : Link)
    (h : Arena.find (InPin.dtor s a).links l = some lk) : Arena.find s.links l = some lk :=
  InPin.deleteLink_links_sub s a l lk h

theorem InPin.dtor_ins_none (s : Flow V) (a b : Nat)
    (h : b = a ∨ Arena.find s.ins b = none) : Arena.find (InPin.dtor s a).ins b = none := by
  simp only [InPin.dtor, Arena.find_remove]
  by_cases hb : b = a
  · simp only [hb, if_true]
  · simp only [hb, if_false]
    rcases h with h | h
    · exact absurd h hb
    · rw [InPin.deleteLink_find_ins]
      simp only [hb, if_false]
      exact h

theorem sweepIns_inv (ds : List Nat) :
    ∀ (st : Flow V), WF st →
      WF (ds.foldl InPin.dtor st) ∧
        (∀ l lk, Arena.find (ds.foldl InPin.dtor st).links l = some lk →
          Arena.find st.links l = some lk) ∧
        (∀ a, a ∈ ds ∨ Arena.find st.ins a = none →
          Arena.find (ds.foldl InPin.dtor st).ins a = none) := by
  induction ds with
  | nil =>
    intro st hs
    refine ⟨hs, fun _ _ h => h, ?_⟩
    intro a h
    rcases h with h | h
    · exact absurd h (List.not_mem_nil _)
    · exact h
  | cons d ds ih =>
    intro st hs
    obtain ⟨k1, k2, k3⟩ := ih (InPin.dtor st d) (WF_InPin_dtor st d hs)
    simp only [List.foldl_cons]
    refine ⟨k1, fun l lk h => InPin.dtor_links_sub st d l lk (k2 l lk h), ?_⟩
    intro a h
    apply k3
    rcases h with h | h
    · rcases List.mem_cons.mp h with h | h
      · exact Or.inr (InPin.dtor_ins_none st d a (Or.inl h))
      · exact Or.inl h
    · exact Or.inr (InPin.dtor_ins_none st d a (Or.inr h))

theorem OutPin.dtorLoop_outs_none (b : Nat) (ls : List Nat) :
    ∀ (st : Flow V), Arena.find st.outs b = none →
      Arena.find (ls.foldl OutPin.dtorStep st).outs b = none := by
  induction ls with
  | nil => intro st h; exact h
  | cons l ls ih =>
    intro st h
    simp only [List.foldl_cons]
    apply ih
    unfold OutPin.dtorStep
    cases Arena.find st.links l with
    | none => exact h
    | some lk =>
      simp only
      obtain ⟨keep, hkeep⟩ := InPin.deleteLink_find_outs st lk.right b
      rw [hkeep, h]
      rfl

theorem OutPin.dtor_facts (s : Flow V) (o : Nat) (hs : WF s) :
    (∀ l lk, Arena.find (OutPin.dtor s o).links l = some lk → Arena.find s.links l = some lk) ∧
      (∀ a, Arena.find s.ins a = none → Arena.find (OutPin.dtor s o).ins a = none) ∧
      (∀ b, b = o ∨ Arena.find s.outs b = none →
        Arena.find (OutPin.dtor s o).outs b = none) := by
  cases ho : Arena.find s.outs o with
  | none =>
    have : OutPin.dtor s o = s := by unfold OutPin.dtor; rw [ho]
    rw [this]
    refine ⟨fun _ _ h => h, fun _ h => h, ?_⟩
    intro b h
    rcases h with h | h
    · rw [h]; exact ho
    · exact h
  | some po =>
    have hs0 : Owned ({ s with outs := Arena.modify s.outs o (fun q => { q with m_links := [] }) } :
        Flow V) := ⟨hs.holder, hs.held⟩
    obtain ⟨-, k2, -, k4⟩ := OutPin.dtorLoop_inv po.m_links _ hs0
    rw [OutPin.dtor_eq s o po ho]
    refine ⟨k2, ?_, ?_⟩
    · intro a ha
      have := k4 a
      simp only [ha, Option.isSome_none] at this
      cases hx : Arena.find (List.foldl OutPin.dtorStep
          ({ s with outs := Arena.modify s.outs o (fun q => { q with m_links := [] }) } : Flow V)
          po.m_links).ins a with
      | none => rfl
      | some q => rw [hx] at this; exact Bool.noConfusion this
    · intro b h
      simp only [Arena.find_remove]
      by_cases hb : b = o
      · simp only [hb, if_true]
      · simp only [hb, if_false]
        rcases h with h | h
        · exact absurd h hb
        · apply OutPin.dtorLoop_outs_none
          simp only [Arena.find_modify, hb, if_false]
          exact h

theorem sweepOuts_inv (ds : List Nat) :
    ∀ (st : Flow V), WF st →
      WF (ds.foldl OutPin.dtor st) ∧
        (∀ l lk, Arena.find (ds.foldl OutPin.dtor st).links l = some lk →
          Arena.find st.links l = some lk) ∧
        (∀ a, Arena.find st.ins a = none →
          Arena.find (ds.foldl OutPin.dtor st).ins a = none) ∧
        (∀ o, o ∈ ds ∨ Arena.find st.outs o = none →
          Arena.find (ds.foldl OutPin.dtor st).outs o = none) := by
  induction ds with
  | nil =>
    intro st hs
    refine ⟨hs, fun _ _ h => h, fun _ h => h, ?_⟩
    intro o h
    rcases h with h | h
    · exact absurd h (List.not_mem_nil _)
    · exact h
  | cons d ds ih =>
    intro st hs
    obtain ⟨f1, f2, f3⟩ := OutPin.dtor_facts st d hs
    obtain ⟨k1, k2, k3, k4⟩ := ih (OutPin.dtor st d) (WF_dtor st d hs)
    simp only [List.foldl_cons]
    refine ⟨k1, fun l lk h => f1 l lk (k2 l lk h), fun a h => k3 a (f2 a h), ?_⟩
    intro o h
    apply k4
    rcases h with h | h
    · rcases List.mem_cons.mp h with h | h
      · exact Or.inr (f3 o (Or.inl h))
      · exact Or.inl h
    · exact Or.inr (f3 o (Or.inr h))

theorem quiet_dead (es : List (Int × Nat)) (a : Nat) (h : quiet es a) :
    a ∈ (es.filter (fun e => decide (e.1 = 0))).map Prod.snd ∧
      a ∉ (es.filter (fun e => decide (e.1 ≠ 0))).map Prod.snd := by
  obtain ⟨h1, h2⟩ := h
  obtain ⟨e, he, hea⟩ := List.mem_map.mp h1
  constructor
  · exact List.mem_map.mpr ⟨e, List.mem_filter.mpr ⟨he, by simpa using h2 e he hea⟩, hea⟩
  · intro hc
    obtain ⟨x, hx, hxa⟩ := List.mem_map.mp hc
    obtain ⟨hx1, hx2⟩ := List.mem_filter.mp hx
    have := h2 x hx1 hxa
    simp [this] at hx2

theorem sweep_spec (n : BaseNode) (s : Flow V) (hs : WF s) :
    WF (BaseNode.sweep n s).2 ∧
      (∀ l lk, Arena.find (BaseNode.sweep n s).2.links l = some lk →
        Arena.find s.links l = some lk) ∧
      (∀ a, quiet n.m_dynamicIns a →
        a ∉ (BaseNode.sweep n s).1.m_dynamicIns.map Prod.snd ∧
          Arena.find (BaseNode.sweep n s).2.ins a = none) ∧
      (∀ o, quiet n.m_dynamicOuts o →
        o ∉ (BaseNode.sweep n s).1.m_dynamicOuts.map Prod.snd ∧
          Arena.find (BaseNode.sweep n s).2.outs o = none) := by
  obtain ⟨i1, i2, i3⟩ :=
    sweepIns_inv ((n.m_dynamicIns.filter (fun e : Int × Nat => decide (e.1 = 0))).map Prod.snd)
      s hs
  obtain ⟨o1, o2, o3, o4⟩ :=
    sweepOuts_inv
      ((n.m_dynamicOuts.filter (fun e : Int × Nat => decide (e.1 = 0))).map Prod.snd) _ i1
  refine ⟨o1, fun l lk h => i2 l lk (o2 l lk h), ?_, ?_⟩
  · intro a hq
    obtain ⟨d1, d2⟩ := quiet_dead _ a hq
    exact ⟨d2, o3 a (i3 a (Or.inl d1))⟩
  · intro o hq
    obtain ⟨d1, d2⟩ := quiet_dead _ o hq
    exact ⟨d2, o4 o (Or.inl d1)⟩

theorem quiet_reset (es : List (Int × Nat)) (a : Nat) (h : a ∈ es.map Prod.snd) :
    quiet (es.map (fun e => ((0 : Int), e.2))) a := by
  constructor
  · simpa [List.map_map, Function.comp_def] using h
  · intro e he _
    obtain ⟨x, -, hx⟩ := List.mem_map.mp he
    rw [← hx]

/-! ## Dynamic pins: a pin that is declared again stays -/

theorem touchFirst_marker (q : Nat → Bool) (es : List (Int × Nat)) :
    ∀ es2, touchFirst q es = some es2 → ∀ e ∈ es2, e ∈ es ∨ e.1 = 1 := by
  induction es with
  | nil => intro es2 h; exact Option.noConfusion h
  | cons e es ih =>
    intro es2 h
    rw [touchFirst] at h
    by_cases hq : q e.2 = true
    · simp only [hq, if_true, Option.some.injEq] at h
      subst h
      intro x hx
      rcases List.mem_cons.mp hx with hx | hx
      · right; rw [hx]
      · left; exact List.mem_cons_of_mem _ hx
    · have hqf : q e.2 = false := by
        cases hx : q e.2 with
        | true => exact absurd hx hq
        | false => rfl
      simp only [hqf, Bool.false_eq_true, if_false] at h
      cases ht : touchFirst q es with
      | none => rw [ht] at h; exact Option.noConfusion h
      | some es3 =>
        rw [ht] at h
        simp only [Option.some.injEq] at h
        subst h
        intro x hx
        rcases List.mem_cons.mp hx with hx | hx
        · left; rw [hx]; exact List.mem_cons_self _ _
        · rcases ih es3 ht x hx with h3 | h3
          · left; exact List.mem_cons_of_mem _ h3
          · right; exact h3

theorem touched_touchFirst (q : Nat → Bool) (es es2 : List (Int × Nat)) (a : Nat)
    (ht : touchFirst q es = some es2) (h : touched es a) : touched es2 a := by
  obtain ⟨h1, -⟩ := touchFirst_spec q es es2 ht
  refine ⟨by rw [h1]; exact h.1, ?_⟩
  intro e he hea
  rcases touchFirst_marker q es es2 ht e he with h3 | h3
  · exact h.2 e h3 hea
  · exact h3

theorem touched_append (es : List (Int × Nat)) (a b : Nat) (h : touched es a) :
    touched (es ++ [(1, b)]) a := by
  refine ⟨by simp only [List.map_append, List.mem_append]; exact Or.inl h.1, ?_⟩
  intro e he hea
  rcases List.mem_append.mp he with h3 | h3
  · exact h.2 e h3 hea
  · simp only [List.mem_singleton] at h3
    rw [h3]

theorem touchFirst_hits (q : Nat → Bool) (a : Nat) (hqa : q a = true) (es : List (Int × Nat)) :
    (∀ e ∈ es, q e.2 = true → e.2 = a) → a ∈ es.map Prod.snd → (es.map Prod.snd).Nodup →
      ∃ es2, touchFirst q es = some es2 ∧ touched es2 a := by
  induction es with
  | nil => intro _ h _; exact absurd h (List.not_mem_nil _)
  | cons e es ih =>
    intro hu hmem hnd
    rw [List.map_cons, List.nodup_cons] at hnd
    rw [touchFirst]
    by_cases hq : q e.2 = true
    · have hea : e.2 = a := hu e (List.mem_cons_self _ _) hq
      refine ⟨(1, e.2) :: es, by simp only [hq, if_true], ?_, ?_⟩
      · simp only [List.map_cons, hea]
        exact List.mem_cons_self _ _
      · intro x hx hxa
        rcases List.mem_cons.mp hx with hx | hx
        · rw [hx]
        · exfalso
          apply hnd.1
          rw [hea, ← hxa]
          exact List.mem_map.mpr ⟨x, hx, rfl⟩
    · have hqf : q e.2 = false := by
        cases hx : q e.2 with
        | true => exact absurd hx hq
        | false => rfl
      have hne : e.2 ≠ a := by
        intro h
        rw [h, hqa] at hqf
        exact Bool.noConfusion hqf
      have hmem2 : a ∈ es.map Prod.snd := by
        rw [List.map_cons] at hmem
        rcases List.mem_cons.mp hmem with h | h
        · exact absurd h.symm hne
        · exact h
      obtain ⟨es3, h3, h4⟩ :=
        ih (fun x hx => hu x (List.mem_cons_of_mem _ hx)) hmem2 hnd.2
      refine ⟨e :: es3, by simp only [hqf, Bool.false_eq_true, if_false, h3], ?_, ?_⟩
      · simp only [List.map_cons]
        exact List.mem_cons_of_mem _ h4.1
      · intro x hx hxa
        rcases List.mem_cons.mp hx with hx | hx
        · rw [hx] at hxa
          exact absurd hxa hne
        · exact h4.2 x hx hxa

theorem touched_alive (es : List (Int × Nat)) (a : Nat) (h : touched es a) :
    a ∉ (es.filter (fun e => decide (e.1 = 0))).map Prod.snd ∧
      a ∈ (es.filter (fun e => decide (e.1 ≠ 0))).map Prod.snd := by
  obtain ⟨h1, h2⟩ := h
  obtain ⟨e, he, hea⟩ := List.mem_map.mp h1
  constructor
  · intro hc
    obtain ⟨x, hx, hxa⟩ := List.mem_map.mp hc
    obtain ⟨hx1, hx2⟩ := List.mem_filter.mp hx
    have := h2 x hx1 hxa
    simp [this] at hx2
  · exact List.mem_map.mpr ⟨e, List.mem_filter.mpr ⟨he, by simp [h2 e he hea]⟩, hea⟩

theorem declare_touched [Inhabited V] (this : Nat) (n : BaseNode) (s : Flow V) (d : Decl V) :
    (∀ a, touched n.m_dynamicIns a →
        touched (BaseNode.declare this (n, s) d).1.m_dynamicIns a) ∧
      (∀ o, touched n.m_dynamicOuts o →
        touched (BaseNode.declare this (n, s) d).1.m_dynamicOuts o) := by
  cases d with
  | showIN tag uid name defReturn filter =>
    simp only [BaseNode.declare, BaseNode.showIN_uid]
    cases ht : touchFirst (hasUidIn s uid) n.m_dynamicIns with
    | some es => exact ⟨fun a h => touched_touchFirst _ _ _ a ht h, fun _ h => h⟩
    | none => exact ⟨fun a h => touched_append _ a _ h, fun _ h => h⟩
  | showOUT tag uid name behaviour =>
    simp only [BaseNode.declare, BaseNode.showOUT_uid]
    cases ht : touchFirst (hasUidOut s uid) n.m_dynamicOuts with
    | some es => exact ⟨fun _ h => h, fun o h => touched_touchFirst _ _ _ o ht h⟩
    | none => exact ⟨fun _ h => h, fun o h => touched_append _ o _ h⟩

theorem foldl_declare_touched [Inhabited V] (this : Nat) (decls : List (Decl V)) :
    ∀ (n : BaseNode) (s : Flow V),
      (∀ a, touched n.m_dynamicIns a →
        touched (decls.foldl (BaseNode.declare this) (n, s)).1.m_dynamicIns a) ∧
      (∀ o, touched n.m_dynamicOuts o →
        touched (decls.foldl (BaseNode.declare this) (n, s)).1.m_dynamicOuts o) := by
  induction decls with
  | nil => intro n s; exact ⟨fun _ h => h, fun _ h => h⟩
  | cons d decls ih =>
    intro n s
    obtain ⟨h1, h2⟩ := declare_touched this n s d
    obtain ⟨k1, k2⟩ := ih (BaseNode.declare this (n, s) d).1 (BaseNode.declare this (n, s) d).2
    simp only [List.foldl_cons]
    exact ⟨fun a h => k1 a (h1 a h), fun o h => k2 o (h2 o h)⟩

theorem foldl_declare_keeps [Inhabited V] (this : Nat) (decls : List (Decl V)) :
    ∀ (n : BaseNode) (s : Flow V), WF s →
      (∀ a p, Arena.find s.ins a = some p →
        Arena.find (decls.foldl (BaseNode.declare this) (n, s)).2.ins a = some p) ∧
      (∀ o po, Arena.find s.outs o = some po →
        Arena.find (decls.foldl (BaseNode.declare this) (n, s)).2.outs o = some po) := by
  induction decls with
  | nil => intro n s _; exact ⟨fun _ _ h => h, fun _ _ h => h⟩
  | cons d decls ih =>
    intro n s hs
    obtain ⟨h1, -, h3, h4, -, -⟩ := declare_inv this n s d hs
    obtain ⟨k1, k2⟩ :=
      ih (BaseNode.declare this (n, s) d).1 (BaseNode.declare this (n, s) d).2 h1
    simp only [List.foldl_cons]
    exact ⟨fun a p h => k1 a p (h3 a p h), fun o po h => k2 o po (h4 o po h)⟩

theorem declare_readyIn [Inhabited V] (this : Nat) (n : BaseNode) (s : Flow V) (d : Decl V)
    (a u : Nat) (h : readyIn n s a u) :
    (d.showsIn u = true → touched (BaseNode.declare this (n, s) d).1.m_dynamicIns a) ∧
      (d.showsIn u = false →
        readyIn (BaseNode.declare this (n, s) d).1 (BaseNode.declare this (n, s) d).2 a u) := by
  obtain ⟨hq, hua, huniq, hnd, hex⟩ := h
  cases d with
  | showIN tag uid name defReturn filter =>
    simp only [BaseNode.declare, BaseNode.showIN_uid, Decl.showsIn, decide_eq_true_eq,
      decide_eq_false_iff_not]
    constructor
    · intro huid
      subst huid
      obtain ⟨es2, h1, h2⟩ := touchFirst_hits (hasUidIn s uid) a hua n.m_dynamicIns huniq hq.1 hnd
      simp only [h1]
      exact h2
    · intro huid
      cases ht : touchFirst (hasUidIn s uid) n.m_dynamicIns with
      | some es =>
        simp only
        obtain ⟨t1, t2⟩ := touchFirst_spec _ _ _ ht
        have hsub : ∀ e ∈ es, ∃ e0 ∈ n.m_dynamicIns, e0.2 = e.2 := by
          intro e he
          have : e.2 ∈ es.map Prod.snd := List.mem_map.mpr ⟨e, he, rfl⟩
          rw [t1] at this
          obtain ⟨e0, he0, h0⟩ := List.mem_map.mp this
          exact ⟨e0, he0, h0⟩
        refine ⟨quiet_touchFirst _ _ _ a ht ?_ hq, hua, ?_, by rw [t1]; exact hnd, ?_⟩
        · unfold hasUidIn at hua ⊢
          cases hp : Arena.find s.ins a with
          | none => rfl
          | some p =>
            rw [hp] at hua
            simp only [decide_eq_true_eq] at hua
            simp only [decide_eq_false_iff_not]
            intro hc
            exact huid (hc.symm.trans hua)
        · intro e he hu
          obtain ⟨e0, he0, h0⟩ := hsub e he
          rw [← h0] at hu ⊢
          exact huniq e0 he0 hu
        · intro e he
          obtain ⟨e0, he0, h0⟩ := hsub e he
          rw [← h0]
          exact hex e0 he0
      | none =>
        simp only
        have hfa : ∀ b, (Arena.find s.ins b).isSome = true → ¬ freshPin s = b := by
          intro b hb h
          rw [← h, freshPin_ins] at hb
          exact Bool.noConfusion hb
        have hua2 : (Arena.find s.ins a).isSome = true := by
          unfold hasUidIn at hua
          cases hp : Arena.find s.ins a with
          | none => rw [hp] at hua; exact Bool.noConfusion hua
          | some p => rfl
        have hkeep : ∀ b, ¬ freshPin s = b →
            hasUidIn ({ s with ins := (freshPin s,
              InPin.new tag uid name defReturn filter this (n.m_inf.getD 0)) :: s.ins } : Flow V)
              u b = hasUidIn s u b := by
          intro b hb
          simp only [hasUidIn, Arena.find_cons, hb, if_false]
        refine ⟨quiet_append _ a _ 1 (hfa a hua2) hq, ?_, ?_, ?_, ?_⟩
        · rw [hkeep a (hfa a hua2)]; exact hua
        · intro e he hu
          rcases List.mem_append.mp he with h1 | h1
          · rw [hkeep e.2 (hfa e.2 (hex e h1))] at hu
            exact huniq e h1 hu
          · simp only [List.mem_singleton] at h1
            subst h1
            simp only [hasUidIn, Arena.find_cons, if_true, InPin.new, decide_eq_true_eq] at hu
            exact absurd hu huid
        · rw [List.map_append, List.nodup_append]
          refine ⟨hnd, by simp, ?_⟩
          intro x hx hx2
          simp only [List.map_cons, List.map_nil, List.mem_singleton] at hx2
          obtain ⟨e, he, hea⟩ := List.mem_map.mp hx
          exact hfa e.2 (hex e he) (by rw [hea, hx2])
        · intro e he
          rcases List.mem_append.mp he with h1 | h1
          · simp only [Arena.find_cons, hfa e.2 (hex e h1), if_false]
            exact hex e h1
          · simp only [List.mem_singleton] at h1
            subst h1
            simp only [Arena.find_cons, if_true, Option.isSome_some]
  | showOUT tag uid name behaviour =>
    simp only [BaseNode.declare, BaseNode.showOUT_uid, Decl.showsOut, Decl.showsIn]
    constructor
    · intro hc; exact Bool.noConfusion hc
    · intro _
      cases ht : touchFirst (hasUidOut s uid) n.m_dynamicOuts with
      | some es => exact ⟨hq, hua, huniq, hnd, hex⟩
      | none => exact ⟨hq, hua, huniq, hnd, hex⟩

theorem declare_readyOut [Inhabited V] (this : Nat) (n : BaseNode) (s : Flow V) (d : Decl V)
    (o u : Nat) (h : readyOut n s o u) :
    (d.showsOut u = true → touched (BaseNode.declare this (n, s) d).1.m_dynamicOuts o) ∧
      (d.showsOut u = false →
        readyOut (BaseNode.declare this (n, s) d).1 (BaseNode.declare this (n, s) d).2 o u) := by
  obtain ⟨hq, hua, huniq, hnd, hex⟩ := h
  cases d with
  | showOUT tag uid name behaviour =>
    simp only [BaseNode.declare, BaseNode.showOUT_uid, Decl.showsOut, decide_eq_true_eq,
      decide_eq_false_iff_not]
    constructor
    · intro huid
      subst huid
      obtain ⟨es2, h1, h2⟩ :=
        touchFirst_hits (hasUidOut s uid) o hua n.m_dynamicOuts huniq hq.1 hnd
      simp only [h1]
      exact h2
    · intro huid
      cases ht : touchFirst (hasUidOut s uid) n.m_dynamicOuts with
      | some es =>
        simp only
        obtain ⟨t1, t2⟩ := touchFirst_spec _ _ _ ht
        have hsub : ∀ e ∈ es, ∃ e0 ∈ n.m_dynamicOuts, e0.2 = e.2 := by
          intro e he
          have : e.2 ∈ es.map Prod.snd := List.mem_map.mpr ⟨e, he, rfl⟩
          rw [t1] at this
          obtain ⟨e0, he0, h0⟩ := List.mem_map.mp this
          exact ⟨e0, he0, h0⟩
        refine ⟨quiet_touchFirst _ _ _ o ht ?_ hq, hua, ?_, by rw [t1]; exact hnd, ?_⟩
        · unfold hasUidOut at hua ⊢
          cases hp : Arena.find s.outs o with
          | none => rfl
          | some p =>
            rw [hp] at hua
            simp only [decide_eq_true_eq] at hua
            simp only [decide_eq_false_iff_not]
            intro hc
            exact huid (hc.symm.trans hua)
        · intro e he hu
          obtain ⟨e0, he0, h0⟩ := hsub e he
          rw [← h0] at hu ⊢
          exact huniq e0 he0 hu
        · intro e he
          obtain ⟨e0, he0, h0⟩ := hsub e he
          rw [← h0]
          exact hex e0 he0
      | none =>
        simp only
        have hfa : ∀ b, (Arena.find s.outs b).isSome = true → ¬ freshPin s = b := by
          intro b hb h
          rw [← h, freshPin_outs] at hb
          exact Bool.noConfusion hb
        have hua2 : (Arena.find s.outs o).isSome = true := by
          unfold hasUidOut at hua
          cases hp : Arena.find s.outs o with
          | none => rw [hp] at hua; exact Bool.noConfusion hua
          | some p => rfl
        have hkeep : ∀ b, ¬ freshPin s = b →
            hasUidOut ({ s with outs := (freshPin s,
              (OutPin.new tag uid name this (n.m_inf.getD 0)).behaviour behaviour) :: s.outs } :
                Flow V) u b = hasUidOut s u b := by
          intro b hb
          simp only [hasUidOut, Arena.find_cons, hb, if_false]
        refine ⟨quiet_append _ o _ 1 (hfa o hua2) hq, ?_, ?_, ?_, ?_⟩
        · rw [hkeep o (hfa o hua2)]; exact hua
        · intro e he hu
          rcases List.mem_append.mp he with h1 | h1
          · rw [hkeep e.2 (hfa e.2 (hex e h1))] at hu
            exact huniq e h1 hu
          · simp only [List.mem_singleton] at h1
            subst h1
            simp only [hasUidOut, Arena.find_cons, if_true, OutPin.new, OutPin.behaviour,
              decide_eq_true_eq] at hu
            exact absurd hu huid
        · rw [List.map_append, List.nodup_append]
          refine ⟨hnd, by simp, ?_⟩
          intro x hx hx2
          simp only [List.map_cons, List.map_nil, List.mem_singleton] at hx2
          obtain ⟨e, he, hea⟩ := List.mem_map.mp hx
          exact hfa e.2 (hex e he) (by rw [hea, hx2])
        · intro e he
          rcases List.mem_append.mp he with h1 | h1
          · simp only [Arena.find_cons, hfa e.2 (hex e h1), if_false]
            exact hex e h1
          · simp only [List.mem_singleton] at h1
            subst h1
            simp only [Arena.find_cons, if_true, Option.isSome_some]
  | showIN tag uid name defReturn filter =>
    simp only [BaseNode.declare, BaseNode.showIN_uid, Decl.showsOut, Decl.showsIn]
    constructor
    · intro hc; exact Bool.noConfusion hc
    · intro _
      cases ht : touchFirst (hasUidIn s uid) n.m_dynamicIns with
      | some es => exact ⟨hq, hua, huniq, hnd, hex⟩
      | none => exact ⟨hq, hua, huniq, hnd, hex⟩

theorem foldl_declare_ready [Inhabited V] (this : Nat) (decls : List (Decl V)) :
    ∀ (n : BaseNode) (s : Flow V),
      (∀ a u, readyIn n s a u → (∃ d ∈ decls, d.showsIn u = true) →
        touched (decls.foldl (BaseNode.declare this) (n, s)).1.m_dynamicIns a) ∧
      (∀ o u, readyOut n s o u → (∃ d ∈ decls, d.showsOut u = true) →
        touched (decls.foldl (BaseNode.declare this) (n, s)).1.m_dynamicOuts o) := by
  induction decls with
  | nil =>
    intro n s
    exact ⟨fun _ _ _ ⟨d, hd, _⟩ => absurd hd (List.not_mem_nil _),
      fun _ _ _ ⟨d, hd, _⟩ => absurd hd (List.not_mem_nil _)⟩
  | cons d decls ih =>
    intro n s
    obtain ⟨k1, k2⟩ := ih (BaseNode.declare this (n, s) d).1 (BaseNode.declare this (n, s) d).2
    obtain ⟨p1, p2⟩ := foldl_declare_touched this decls (BaseNode.declare this (n, s) d).1
      (BaseNode.declare this (n, s) d).2
    simp only [List.foldl_cons]
    constructor
    · intro a u hr ⟨x, hx, hxu⟩
      obtain ⟨r1, r2⟩ := declare_readyIn this n s d a u hr
      by_cases hd : d.showsIn u = true
      · exact p1 a (r1 hd)
      · have hdf : d.showsIn u = false := by
          cases hc : d.showsIn u with
          | true => exact absurd hc hd
          | false => rfl
        rcases List.mem_cons.mp hx with hx | hx
        · rw [hx, hdf] at hxu; exact Bool.noConfusion hxu
        · exact k1 a u (r2 hdf) ⟨x, hx, hxu⟩
    · intro o u hr ⟨x, hx, hxu⟩
      obtain ⟨r1, r2⟩ := declare_readyOut this n s d o u hr
      by_cases hd : d.showsOut u = true
      · exact p2 o (r1 hd)
      · have hdf : d.showsOut u = false := by
          cases hc : d.showsOut u with
          | true => exact absurd hc hd
          | false => rfl
        rcases List.mem_cons.mp hx with hx | hx
        · rw [hx, hdf] at hxu; exact Bool.noConfusion hxu
        · exact k2 o u (r2 hdf) ⟨x, hx, hxu⟩

theorem InPin.deleteLink_ins_uid (s : Flow V) (i j : Nat) :
    (Arena.find (InPin.deleteLink s i).ins j).map (fun p => p.m_uid) =
      (Arena.find s.ins j).map (fun p => p.m_uid) := by
  rw [InPin.deleteLink_find_ins]
  by_cases hj : j = i
  · subst hj
    simp only [if_true]
    cases Arena.find s.ins j with
    | none => rfl
    | some p => rfl
  · simp only [hj, if_false]

theorem InPin.deleteLink_outs_uid (s : Flow V) (i o : Nat) :
    (Arena.find (InPin.deleteLink s i).outs o).map (fun p => p.m_uid) =
      (Arena.find s.outs o).map (fun p => p.m_uid) := by
  obtain ⟨keep, hkeep⟩ := InPin.deleteLink_find_outs s i o
  rw [hkeep]
  cases Arena.find s.outs o with
  | none => rfl
  | some p => rfl

theorem OutPin.dtorLoop_uid (ls : List Nat) :
    ∀ (st : Flow V) (a : Nat),
      (Arena.find (ls.foldl OutPin.dtorStep st).ins a).map (fun p => p.m_uid) =
          (Arena.find st.ins a).map (fun p => p.m_uid) ∧
        (Arena.find (ls.foldl OutPin.dtorStep st).outs a).map (fun p => p.m_uid) =
          (Arena.find st.outs a).map (fun p => p.m_uid) := by
  induction ls with
  | nil => intro st a; exact ⟨rfl, rfl⟩
  | cons l ls ih =>
    intro st a
    simp only [List.foldl_cons]
    obtain ⟨h1, h2⟩ := ih (OutPin.dtorStep st l) a
    have hstep : (Arena.find (OutPin.dtorStep st l).ins a).map (fun p => p.m_uid) =
          (Arena.find st.ins a).map (fun p => p.m_uid) ∧
        (Arena.find (OutPin.dtorStep st l).outs a).map (fun p => p.m_uid) =
          (Arena.find st.outs a).map (fun p => p.m_uid) := by
      unfold OutPin.dtorStep
      cases Arena.find st.links l with
      | none => exact ⟨rfl, rfl⟩
      | some lk => exact ⟨InPin.deleteLink_ins_uid st lk.right a,
          InPin.deleteLink_outs_uid st lk.right a⟩
    exact ⟨h1.trans hstep.1, h2.trans hstep.2⟩

theorem OutPin.dtor_uid (s : Flow V) (d a : Nat) :
    (Arena.find (OutPin.dtor s d).ins a).map (fun p => p.m_uid) =
        (Arena.find s.ins a).map (fun p => p.m_uid) ∧
      (a ≠ d → (Arena.find (OutPin.dtor s d).outs a).map (fun p => p.m_uid) =
        (Arena.find s.outs a).map (fun p => p.m_uid)) := by
  cases hd : Arena.find s.outs d with
  | none =>
    have : OutPin.dtor s d = s := by unfold OutPin.dtor; rw [hd]
    rw [this]
    exact ⟨rfl, fun _ => rfl⟩
  | some po =>
    rw [OutPin.dtor_eq s d po hd]
    obtain ⟨h1, h2⟩ := OutPin.dtorLoop_uid po.m_links
      ({ s with outs := Arena.modify s.outs d (fun q => { q with m_links := [] }) } : Flow V) a
    refine ⟨h1, ?_⟩
    intro had
    simp only [Arena.find_remove, had, if_false]
    rw [h2]
    simp only [Arena.find_modify, had, if_false]

theorem sweepIns_keep (a : Nat) (ds : List Nat) :
    ∀ (st : Flow V),
      (a ∉ ds → Arena.find (ds.foldl InPin.dtor st).ins a = Arena.find st.ins a) ∧
        (Arena.find (ds.foldl InPin.dtor st).outs a).map (fun p => p.m_uid) =
          (Arena.find st.outs a).map (fun p => p.m_uid) := by
  induction ds with
  | nil => intro st; exact ⟨fun _ => rfl, rfl⟩
  | cons d ds ih =>
    intro st
    obtain ⟨k1, k2⟩ := ih (InPin.dtor st d)
    simp only [List.foldl_cons]
    constructor
    · intro ha
      have had : a ≠ d := fun h => ha (h ▸ List.mem_cons_self _ _)
      rw [k1 (fun h => ha (List.mem_cons_of_mem _ h))]
      simp only [InPin.dtor, Arena.find_remove, had, if_false]
      rw [InPin.deleteLink_find_ins]
      simp only [had, if_false]
    · rw [k2]
      exact InPin.deleteLink_outs_uid st d a

theorem sweepOuts_keep (a : Nat) (ds : List Nat) :
    ∀ (st : Flow V),
      (Arena.find (ds.foldl OutPin.dtor st).ins a).map (fun p => p.m_uid) =
          (Arena.find st.ins a).map (fun p => p.m_uid) ∧
        (a ∉ ds → (Arena.find (ds.foldl OutPin.dtor st).outs a).map (fun p => p.m_uid) =
          (Arena.find st.outs a).map (fun p => p.m_uid)) := by
  induction ds with
  | nil => intro st; exact ⟨rfl, fun _ => rfl⟩
  | cons d ds ih =>
    intro st
    obtain ⟨k1, k2⟩ := ih (OutPin.dtor st d)
    obtain ⟨f1, f2⟩ := OutPin.dtor_uid st d a
    simp only [List.foldl_cons]
    constructor
    · exact k1.trans f1
    · intro ha
      have had : a ≠ d := fun h => ha (h ▸ List.mem_cons_self _ _)
      exact (k2 (fun h => ha (List.mem_cons_of_mem _ h))).trans (f2 had)

theorem sweep_keeps (n : BaseNode) (s : Flow V) :
    (∀ a, touched n.m_dynamicIns a →
        a ∈ (BaseNode.sweep n s).1.m_dynamicIns.map Prod.snd ∧
          (Arena.find (BaseNode.sweep n s).2.ins a).map (fun p => p.m_uid) =
            (Arena.find s.ins a).map (fun p => p.m_uid)) ∧
      (∀ o, touched n.m_dynamicOuts o →
        o ∈ (BaseNode.sweep n s).1.m_dynamicOuts.map Prod.snd ∧
          (Arena.find (BaseNode.sweep n s).2.outs o).map (fun p => p.m_uid) =
            (Arena.find s.outs o).map (fun p => p.m_uid)) := by
  constructor
  · intro a ht
    obtain ⟨d1, d2⟩ := touched_alive _ a ht
    refine ⟨d2, ?_⟩
    obtain ⟨o1, -⟩ := sweepOuts_keep a
      ((n.m_dynamicOuts.filter (fun e : Int × Nat => decide (e.1 = 0))).map Prod.snd)
      (((n.m_dynamicIns.filter (fun e : Int × Nat => decide (e.1 = 0))).map Prod.snd).foldl
        InPin.dtor s)
    obtain ⟨i1, -⟩ := sweepIns_keep a
      ((n.m_dynamicIns.filter (fun e : Int × Nat => decide (e.1 = 0))).map Prod.snd) s
    exact o1.trans (congrArg _ (i1 d1))
  · intro o ht
    obtain ⟨d1, d2⟩ := touched_alive _ o ht
    refine ⟨d2, ?_⟩
    obtain ⟨-, o2⟩ := sweepOuts_keep o
      ((n.m_dynamicOuts.filter (fun e : Int × Nat => decide (e.1 = 0))).map Prod.snd)
      (((n.m_dynamicIns.filter (fun e : Int × Nat => decide (e.1 = 0))).map Prod.snd).foldl
        InPin.dtor s)
    obtain ⟨-, i2⟩ := sweepIns_keep o
      ((n.m_dynamicIns.filter (fun e : Int × Nat => decide (e.1 = 0))).map Prod.snd) s
    exact (o2 d1).trans i2

/-- C19: a dynamic pin lives as long as it is declared again in every frame.  In
a well-formed heap, a dynamic input pin of the node that no `showIN` of the
frame declares is, at the end of the frame, no longer among the dynamic
inputs of the node, gone from the heap, and the link it held has been
removed; likewise a dynamic output pin that no `showOUT` of the frame
declares is gone and every link that came from it has been removed.  A
dynamic pin that the frame does declare (the only one with its uid, in a
list of existing, pairwise different pins) is still among the dynamic pins
of the node and in the heap.  The heap is well-formed again. -/
theorem dynamic_pin_lifetime [Inhabited V] (this : Nat) (decls : List (Decl V)) (n : BaseNode)
    (s : Flow V) (hs : WF s) :
    (∀ a p, a ∈ n.m_dynamicIns.map Prod.snd → Arena.find s.ins a = some p →
        (∀ d ∈ decls, d.showsIn p.m_uid = false) →
        a ∉ (BaseNode.update this decls n s).1.m_dynamicIns.map Prod.snd ∧
          Arena.find (BaseNode.update this decls n s).2.ins a = none ∧
          ∀ l, p.m_link = some l →
            Arena.find (BaseNode.update this decls n s).2.links l = none) ∧
      (∀ o po, o ∈ n.m_dynamicOuts.map Prod.snd → Arena.find s.outs o = some po →
        (∀ d ∈ decls, d.showsOut po.m_uid = false) →
        o ∉ (BaseNode.update this decls n s).1.m_dynamicOuts.map Prod.snd ∧
          Arena.find (BaseNode.update this decls n s).2.outs o = none ∧
          ∀ l lk, Arena.find s.links l = some lk → lk.left = o →
            Arena.find (BaseNode.update this decls n s).2.links l = none) ∧
      (∀ a u, readyIn n.untouch s a u → (∃ d ∈ decls, d.showsIn u = true) →
        a ∈ (BaseNode.update this decls n s).1.m_dynamicIns.map Prod.snd ∧
          ∃ p, Arena.find (BaseNode.update this decls n s).2.ins a = some p ∧ p.m_uid = u) ∧
      (∀ o u, readyOut n.untouch s o u → (∃ d ∈ decls, d.showsOut u = true) →
        o ∈ (BaseNode.update this decls n s).1.m_dynamicOuts.map Prod.snd ∧
          ∃ po, Arena.find (BaseNode.update this decls n s).2.outs o = some po ∧
            po.m_uid = u) ∧
      WF (BaseNode.update this decls n s).2 := by
  obtain ⟨f1, f2, f3, f4⟩ := foldl_declare_inv this decls n.untouch s hs
  obtain ⟨w1, w2, w3, w4⟩ := sweep_spec
    (decls.foldl (BaseNode.declare this) (n.untouch, s)).1
    (decls.foldl (BaseNode.declare this) (n.untouch, s)).2 f1
  obtain ⟨r1, r2⟩ := foldl_declare_ready this decls n.untouch s
  obtain ⟨g1, g2⟩ := foldl_declare_keeps this decls n.untouch s hs
  obtain ⟨v1, v2⟩ := sweep_keeps
    (decls.foldl (BaseNode.declare this) (n.untouch, s)).1
    (decls.foldl (BaseNode.declare this) (n.untouch, s)).2
  have hsub : ∀ l lk, Arena.find (BaseNode.update this decls n s).2.links l = some lk →
      Arena.find s.links l = some lk := by
    intro l lk h
    have := w2 l lk h
    rw [f2] at this
    exact this
  refine ⟨?_, ?_, ?_, ?_, w1⟩
  · intro a p ha hp hd
    obtain ⟨-, g⟩ := f3 a p hp hd (quiet_reset _ a ha)
    obtain ⟨x1, x2⟩ := w3 a g
    refine ⟨x1, x2, ?_⟩
    intro l hl
    cases hf : Arena.find (BaseNode.update this decls n s).2.links l with
    | none => rfl
    | some lk =>
      exfalso
      have h0 := hsub l lk hf
      obtain ⟨lk0, hlk0, hr⟩ := hs.held a p l hp hl
      rw [h0] at hlk0
      simp only [Option.some.injEq] at hlk0
      subst hlk0
      obtain ⟨q, hq, -⟩ := w1.holder l lk hf
      rw [hr, x2] at hq
      exact Option.noConfusion hq
  · intro o po ho hp hd
    obtain ⟨-, g⟩ := f4 o po hp hd (quiet_reset _ o ho)
    obtain ⟨x1, x2⟩ := w4 o g
    refine ⟨x1, x2, ?_⟩
    intro l lk hl hleft
    cases hf : Arena.find (BaseNode.update this decls n s).2.links l with
    | none => rfl
    | some lk2 =>
      exfalso
      have h0 := hsub l lk2 hf
      rw [hl] at h0
      simp only [Option.some.injEq] at h0
      subst h0
      obtain ⟨q, hq, -⟩ := w1.registered l lk hf
      rw [hleft, x2] at hq
      exact Option.noConfusion hq
  · intro a u hr hd
    obtain ⟨y1, y2⟩ := v1 a (r1 a u hr hd)
    refine ⟨y1, ?_⟩
    have hua := hr.2.1
    unfold hasUidIn at hua
    cases hp : Arena.find s.ins a with
    | none => rw [hp] at hua; exact Bool.noConfusion hua
    | some p =>
      rw [hp] at hua
      simp only [decide_eq_true_eq] at hua
      rw [g1 a p hp] at y2
      cases hx : Arena.find (BaseNode.sweep
          (decls.foldl (BaseNode.declare this) (n.untouch, s)).1
          (decls.foldl (BaseNode.declare this) (n.untouch, s)).2).2.ins a with
      | none => rw [hx] at y2; exact Option.noConfusion y2
      | some p2 =>
        rw [hx] at y2
        simp only [Option.map_some', Option.some.injEq] at y2
        exact ⟨p2, hx, y2.trans hua⟩
  · intro o u hr hd
    obtain ⟨y1, y2⟩ := v2 o (r2 o u hr hd)
    refine ⟨y1, ?_⟩
    have hua := hr.2.1
    unfold hasUidOut at hua
    cases hp : Arena.find s.outs o with
    | none => rw [hp] at hua; exact Bool.noConfusion hua
    | some p =>
      rw [hp] at hua
      simp only [decide_eq_true_eq] at hua
      rw [g2 o p hp] at y2
      cases hx : Arena.find (BaseNode.sweep
          (decls.foldl (BaseNode.declare this) (n.untouch, s)).1
          (decls.foldl (BaseNode.declare this) (n.untouch, s)).2).2.outs o with
      | none => rw [hx] at y2; exact Option.noConfusion y2
      | some p2 =>
        rw [hx] at y2
        simp only [Option.map_some', Option.some.injEq] at y2
        exact ⟨p2, hx, y2.trans hua⟩

theorem dynFrame1_ready :
    readyIn dynFrame1.1.untouch (createLink dynFrame1.2 1 15).2 15 7 := by
  refine ⟨⟨by decide, by decide⟩, rfl, by decide, by decide, by decide⟩

/-- Witness for C19: node 20 declares the dynamic input with uid 7 in the frames
1 to 3 and not in frame 4; the pin, made at address 15 and linked to output
1 (link 0) after frame 1, is still there after frame 2 and holds its link
after frame 3, and after frame 4 the pin and the link are gone. -/
theorem dynamic_pin_lifetime_witness :
    15 ∈ dynFrame2.1.m_dynamicIns.map Prod.snd ∧
      dynFrame3.2.inGetLink 15 = some (some 0) ∧
      15 ∉ dynFrame4.1.m_dynamicIns.map Prod.snd ∧
      Arena.find dynFrame4.2.ins 15 = none ∧
      Arena.find dynFrame4.2.links 0 = none :=
  have w1 : WF dynFrame1.2 :=
    (dynamic_pin_lifetime 20 [dynDecl] (BaseNode.new 20) sample0 sample0_WF).2.2.2.2
  have w2 : WF dynFrame2.2 :=
    (dynamic_pin_lifetime 20 [dynDecl] dynFrame1.1 (createLink dynFrame1.2 1 15).2
      (WF_createLink dynFrame1.2 1 15 w1)).2.2.2.2
  have w3 : WF dynFrame3.2 :=
    (dynamic_pin_lifetime 20 [dynDecl] dynFrame2.1 dynFrame2.2 w2).2.2.2.2
  have gone := (dynamic_pin_lifetime 20 [] dynFrame3.1 dynFrame3.2 w3).1 15
    { InPin.new TypeTag.int 7 "dyn" (0 : Int) ConnectionFilter.SameType 20 0 with
      m_link := some 0 }
    (by decide) rfl (fun d hd => absurd hd (List.not_mem_nil _))
  ⟨((dynamic_pin_lifetime 20 [dynDecl] dynFrame1.1 (createLink dynFrame1.2 1 15).2
        (WF_createLink dynFrame1.2 1 15 w1)).2.2.1 15 7 dynFrame1_ready
        ⟨dynDecl, List.mem_cons_self _ _, rfl⟩).1,
    rfl, gone.1, gone.2.1, gone.2.2 0 rfl⟩

/-! ## The hit test of a link -/

theorem ImLengthSqr_nonneg (a : ImVec2) : 0 ≤ ImLengthSqr a := by
  unfold ImLengthSqr
  nlinarith [mul_self_nonneg a.x, mul_self_nonneg a.y]

theorem ImLineClosestPoint_onSegment (a b p : ImVec2) :
    onSegment (ImLineClosestPoint a b p) (a, b) := by
  unfold ImLineClosestPoint
  split
  · exact ⟨0, le_refl _, zero_le_one, by simp [ImVec2.add, ImVec2.sub, ImVec2.scale]⟩
  · split
    · exact ⟨1, zero_le_one, le_refl _, by simp [ImVec2.add, ImVec2.sub, ImVec2.scale]⟩
    · rename_i h1 h2
      have hlen := ImLengthSqr_nonneg (b.sub a)
      refine ⟨_, ?_, ?_, rfl⟩
      · exact div_nonneg (not_lt.mp h1) hlen
      · exact div_le_one_of_le₀ (not_lt.mp h2) hlen

theorem segmentDistSqr_zero_of_on (p : ImVec2) (seg : ImVec2 × ImVec2) (h : onSegment p seg) :
    segmentDistSqr p seg = 0 := by
  obtain ⟨a, b⟩ := seg
  obtain ⟨t, ht0, ht1, hp⟩ := h
  simp only at hp
  have hx : p.x = a.x + (b.x - a.x) * t := by rw [hp]; rfl
  have hy : p.y = a.y + (b.y - a.y) * t := by rw [hp]; rfl
  have hlen : 0 ≤ ImLengthSqr (b.sub a) := ImLengthSqr_nonneg _
  have hdot : (p.x - a.x) * (b.x - a.x) + (p.y - a.y) * (b.y - a.y) =
      t * ImLengthSqr (b.sub a) := by
    rw [hx, hy]
    simp only [ImLengthSqr, ImVec2.sub]
    ring
  unfold segmentDistSqr ImLineClosestPoint
  simp only [hdot]
  have h1 : ¬ t * ImLengthSqr (b.sub a) < 0 := not_lt.mpr (mul_nonneg ht0 hlen)
  have h2 : ¬ ImLengthSqr (b.sub a) < t * ImLengthSqr (b.sub a) := by
    apply not_lt.mpr
    calc t * ImLengthSqr (b.sub a) ≤ 1 * ImLengthSqr (b.sub a) :=
          mul_le_mul_of_nonneg_right ht1 hlen
      _ = ImLengthSqr (b.sub a) := one_mul _
  simp only [h1, h2, if_false]
  by_cases hz : ImLengthSqr (b.sub a) = 0
  · have hbx : b.x - a.x = 0 := by
      simp only [ImLengthSqr, ImVec2.sub] at hz
      nlinarith [mul_self_nonneg (b.x - a.x), mul_self_nonneg (b.y - a.y)]
    have hby : b.y - a.y = 0 := by
      simp only [ImLengthSqr, ImVec2.sub] at hz
      nlinarith [mul_self_nonneg (b.x - a.x), mul_self_nonneg (b.y - a.y)]
    simp only [ImLengthSqr, ImVec2.sub, ImVec2.add, ImVec2.scale, hx, hy, hbx, hby]
    ring
  · have hq : t * ImLengthSqr (b.sub a) / ImLengthSqr (b.sub a) = t := by
      field_simp
    rw [hq]
    simp only [ImLengthSqr, ImVec2.sub, ImVec2.add, ImVec2.scale, hx, hy]
    ring

theorem nearestDistSqr_le (p : ImVec2) (segs : List (ImVec2 × ImVec2)) :
    ∀ m, nearestDistSqr p segs = some m → ∀ seg ∈ segs, m ≤ segmentDistSqr p seg := by
  induction segs with
  | nil => intro m h; exact Option.noConfusion h
  | cons s segs ih =>
    intro m h seg hseg
    rw [nearestDistSqr] at h
    cases hrest : nearestDistSqr p segs with
    | none =>
      rw [hrest] at h
      simp only [Option.some.injEq] at h
      rcases List.mem_cons.mp hseg with hs | hs
      · rw [hs, h]
      · cases segs with
        | nil => exact absurd hs (List.not_mem_nil _)
        | cons s2 segs2 =>
          rw [nearestDistSqr] at hrest
          cases hx : nearestDistSqr p segs2 with
          | none => rw [hx] at hrest; exact Option.noConfusion hrest
          | some y => rw [hx] at hrest; exact Option.noConfusion hrest
    | some m2 =>
      rw [hrest] at h
      simp only [Option.some.injEq] at h
      rw [← h]
      rcases List.mem_cons.mp hseg with hs | hs
      · rw [hs]; exact min_le_left _ _
      · exact le_trans (min_le_right _ _) (ih m2 hrest seg hs)

theorem nearestDistSqr_attained (p : ImVec2) (segs : List (ImVec2 × ImVec2)) :
    ∀ m, nearestDistSqr p segs = some m → ∃ seg ∈ segs, m = segmentDistSqr p seg := by
  induction segs with
  | nil => intro m h; exact Option.noConfusion h
  | cons s segs ih =>
    intro m h
    rw [nearestDistSqr] at h
    cases hrest : nearestDistSqr p segs with
    | none =>
      rw [hrest] at h
      simp only [Option.some.injEq] at h
      exact ⟨s, List.mem_cons_self _ _, h.symm⟩
    | some m2 =>
      rw [hrest] at h
      simp only [Option.some.injEq] at h
      rcases le_total (segmentDistSqr p s) m2 with hle | hle
      · rw [min_eq_left hle] at h
        exact ⟨s, List.mem_cons_self _ _, h.symm⟩
      · rw [min_eq_right hle] at h
        obtain ⟨seg, hseg, hm⟩ := ih m2 hrest
        exact ⟨seg, List.mem_cons_of_mem _ hseg, by rw [← h, hm]⟩

theorem nearestDistSqr_some (p : ImVec2) (segs : List (ImVec2 × ImVec2))
    (seg : ImVec2 × ImVec2) (h : seg ∈ segs) : ∃ m, nearestDistSqr p segs = some m := by
  cases segs with
  | nil => exact absurd h (List.not_mem_nil _)
  | cons s segs =>
    rw [nearestDistSqr]
    cases nearestDistSqr p segs with
    | none => exact ⟨_, rfl⟩
    | some m2 => exact ⟨_, rfl⟩

theorem sampleSegments :
    segments (bezierSamples ⟨0, 0⟩ (straightCtrl ⟨0, 0⟩ ⟨4, 0⟩).1 (straightCtrl ⟨0, 0⟩ ⟨4, 0⟩).2
      ⟨4, 0⟩ 1) = [(⟨0, 0⟩, ⟨4, 0⟩)] := by
  simp [segments, bezierSamples, straightCtrl, ImBezierCubicCalc, List.range_succ]

theorem sampleOnSegment : onSegment ⟨0, 0⟩ ((⟨0, 0⟩, ⟨4, 0⟩) : ImVec2 × ImVec2) :=
  ⟨0, le_refl _, zero_le_one, by simp [ImVec2.add, ImVec2.sub, ImVec2.scale]⟩

/-- C17: a query point that lies on the sampled curve is a hit for every radius
that is not negative, the radius 0 included, and a query point that is
farther than the radius from every point of the sampled curve is a miss. -/
theorem collider_hit_miss (ctrl : ImVec2 → ImVec2 → ImVec2 × ImVec2) (steps : Nat)
    (p p1 p2 : ImVec2) (radius : ℚ) :
    ((∃ seg ∈ segments (bezierSamples p1 (ctrl p1 p2).1 (ctrl p1 p2).2 p2 steps),
          onSegment p seg) → 0 ≤ radius →
        smart_bezier_collider ctrl steps p p1 p2 radius = true) ∧
      ((∀ seg ∈ segments (bezierSamples p1 (ctrl p1 p2).1 (ctrl p1 p2).2 p2 steps),
          ∀ q, onSegment q seg → fartherThan p q radius) →
        smart_bezier_collider ctrl steps p p1 p2 radius = false) := by
  constructor
  · rintro ⟨seg, hseg, hon⟩ hr
    obtain ⟨m, hm⟩ := nearestDistSqr_some p _ seg hseg
    have hle := nearestDistSqr_le p _ m hm seg hseg
    rw [segmentDistSqr_zero_of_on p seg hon] at hle
    have hrr : 0 ≤ radius * radius := mul_self_nonneg radius
    unfold smart_bezier_collider
    rw [hm]
    simp only [decide_eq_true_eq]
    exact ⟨hr, le_trans hle hrr⟩
  · intro hfar
    unfold smart_bezier_collider
    cases hm : nearestDistSqr p
        (segments (bezierSamples p1 (ctrl p1 p2).1 (ctrl p1 p2).2 p2 steps)) with
    | none => rfl
    | some m =>
      simp only [decide_eq_false_iff_not, not_and, not_le]
      intro hr
      obtain ⟨seg, hseg, hms⟩ := nearestDistSqr_attained p _ m hm
      rcases hfar seg hseg _ (ImLineClosestPoint_onSegment seg.1 seg.2 p) with h | h
      · exact absurd hr (not_le.mpr h)
      · rw [hms]
        exact h

/-- Witness for C17: on the segment from (0, 0) to (4, 0) the query point (0, 0)
is a hit for the radius 0, and the query point (1, 2), at distance 2 from
the segment, is a miss for the radius 1. -/
theorem collider_hit_miss_witness :
    smart_bezier_collider straightCtrl 1 ⟨0, 0⟩ ⟨0, 0⟩ ⟨4, 0⟩ 0 = true ∧
      smart_bezier_collider straightCtrl 1 ⟨1, 2⟩ ⟨0, 0⟩ ⟨4, 0⟩ 1 = false :=
  ⟨(collider_hit_miss straightCtrl 1 ⟨0, 0⟩ ⟨0, 0⟩ ⟨4, 0⟩ 0).1
      ⟨(⟨0, 0⟩, ⟨4, 0⟩), by rw [sampleSegments]; exact List.mem_cons_self _ _, sampleOnSegment⟩
      (le_refl _),
    (collider_hit_miss straightCtrl 1 ⟨1, 2⟩ ⟨0, 0⟩ ⟨4, 0⟩ 1).2 (by
      intro seg hseg q hq
      rw [sampleSegments] at hseg
      simp only [List.mem_singleton] at hseg
      subst hseg
      obtain ⟨t, -, -, hqt⟩ := hq
      right
      rw [hqt]
      simp only [ImLengthSqr, ImVec2.sub, ImVec2.add, ImVec2.scale]
      nlinarith [mul_self_nonneg (1 - 4 * t)])⟩

/-! ## Moving a node -/

/-- C21: after `setPos(pos)` the position `getPos()` is `pos` and the relocation
target `m_posTarget` is `pos` as well, so position and target agree; uid,
title, handler, style, size, the selection, drag and destroyed flags and
the four pin lists are as they were. -/
theorem setPos_spec (n : BaseNode) (pos : ImVec2) :
    (n.setPos pos).getPos = pos ∧
      (n.setPos pos).m_posTarget = pos ∧
      (n.setPos pos).m_posTarget = (n.setPos pos).getPos ∧
      (n.setPos pos).getUID = n.getUID ∧
      (n.setPos pos).getName = n.getName ∧
      (n.setPos pos).getHandler = n.getHandler ∧
      (n.setPos pos).getStyle = n.getStyle ∧
      (n.setPos pos).getSize = n.getSize ∧
      (n.setPos pos).isSelected = n.isSelected ∧
      (n.setPos pos).m_selectedNext = n.m_selectedNext ∧
      (n.setPos pos).isDragged = n.isDragged ∧
      (n.setPos pos).toDestroy = n.toDestroy ∧
      (n.setPos pos).getIns = n.getIns ∧
      (n.setPos pos).getOuts = n.getOuts ∧
      (n.setPos pos).m_dynamicIns = n.m_dynamicIns ∧
      (n.setPos pos).m_dynamicOuts = n.m_dynamicOuts :=
  ⟨rfl, rfl, rfl, rfl, rfl, rfl, rfl, rfl, rfl, rfl, rfl, rfl, rfl, rfl, rfl, rfl⟩

/-! ## Connection filters -/

/-- C23: `SameType()` accepts the pair `(out, in)` exactly when the data type of
`out` is the data type of `in`, and `None()` accepts every pair; so
`SameType()` gives the same answer with the two pins exchanged, and what it
accepts `None()` accepts. -/
theorem SameType_spec (out inp : Pin) :
    (ConnectionFilter.SameType out inp = true ↔ out.dataType = inp.dataType) ∧
      ConnectionFilter.None out inp = true ∧
      ConnectionFilter.SameType out inp = ConnectionFilter.SameType inp out ∧
      (ConnectionFilter.SameType out inp = true → ConnectionFilter.None out inp = true) := by
  refine ⟨?_, rfl, ?_, fun _ => rfl⟩
  · simp [ConnectionFilter.SameType]
  · simp only [ConnectionFilter.SameType]
    by_cases h : out.dataType = inp.dataType
    · simp [h]
    · have h2 : ¬ inp.dataType = out.dataType := fun e => h e.symm
      simp [h, h2]

/-- Witness for C23: an integer output and an integer input. -/
theorem SameType_spec_witness :
    ConnectionFilter.SameType (OutPin.new TypeTag.int 1 "o" 10 99 : OutPin Int).toPin
        (InPin.new TypeTag.int 1 "i" (0 : Int) ConnectionFilter.SameType 20 99).toPin = true ∧
      ConnectionFilter.None (OutPin.new TypeTag.int 1 "o" 10 99 : OutPin Int).toPin
        (InPin.new TypeTag.int 1 "i" (0 : Int) ConnectionFilter.SameType 20 99).toPin = true :=
  ⟨by decide,
    (SameType_spec (OutPin.new TypeTag.int 1 "o" 10 99 : OutPin Int).toPin
      (InPin.new TypeTag.int 1 "i" (0 : Int) ConnectionFilter.SameType 20 99).toPin).2.2.2
      (by decide)⟩

/-- C24: `Numbers()` accepts the pair `(out, in)` exactly when the data type of
`out` is `double`, `float` or `int`; the input pin plays no part, so the
answer is the same for any two input pins, and for any two output pins of
the same data type; a numeric output is accepted with an input that is not
numeric. -/
theorem Numbers_spec (out in1 in2 : Pin) :
    (ConnectionFilter.Numbers out in1 = true ↔
        out.dataType = TypeTag.double ∨ out.dataType = TypeTag.float ∨
          out.dataType = TypeTag.int) ∧
      ConnectionFilter.Numbers out in1 = ConnectionFilter.Numbers out in2 ∧
      (∀ out2 : Pin, out2.dataType = out.dataType →
        ConnectionFilter.Numbers out2 in1 = ConnectionFilter.Numbers out in2) ∧
      (∀ n : Nat, out.dataType = TypeTag.int → in1.dataType = TypeTag.other n →
        ConnectionFilter.Numbers out in1 = true ∧ ConnectionFilter.SameType out in1 = false) := by
  refine ⟨?_, rfl, ?_, ?_⟩
  · simp [ConnectionFilter.Numbers, or_assoc]
  · intro out2 h
    simp only [ConnectionFilter.Numbers, h]
  · intro n ho hi
    simp [ConnectionFilter.Numbers, ConnectionFilter.SameType, ho, hi]

/-- Witness for C24: an integer output with an input of another, non-numeric
type is accepted by `Numbers()`. -/
theorem Numbers_spec_witness :
    ConnectionFilter.Numbers (OutPin.new TypeTag.int 1 "o" 10 99 : OutPin Int).toPin
        (InPin.new (TypeTag.other 0) 1 "i" (0 : Int) ConnectionFilter.Numbers 20 99).toPin
          = true ∧
      ConnectionFilter.SameType (OutPin.new TypeTag.int 1 "o" 10 99 : OutPin Int).toPin
        (InPin.new (TypeTag.other 0) 1 "i" (0 : Int) ConnectionFilter.Numbers 20 99).toPin
          = false :=
  (Numbers_spec (OutPin.new TypeTag.int 1 "o" 10 99 : OutPin Int).toPin
    (InPin.new (TypeTag.other 0) 1 "i" (0 : Int) ConnectionFilter.Numbers 20 99).toPin
    (InPin.new (TypeTag.other 0) 1 "i" (0 : Int) ConnectionFilter.Numbers 20 99).toPin).2.2.2
    0 rfl rfl

/-! ## Links as fixed directed edges -/

/-- C26: a link constructed with `(left, right, inf)` has `left()` equal to
`left` and `right()` equal to `right` and is neither hovered nor selected.
The link that a successful `createLink(o, i)` makes is such a link from `o`
to `i`, and the links that were there before it and are still there after
it are as they were, as are the links that outlive a `deleteLink()`. -/
theorem Link.new_spec (left right inf : Nat) :
    (Link.new left right inf).left = left ∧
      (Link.new left right inf).right = right ∧
      (Link.new left right inf).isHovered = false ∧
      (Link.new left right inf).isSelected = false ∧
      (∀ (V : Type) (s : Flow V) (o i l : Nat), (createLink s o i).1 = Except.ok l →
        (∃ lk, Arena.find (createLink s o i).2.links l = some lk ∧ lk.left = o ∧
          lk.right = i ∧ lk.isHovered = false ∧ lk.isSelected = false) ∧
        ∀ x lkx, x ≠ l → Arena.find (createLink s o i).2.links x = some lkx →
          Arena.find s.links x = some lkx) ∧
      (∀ (V : Type) (s : Flow V) (i x : Nat) (lkx : Link),
        Arena.find (InPin.deleteLink s i).links x = some lkx →
          Arena.find s.links x = some lkx) := by
  refine ⟨rfl, rfl, rfl, rfl, ?_, ?_⟩
  · intro V s o i l h
    obtain ⟨po, pi, ho, hi, ht, hf, hn, hl⟩ := createLink_ok_inv s o i l h
    have heq := createLink_accept s o i po pi ho hi ht hf hn
    subst hl
    rw [heq]
    refine ⟨⟨Link.new o i pi.m_inf, ?_, rfl, rfl, rfl, rfl⟩, ?_⟩
    · simp [Arena.find_cons]
    · intro x lkx hx hfind
      have hx2 : ¬ s.nextLink = x := fun e => hx e.symm
      simp only [Arena.find_cons, hx2, if_false] at hfind
      exact InPin.deleteLink_links_sub s i x lkx hfind
  · intro V s i x lkx h
    exact InPin.deleteLink_links_sub s i x lkx h

/-- Witness for C26: `createLink(1, 11)` on the sample graph makes the link 0
from output 1 to input 11. -/
theorem Link.new_spec_witness :
    ∃ lk, Arena.find (createLink sample0 1 11).2.links 0 = some lk ∧ lk.left = 1 ∧
      lk.right = 11 ∧ lk.isHovered = false ∧ lk.isSelected = false :=
  ((Link.new_spec 1 11 99).2.2.2.2.1 Int sample0 1 11 0 rfl).1

/-! ## Socket attachment points -/

/-- C27: for a pin at `(x, y)` with size `(w, h)` and socket padding `s`, the
attachment point of an input pin is `(x - s, y + h / 2)` and that of an
output pin is `(x + w + s, y + h / 2)`; so both are at the height of the
middle of the pin, and for `w ≥ 0` and `s ≥ 0` the attachment point of the
input pin is not to the right of that of the output pin. -/
theorem pinPoint_spec (x y w h s : ℚ) :
    InPin.pinPoint ⟨⟨x, y⟩, ⟨w, h⟩, ⟨⟨s⟩⟩⟩ = ⟨x - s, y + h / 2⟩ ∧
      OutPin.pinPoint ⟨⟨x, y⟩, ⟨w, h⟩, ⟨⟨s⟩⟩⟩ = ⟨x + w + s, y + h / 2⟩ ∧
      (InPin.pinPoint ⟨⟨x, y⟩, ⟨w, h⟩, ⟨⟨s⟩⟩⟩).y = y + h / 2 ∧
      (OutPin.pinPoint ⟨⟨x, y⟩, ⟨w, h⟩, ⟨⟨s⟩⟩⟩).y = y + h / 2 ∧
      (0 ≤ w → 0 ≤ s →
        (InPin.pinPoint ⟨⟨x, y⟩, ⟨w, h⟩, ⟨⟨s⟩⟩⟩).x ≤
          (OutPin.pinPoint ⟨⟨x, y⟩, ⟨w, h⟩, ⟨⟨s⟩⟩⟩).x) := by
  refine ⟨?_, ?_, rfl, rfl, ?_⟩
  · simp only [InPin.pinPoint, ImVec2.add, ImVec2.mk.injEq, and_true]
    ring
  · simp only [OutPin.pinPoint, ImVec2.add, ImVec2.mk.injEq, and_true]
    ring
  · intro hw hs
    simp only [InPin.pinPoint, OutPin.pinPoint, ImVec2.add]
    linarith

/-- Witness for C27: a pin at `(2, 3)` of size `(10, 4)` with the default socket
padding: the input socket is at `(-23/5, 5)`, the output socket at
`(93/5, 5)`. -/
theorem pinPoint_spec_witness :
    (InPin.pinPoint ⟨⟨2, 3⟩, ⟨10, 4⟩, ⟨PinStyleExtras.new⟩⟩).x ≤
      (OutPin.pinPoint ⟨⟨2, 3⟩, ⟨10, 4⟩, ⟨PinStyleExtras.new⟩⟩).x :=
  (pinPoint_spec 2 3 10 4 (33 / 5)).2.2.2.2 (by norm_num) (by norm_num)

/-! ## Invariants of the reachable heaps -/

theorem WF_empty : WF (Flow.empty : Flow V) :=
  WF_of_unlinked Flow.empty rfl (by intro e he; cases he)

theorem Tidy_empty : Tidy (Flow.empty : Flow V) := by
  intro o po l h
  exact Option.noConfusion h

theorem WF_setIn (s : Flow V) (i : Nat) (f : InPin V → InPin V) (hs : WF s)
    (hf : ∀ p, (f p).m_link = p.m_link) :
    WF ({ s with ins := Arena.modify s.ins i f } : Flow V) := by
  refine { holder := ?_, held := ?_, fresh := hs.fresh, registered := hs.registered }
  · intro l lk hl
    obtain ⟨q, hq, hql⟩ := hs.holder l lk hl
    by_cases h : lk.right = i
    · refine ⟨f q, ?_, ?_⟩
      · simp only [Arena.find_modify, h, if_true]
        rw [← h, hq]; rfl
      · rw [hf]; exact hql
    · exact ⟨q, by simp only [Arena.find_modify, h, if_false]; exact hq, hql⟩
  · intro j q l hj hql
    simp only [Arena.find_modify] at hj
    by_cases h : j = i
    · simp only [h, if_true] at hj
      cases hq : Arena.find s.ins i with
      | none => rw [hq] at hj; exact Option.noConfusion hj
      | some q0 =>
        rw [hq] at hj
        simp only [Option.map_some', Option.some.injEq] at hj
        subst hj
        rw [hf] at hql
        rw [h]
        exact hs.held i q0 l hq hql
    · simp only [h, if_false] at hj
      exact hs.held j q l hj hql

theorem WF_setOut (s : Flow V) (o : Nat) (f : OutPin V → OutPin V) (hs : WF s)
    (hf : ∀ p, (f p).m_links = p.m_links) :
    WF ({ s with outs := Arena.modify s.outs o f } : Flow V) := by
  refine { holder := hs.holder, held := hs.held, fresh := hs.fresh, registered := ?_ }
  intro l lk hl
  obtain ⟨q, hq, hmem⟩ := hs.registered l lk hl
  by_cases h : lk.left = o
  · refine ⟨f q, ?_, ?_⟩
    · simp only [Arena.find_modify, h, if_true]
      rw [← h, hq]; rfl
    · rw [hf]; exact hmem
  · exact ⟨q, by simp only [Arena.find_modify, h, if_false]; exact hq, hmem⟩

theorem Tidy_newIn (s : Flow V) (a : Nat) (p : InPin V) (hs : Tidy s) :
    Tidy ({ s with ins := (a, p) :: s.ins } : Flow V) :=
  hs

theorem Tidy_setIn (s : Flow V) (i : Nat) (f : InPin V → InPin V) (hs : Tidy s) :
    Tidy ({ s with ins := Arena.modify s.ins i f } : Flow V) :=
  hs

theorem Tidy_newOut (s : Flow V) (o : Nat) (po : OutPin V) (hs : Tidy s)
    (hpo : po.m_links = []) :
    Tidy ({ s with outs := (o, po) :: s.outs } : Flow V) := by
  intro b pb l hb hl
  simp only [Arena.find_cons] at hb
  by_cases h : o = b
  · simp only [h, if_true, Option.some.injEq] at hb
    subst hb
    rw [hpo] at hl
    cases hl
  · simp only [h, if_false] at hb
    exact hs b pb l hb hl

theorem Tidy_setOut (s : Flow V) (o : Nat) (f : OutPin V → OutPin V) (hs : Tidy s)
    (hf : ∀ p, (f p).m_links = p.m_links) :
    Tidy ({ s with outs := Arena.modify s.outs o f } : Flow V) := by
  intro b pb l hb hl
  simp only [Arena.find_modify] at hb
  by_cases h : b = o
  · simp only [h, if_true] at hb
    cases hq : Arena.find s.outs o with
    | none => rw [hq] at hb; exact Option.noConfusion hb
    | some q0 =>
      rw [hq] at hb
      simp only [Option.map_some', Option.some.injEq] at hb
      subst hb
      rw [hf] at hl
      rw [h]
      exact hs o q0 l hq hl
  · simp only [h, if_false] at hb
    exact hs b pb l hb hl

theorem Tidy_deleteLink (s : Flow V) (i : Nat) (hs : Tidy s) : Tidy (InPin.deleteLink s i) := by
  cases hi : Arena.find s.ins i with
  | none => rw [InPin.deleteLink_of_absent s i hi]; exact hs
  | some p =>
    cases hl : p.m_link with
    | none => rw [InPin.deleteLink_of_unlinked s i p hi hl]; exact hs
    | some l =>
      have hbind : (Arena.find s.ins i).bind (fun q => q.m_link) = some l := by
        rw [hi]; exact hl
      cases hlk : Arena.find s.links l with
      | none =>
        rw [InPin.deleteLink_of_dangling s i p l hi hl hlk]
        intro o po x ho hx
        obtain ⟨lk, hx1, hx2⟩ := hs o po x ho hx
        have hne : ¬ x = l := by
          intro h
          rw [h, hlk] at hx1
          exact Option.noConfusion hx1
        exact ⟨lk, by simp only [Arena.find_remove, hne, if_false]; exact hx1, hx2⟩
      | some lk0 =>
        intro o po x ho hx
        rw [InPin.deleteLink_find_outs_linked s i o p l lk0 hi hl hlk] at ho
        by_cases hol : o = lk0.left
        · simp only [hol, if_true] at ho
          cases hq : Arena.find s.outs lk0.left with
          | none => rw [hq] at ho; exact Option.noConfusion ho
          | some q0 =>
            rw [hq] at ho
            simp only [Option.map_some', Option.some.injEq] at ho
            subst ho
            simp only [List.mem_filter] at hx
            obtain ⟨hx0, hlive⟩ := hx
            obtain ⟨lk, hx1, hx2⟩ := hs lk0.left q0 x hq hx0
            cases hf : Arena.find (InPin.deleteLink s i).links x with
            | none => rw [hf] at hlive; exact absurd hlive (by simp)
            | some lk2 =>
              have h0 := InPin.deleteLink_links_sub s i x lk2 hf
              rw [hx1] at h0
              simp only [Option.some.injEq] at h0
              subst h0
              exact ⟨lk, rfl, by rw [hol]; exact hx2⟩
        · simp only [hol, if_false] at ho
          obtain ⟨lk, hx1, hx2⟩ := hs o po x ho hx
          have hne : ¬ l = x := by
            intro h
            rw [← h, hlk] at hx1
            simp only [Option.some.injEq] at hx1
            subst hx1
            exact hol hx2.symm
          refine ⟨lk, ?_, hx2⟩
          rw [InPin.deleteLink_find_links, hbind]
          simp only [Option.some.injEq, hne, if_false]
          exact hx1

theorem Tidy_createLink (s : Flow V) (o i : Nat) (hs : WF s) (ht : Tidy s) :
    Tidy (createLink s o i).2 := by
  cases ho : Arena.find s.outs o with
  | none => rw [createLink_invalid s o i (Or.inl ho)]; exact ht
  | some po =>
    cases hi : Arena.find s.ins i with
    | none => rw [createLink_invalid s o i (Or.inr hi)]; exact ht
    | some pi =>
      by_cases hc : po.dataType = pi.dataType ∧ pi.m_filter po.toPin pi.toPin = true ∧
          (po.m_parent ≠ pi.m_parent ∨ pi.m_allowSelfConnection = true)
      · rw [createLink_accept s o i po pi ho hi hc.1 hc.2.1 hc.2.2]
        have h1 := WF_deleteLink s i hs
        have t1 := Tidy_deleteLink s i ht
        have hnext := InPin.deleteLink_nextLink s i
        intro b pb x hb hx
        simp only [Arena.find_modify] at hb
        simp only [Arena.find_cons]
        have hold : ∀ q, Arena.find (InPin.deleteLink s i).outs b = some q → x ∈ q.m_links →
            ∃ lk, (if s.nextLink = x then some (Link.new o i pi.m_inf)
              else Arena.find (InPin.deleteLink s i).links x) = some lk ∧ lk.left = b := by
          intro q hq hxq
          obtain ⟨lk, hx1, hx2⟩ := t1 b q x hq hxq
          have hlt := h1.fresh x lk hx1
          rw [hnext] at hlt
          have hxn : ¬ s.nextLink = x := by omega
          exact ⟨lk, by simp only [hxn, if_false]; exact hx1, hx2⟩
        by_cases hbo : b = o
        · simp only [hbo, if_true] at hb
          cases hq : Arena.find (InPin.deleteLink s i).outs o with
          | none => rw [hq] at hb; exact Option.noConfusion hb
          | some q =>
            rw [hq] at hb
            simp only [Option.map_some', Option.some.injEq] at hb
            subst hb
            simp only [List.mem_append, List.mem_singleton] at hx
            rcases hx with hx | hx
            · exact hold q (by rw [hbo]; exact hq) hx
            · refine ⟨Link.new o i pi.m_inf, by simp [hx], ?_⟩
              rw [hbo]; rfl
        · simp only [hbo, if_false] at hb
          exact hold pb hb hx
      · obtain ⟨e2, he⟩ := createLink_reject s o i po pi ho hi hc
        rw [he]; exact ht

theorem Tidy_InPin_dtor (s : Flow V) (a : Nat) (hs : Tidy s) : Tidy (InPin.dtor s a) :=
  Tidy_deleteLink s a hs

theorem Tidy_dtorLoop (ls : List Nat) :
    ∀ st : Flow V, Tidy st → Tidy (ls.foldl OutPin.dtorStep st) := by
  induction ls with
  | nil => intro st h; exact h
  | cons l ls ih =>
    intro st h
    simp only [List.foldl_cons]
    apply ih
    unfold OutPin.dtorStep
    cases hl : Arena.find st.links l with
    | none => exact h
    | some lk => exact Tidy_deleteLink st lk.right h

theorem Tidy_dtor (s : Flow V) (o : Nat) (hs : Tidy s) : Tidy (OutPin.dtor s o) := by
  cases ho : Arena.find s.outs o with
  | none =>
    have : OutPin.dtor s o = s := by unfold OutPin.dtor; rw [ho]
    rw [this]; exact hs
  | some po =>
    have h0 : Tidy ({ s with outs := Arena.modify s.outs o (fun q => { q with m_links := [] }) } :
        Flow V) := by
      intro b pb x hb hx
      simp only [Arena.find_modify] at hb
      by_cases hbo : b = o
      · simp only [hbo, if_true, ho, Option.map_some', Option.some.injEq] at hb
        subst hb
        cases hx
      · simp only [hbo, if_false] at hb
        exact hs b pb x hb hx
    have h1 := Tidy_dtorLoop po.m_links _ h0
    rw [OutPin.dtor_eq s o po ho]
    intro b pb x hb hx
    simp only [Arena.find_remove] at hb
    by_cases hbo : b = o
    · simp only [hbo, if_true] at hb
      exact Option.noConfusion hb
    · simp only [hbo, if_false] at hb
      exact h1 b pb x hb hx

theorem Reachable_inv (s : Flow V) (h : Reachable s) : WF s ∧ Tidy s := by
  induction h with
  | empty => exact ⟨WF_empty, Tidy_empty⟩
  | newIn s a p _ ha hp ih => exact ⟨WF_add_in s a p ih.1 ha hp, Tidy_newIn s a p ih.2⟩
  | newOut s o po _ ho hpo ih => exact ⟨WF_add_out s o po ih.1 ho, Tidy_newOut s o po ih.2 hpo⟩
  | setIn s i f _ hf ih => exact ⟨WF_setIn s i f ih.1 hf, Tidy_setIn s i f ih.2⟩
  | setOut s o f _ hf ih => exact ⟨WF_setOut s o f ih.1 hf, Tidy_setOut s o f ih.2 hf⟩
  | link s o i _ ih => exact ⟨WF_createLink s o i ih.1, Tidy_createLink s o i ih.1 ih.2⟩
  | unlink s i _ ih => exact ⟨WF_deleteLink s i ih.1, Tidy_deleteLink s i ih.2⟩
  | dropIn s a _ ih => exact ⟨WF_InPin_dtor s a ih.1, Tidy_InPin_dtor s a ih.2⟩
  | dropOut s o _ ih => exact ⟨WF_dtor s o ih.1, Tidy_dtor s o ih.2⟩

/-! ## Connected status of an output pin -/

theorem Reachable_deleteLinks (is : List Nat) :
    ∀ st : Flow V, Reachable st → Reachable (is.foldl InPin.deleteLink st) := by
  induction is with
  | nil => intro st h; exact h
  | cons i is ih => intro st h; exact ih _ (Reachable.unlink st i h)

theorem deleteLinks_links_sub (is : List Nat) :
    ∀ (st : Flow V) (l : Nat) (lk : Link),
      Arena.find (is.foldl InPin.deleteLink st).links l = some lk →
        Arena.find st.links l = some lk := by
  induction is with
  | nil => intro st l lk h; exact h
  | cons i is ih =>
    intro st l lk h
    exact InPin.deleteLink_links_sub st i l lk (ih _ l lk h)

theorem deleteLinks_outs (is : List Nat) :
    ∀ (st : Flow V) (o : Nat),
      (Arena.find (is.foldl InPin.deleteLink st).outs o).isSome = (Arena.find st.outs o).isSome := by
  induction is with
  | nil => intro st o; rfl
  | cons i is ih =>
    intro st o
    simp only [List.foldl_cons]
    rw [ih]
    obtain ⟨keep, hk⟩ := InPin.deleteLink_find_outs st i o
    rw [hk]
    cases Arena.find st.outs o <;> rfl

theorem deleteLink_unlinked (st : Flow V) (i j : Nat)
    (h : j = i ∨ ∀ q, Arena.find st.ins j = some q → q.m_link = none) :
    ∀ q, Arena.find (InPin.deleteLink st i).ins j = some q → q.m_link = none := by
  intro q hq
  rw [InPin.deleteLink_find_ins] at hq
  by_cases hji : j = i
  · simp only [hji, if_true] at hq
    cases hp : Arena.find st.ins i with
    | none => rw [hp] at hq; exact Option.noConfusion hq
    | some p =>
      rw [hp] at hq
      simp only [Option.map_some', Option.some.injEq] at hq
      rw [← hq]
  · simp only [hji, if_false] at hq
    rcases h with h | h
    · exact absurd h hji
    · exact h q hq

theorem deleteLinks_unlinked (is : List Nat) :
    ∀ (st : Flow V) (j : Nat),
      (j ∈ is ∨ ∀ q, Arena.find st.ins j = some q → q.m_link = none) →
        ∀ q, Arena.find (is.foldl InPin.deleteLink st).ins j = some q → q.m_link = none := by
  induction is with
  | nil =>
    intro st j h
    rcases h with h | h
    · cases h
    · exact h
  | cons i is ih =>
    intro st j h
    simp only [List.foldl_cons]
    rcases h with h | h
    · rcases List.mem_cons.mp h with h | h
      · exact ih _ j (Or.inr (deleteLink_unlinked st i j (Or.inl h)))
      · exact ih _ j (Or.inl h)
    · exact ih _ j (Or.inr (deleteLink_unlinked st i j (Or.inr h)))

theorem isConnected_iff_mem (po : OutPin V) :
    po.isConnected = true ↔ ∃ l, l ∈ po.m_links := by
  unfold OutPin.isConnected
  cases h : po.m_links with
  | nil => simp
  | cons a as => simp

/-- C22: in every reachable heap, `isConnected()` of an output pin is true
exactly when some live link has the pin at its left end.  It is false for
a new output pin, and it is false once every input pin at the right end of
a link from the pin has called `deleteLink()`. -/
theorem outIsConnected_iff (s : Flow V) (hs : Reachable s) (o : Nat) (po : OutPin V)
    (ho : Arena.find s.outs o = some po) :
    (po.isConnected = true ↔ ∃ l lk, Arena.find s.links l = some lk ∧ lk.left = o) ∧
      (∀ [Inhabited V] (tag : TypeTag) (uid : Nat) (name : String) (parent inf : Nat),
        (OutPin.new tag uid name parent inf : OutPin V).isConnected = false) ∧
      (∀ is : List Nat,
        (∀ l lk, Arena.find s.links l = some lk → lk.left = o → lk.right ∈ is) →
          Flow.outIsConnected (is.foldl InPin.deleteLink s) o = some false) := by
  obtain ⟨hw, ht⟩ := Reachable_inv s hs
  refine ⟨?_, ?_, ?_⟩
  · rw [isConnected_iff_mem]
    constructor
    · rintro ⟨l, hl⟩
      obtain ⟨lk, h1, h2⟩ := ht o po l ho hl
      exact ⟨l, lk, h1, h2⟩
    · rintro ⟨l, lk, h1, h2⟩
      obtain ⟨q, hq, hmem⟩ := hw.registered l lk h1
      rw [h2, ho] at hq
      simp only [Option.some.injEq] at hq
      subst hq
      exact ⟨l, hmem⟩
  · intro _ tag uid name parent inf
    rfl
  · intro is his
    obtain ⟨hw2, ht2⟩ := Reachable_inv _ (Reachable_deleteLinks is s hs)
    have hsome := deleteLinks_outs is s o
    rw [ho] at hsome
    cases hq : Arena.find (is.foldl InPin.deleteLink s).outs o with
    | none => rw [hq] at hsome; exact absurd hsome (by simp)
    | some q =>
      unfold Flow.outIsConnected
      rw [hq]
      simp only [Option.map_some', Option.some.injEq]
      cases hc : q.isConnected with
      | false => rfl
      | true =>
        exfalso
        obtain ⟨x, hx⟩ := (isConnected_iff_mem q).mp hc
        obtain ⟨lk, h1, h2⟩ := ht2 o q x hq hx
        have h0 := deleteLinks_links_sub is s x lk h1
        have hmem := his x lk h0 h2
        obtain ⟨p, hp, hpl⟩ := hw2.holder x lk h1
        have := deleteLinks_unlinked is s lk.right (Or.inl hmem) p hp
        rw [this] at hpl
        exact Option.noConfusion hpl

theorem sample0_reachable : Reachable sample0 := by
  have h1 := Reachable.newOut (Flow.empty : Flow Int) 3
    ((OutPin.new TypeTag.float 1 "float" 20 99).behaviour (Behaviour.const 1))
    Reachable.empty rfl rfl
  have h2 := Reachable.newOut _ 2
    ((OutPin.new TypeTag.int 2 "seven" 10 99).behaviour (Behaviour.const 7)) h1 rfl rfl
  have h3 := Reachable.newOut _ 1
    ((OutPin.new TypeTag.int 1 "five" 10 99).behaviour (Behaviour.const 5)) h2 rfl rfl
  have h4 := Reachable.newIn _ 13
    (InPin.new TypeTag.int 1 "in" 0 ConnectionFilter.SameType 10 99) h3 rfl rfl
  have h5 := Reachable.newIn _ 14
    (InPin.new TypeTag.int 2 "shut" 0 (fun _ _ => false) 30 99) h4 rfl rfl
  have h6 := Reachable.newIn _ 12
    (InPin.new TypeTag.int 1 "in" 0 ConnectionFilter.SameType 30 99) h5 rfl rfl
  exact Reachable.newIn _ 11
    (InPin.new TypeTag.int 1 "in" 0 ConnectionFilter.SameType 20 99) h6 rfl rfl

theorem fan2_reachable : Reachable fan2 :=
  Reachable.link sample1 1 12 (Reachable.link sample0 1 11 sample0_reachable)

theorem fan2_links : fan2.links = [(1, Link.new 1 12 99), (0, Link.new 1 11 99)] := rfl

/-- Witness for C22: output 1 of the sample graph fans out to the inputs 11 and
12 and is connected; after both inputs have deleted their link it is not. -/
theorem outIsConnected_iff_witness :
    Flow.outIsConnected fan2 1 = some true ∧
      Flow.outIsConnected ([11, 12].foldl InPin.deleteLink fan2) 1 = some false := by
  have hex : ∃ po, Arena.find fan2.outs 1 = some po := ⟨_, rfl⟩
  obtain ⟨po, hpo⟩ := hex
  have h := outIsConnected_iff fan2 fan2_reachable 1 po hpo
  refine ⟨?_, h.2.2 [11, 12] ?_⟩
  · unfold Flow.outIsConnected
    rw [hpo]
    simp only [Option.map_some', Option.some.injEq]
    exact h.1.mpr ⟨0, Link.new 1 11 99, rfl, rfl⟩
  · intro l lk hl _
    rw [fan2_links] at hl
    simp only [Arena.find_cons] at hl
    by_cases h1 : 1 = l
    · simp only [h1, if_true, Option.some.injEq] at hl
      subst hl
      simp [Link.right, Link.new]
    · simp only [h1, if_false] at hl
      by_cases h0 : 0 = l
      · simp only [h0, if_true, Option.some.injEq] at hl
        subst hl
        simp [Link.right, Link.new]
      · simp only [h0, if_false, Arena.find_nil] at hl
        exact Option.noConfusion hl

/-! ## The link of a pin -/

/-- C25: `getLink()` of an output pin is the empty pointer, whatever the
fan-out list holds; `getLink()` of an input pin is a pointer to a link
exactly when `isConnected()` is true, and in a reachable heap that link is
live and has the pin at its right end. -/
theorem getLink_spec (s : Flow V) (hs : Reachable s) :
    (∀ po : OutPin V, po.getLink = none) ∧
      (∀ p : InPin V, p.getLink.isSome = p.isConnected) ∧
      (∀ i p, Arena.find s.ins i = some p →
        (p.isConnected = true ↔
          ∃ l lk, p.getLink = some l ∧ Arena.find s.links l = some lk ∧ lk.right = i)) := by
  obtain ⟨hw, -⟩ := Reachable_inv s hs
  refine ⟨fun _ => rfl, fun _ => rfl, ?_⟩
  intro i p hp
  constructor
  · intro hc
    unfold InPin.isConnected at hc
    cases hl : p.m_link with
    | none => rw [hl] at hc; exact absurd hc (by simp)
    | some l =>
      obtain ⟨lk, h1, h2⟩ := hw.held i p l hp hl
      exact ⟨l, lk, hl, h1, h2⟩
  · rintro ⟨l, lk, hl, -, -⟩
    unfold InPin.isConnected
    unfold InPin.getLink at hl
    rw [hl]
    rfl

/-- Witness for C25: in the sample graph with output 1 fanned out to the inputs
11 and 12, `getLink()` of output 1 is empty and input 11 holds the live
link 0. -/
theorem getLink_spec_witness :
    (Arena.find fan2.outs 1).map OutPin.getLink = some none ∧
      Flow.outIsConnected fan2 1 = some true ∧
      Flow.inIsConnected fan2 11 = some true ∧
      ∃ p l lk, Arena.find fan2.ins 11 = some p ∧ p.getLink = some l ∧
        Arena.find fan2.links l = some lk ∧ lk.right = 11 := by
  have hex : ∃ p, Arena.find fan2.ins 11 = some p ∧ p.isConnected = true := ⟨_, rfl, rfl⟩
  obtain ⟨p, hp, hc⟩ := hex
  obtain ⟨l, lk, h1, h2, h3⟩ := ((getLink_spec fan2 fan2_reachable).2.2 11 p hp).mp hc
  exact ⟨rfl, rfl, rfl, p, l, lk, hp, h1, h2, h3⟩

end ImFlow
